import Mathlib

/-!
# OS/161 virtual memory: region directory, page table and fault handler

A shallow embedding of `kern/vm/addrspace.c` and `kern/vm/vm.c`.

* Machine words are natural numbers; every C operation that can wrap is
  reduced modulo `2^32` (`u32`, `sub32`).
* The kernel heap cells holding `region_t` nodes are a list; a pointer is an
  index into it and `NULL` is `none`.  `kmalloc` of a node yields the next
  fresh index.
* Loops that follow `next` pointers take a fuel argument, because the list a
  pointer leads to need not be null-terminated.
* The outcomes of the external allocators and of the hardware's random TLB
  slot are read from scripts held in the kernel state.
-/

namespace VM

/-! ## Constants -/

/-- Modelled from the spec: `PAGE_SIZE` of `machine/vm.h` (4 KiB pages), a header
that is not among the sources. -/
def PAGE_SIZE : Nat := 4096

/-- Modelled from the spec: `PAGE_FRAME` of `machine/vm.h`, the mask that clears
the 12 in-page offset bits of a 32-bit address. -/
def PAGE_FRAME : Nat := 0xfffff000

/-- Modelled from the spec: `MIPS_KSEG0` of `machine/vm.h`, the base of the
direct-mapped kernel segment. -/
def MIPS_KSEG0 : Nat := 0x80000000

/-- Modelled from the spec: `USERSTACK` of `machine/vm.h`, the reserved top of
the user address space. -/
def USERSTACK : Nat := 0x80000000

/-- Modelled from the spec: `PF_R` of `elf.h`, the read permission flag. -/
def PF_R : Nat := 4

/-- Modelled from the spec: `PF_W` of `elf.h`, the write permission flag. -/
def PF_W : Nat := 2

/-- Modelled from the spec: `PF_X` of `elf.h`, the execute permission flag. -/
def PF_X : Nat := 1

/-- Modelled from the spec: `ENOMEM` of `kern/errno.h` (OutOfMemory). -/
def ENOMEM : Nat := 3

/-- Modelled from the spec: `EFAULT` of `kern/errno.h` (BadMemoryAccess). -/
def EFAULT : Nat := 6

/-- Modelled from the spec: `EINVAL` of `kern/errno.h` (InvalidArgument). -/
def EINVAL : Nat := 8

/-- Modelled from the spec: `TLBLO_DIRTY` of `mips/tlb.h`, the dirty (writable)
flag of a TLB entry. -/
def TLBLO_DIRTY : Nat := 0x400

/-- Modelled from the spec: `TLBLO_VALID` of `mips/tlb.h`, the valid flag of a
TLB entry. -/
def TLBLO_VALID : Nat := 0x200

/-- Modelled from the spec: `NUM_TLB` of `mips/tlb.h`, the number of hardware
TLB slots. -/
def NUM_TLB : Nat := 64

/-- Fault type of `vm.h`: a read was attempted. -/
def VM_FAULT_READ : Int := 0

/-- Fault type of `vm.h`: a write was attempted. -/
def VM_FAULT_WRITE : Int := 1

/-- Fault type of `vm.h`: a write to a read-only page was attempted. -/
def VM_FAULT_READONLY : Int := 2

/-- Number of entries of a page-table level (`vm.h`). -/
def N_ENTRIES : Nat := 1024

/-! ## 32-bit arithmetic -/

/-- Truncation of a natural number to an unsigned 32-bit word. -/
def u32 (n : Nat) : Nat := n % 2 ^ 32

/-- Unsigned 32-bit subtraction `a - b`. -/
def sub32 (a b : Nat) : Nat := (a % 2 ^ 32 + 2 ^ 32 - b % 2 ^ 32) % 2 ^ 32

/-- Modelled from the spec: the macro `KVADDR_TO_PADDR` of `machine/vm.h`,
`kvaddr - MIPS_KSEG0` on 32-bit words. -/
def KVADDR_TO_PADDR (kvaddr : Nat) : Nat := sub32 kvaddr MIPS_KSEG0

/-- The value of a 32-bit word read as a signed `int`. -/
def toInt32 (n : Nat) : Int :=
  if n % 2 ^ 32 < 2 ^ 31 then ((n % 2 ^ 32 : Nat) : Int) else ((n % 2 ^ 32 : Nat) : Int) - 2 ^ 32

/-! ## Data model -/

/-- Result of running a kernel routine. -/
inductive Outcome (α : Type) where
  /-- The routine returned normally. -/
  | ret (v : α)
  /-- The routine dereferenced an invalid pointer (fatal kernel trap). -/
  | trap
  /-- The fuel ran out before the routine returned. -/
  | timeout

/-- Modelled from the spec: `region_t` of `addrspace.h` (not among the
sources), with the fields the code reads and writes. -/
structure region_t where
  start : Nat
  size : Nat
  perm : Nat
  old_perm : Nat
  next : Option Nat
deriving DecidableEq, Repr

/-- A second-level page table: 1024 frame entries, `0` meaning unmapped. -/
abbrev PageTable2 := Nat → Nat

/-- A first-level page table: 1024 pointers to second-level tables. -/
abbrev PageTable1 := Nat → Option PageTable2

/-- Modelled from the spec: `struct addrspace` of `addrspace.h` (not among the
sources): the head of the region list and the page-table root. -/
structure addrspace where
  regions : Option Nat
  page_table : Option PageTable1

/-- Modelled from the spec: the part of `struct proc` (`proc.h`) that
`proc_getas` reads. -/
structure proc where
  p_addrspace : Option addrspace

/-- An object handed to `kfree` or `free_kpages`.  Region nodes and pages are
named by their address; page tables and the address-space record, which the
model holds as values, are named by their place in the address space being
torn down. -/
inductive kobj where
  /-- The region node in heap cell `p`. -/
  | region (p : Nat)
  /-- The page at kernel virtual address `kvaddr`. -/
  | frame (kvaddr : Nat)
  /-- The second-level page table at first-level index `i`. -/
  | table2 (i : Nat)
  /-- The first-level page table. -/
  | table1
  /-- The `struct addrspace` itself. -/
  | addrspace
deriving DecidableEq, Repr

/-- The kernel state the virtual-memory code reads and writes. -/
structure Kernel where
  /-- The global counter `run_number`. -/
  run_number : Nat
  /-- The global `curproc`. -/
  curproc : Option proc
  /-- Heap cells holding region nodes; a region pointer is an index. -/
  nodes : List region_t
  /-- Whether the n-th call of `kmalloc` succeeds. -/
  kmalloc_ok : Nat → Bool
  /-- Number of `kmalloc` calls made so far. -/
  kmalloc_calls : Nat
  /-- Kernel virtual address returned by the n-th call of `alloc_kpages`
  (`0` on failure). -/
  kpages : Nat → Nat
  /-- Number of `alloc_kpages` calls made so far. -/
  kpages_calls : Nat
  /-- Pages handed out by `alloc_kpages` and not freed. -/
  live_frames : List Nat
  /-- Kernel memory, byte by byte. -/
  mem : Nat → Nat
  /-- The hardware TLB: slot index to `(entryhi, entrylo)`. -/
  tlb : Nat → Nat × Nat
  /-- The slot the hardware picks at the n-th `tlb_random`. -/
  tlb_slot : Nat → Nat
  /-- Number of TLB writes made so far. -/
  tlb_writes : Nat
  /-- The objects freed so far (`kfree`, `free_kpages`), in call order. -/
  freed : List kobj := []

/-! ## External collaborators -/

/-- The external `kmalloc`: consumes one entry of the script. -/
def kmalloc (k : Kernel) : Bool × Kernel :=
  (k.kmalloc_ok k.kmalloc_calls, { k with kmalloc_calls := k.kmalloc_calls + 1 })

/-- The external `alloc_kpages(1)`: consumes one entry of the script and
records the page as live when it is not `0`. -/
def alloc_kpages (k : Kernel) : Nat × Kernel :=
  let page := k.kpages k.kpages_calls
  (page, { k with kpages_calls := k.kpages_calls + 1,
                  live_frames := if page = 0 then k.live_frames else page :: k.live_frames })

/-- The library routine `bzero(page, len)` on kernel memory. -/
def bzero (k : Kernel) (page len : Nat) : Kernel :=
  { k with mem := fun a => if page ≤ a ∧ a < page + len then 0 else k.mem a }

/-- The hardware operation `tlb_random(entryhi, entrylo)`: overwrites the slot
the hardware picks. -/
def tlb_random (k : Kernel) (entryhi entrylo : Nat) : Kernel :=
  let slot := k.tlb_slot k.tlb_writes % NUM_TLB
  { k with tlb := fun i => if i = slot then (entryhi, entrylo) else k.tlb i,
           tlb_writes := k.tlb_writes + 1 }

/-! ## Region directory (`addrspace.c`) -/

/-- The function `as_create`, given a successful `kmalloc`: an address space
with no regions and no page table. -/
def as_create : addrspace := { regions := none, page_table := none }

/-- Assignment `p->next = v` on the heap of region nodes. -/
def set_next (nodes : List region_t) (p : Nat) (v : Option Nat) : List region_t :=
  match nodes[p]? with
  | some r => nodes.set p { r with next := v }
  | none => nodes

/-- The `while` loop of `region_insert`: advances `(temp_region, curr_region)`
while `curr_region != NULL && curr_region->start < new_region->start`. -/
def region_insert_loop (nodes : List region_t) (start : Nat) :
    Nat → Nat → Option Nat → Outcome (Nat × Option Nat)
  | 0, _, _ => .timeout
  | _ + 1, temp, none => .ret (temp, none)
  | fuel + 1, temp, some curr =>
    match nodes[curr]? with
    | none => .trap
    | some r =>
      if r.start < start then region_insert_loop nodes start fuel curr r.next
      else .ret (temp, some curr)

/-- The function `region_insert`.  The node is zeroed before the result of
`kmalloc` is tested, so a failed allocation is a null-pointer write. -/
def region_insert (fuel : Nat) (k : Kernel) (as : addrspace)
    (start size permissions : Nat) : Outcome (Nat × Kernel × addrspace) :=
  let (ok, k1) := kmalloc k
  if !ok then .trap
  else
    let new_region := k1.nodes.length
    let nodes1 := k1.nodes ++
      [{ start := start, size := size, perm := permissions, old_perm := permissions,
         next := none }]
    match as.regions with
    | none => .ret (0, { k1 with nodes := nodes1 }, { as with regions := some new_region })
    | some head =>
      match region_insert_loop nodes1 start fuel head (some head) with
      | .ret (temp, curr) =>
        let nodes2 := set_next nodes1 temp (some new_region)
        let nodes3 := set_next nodes2 new_region curr
        .ret (0, { k1 with nodes := nodes3 }, as)
      | .trap => .trap
      | .timeout => .timeout

/-- The function `as_define_region`. -/
def as_define_region (fuel : Nat) (k : Kernel) (as : Option addrspace)
    (vaddr memsize readable writeable executable : Nat) :
    Outcome (Nat × Kernel × Option addrspace) :=
  match as with
  | none => .ret (EFAULT, k, none)
  | some a =>
    if u32 (vaddr + memsize) ≥ USERSTACK then .ret (ENOMEM, k, some a)
    else
      let memsize1 := u32 (memsize + (vaddr &&& (PAGE_FRAME ^^^ 0xffffffff)))
      let vaddr1 := vaddr &&& PAGE_FRAME
      let memsize2 := u32 (memsize1 + PAGE_SIZE - 1) &&& PAGE_FRAME
      let perm := readable ||| writeable ||| executable
      match region_insert fuel k a vaddr1 memsize2 perm with
      | .ret (result, k1, a1) =>
        if result ≠ 0 then .ret (result, k1, some a1) else .ret (0, k1, some a1)
      | .trap => .trap
      | .timeout => .timeout

/-- The loop of `region_find`: the first region, in list order, whose bounds
contain `address`. -/
def region_find_loop (nodes : List region_t) (address : Nat) :
    Nat → Option Nat → Outcome (Option Nat)
  | 0, _ => .timeout
  | _ + 1, none => .ret none
  | fuel + 1, some region =>
    match nodes[region]? with
    | none => .trap
    | some r =>
      let region_start := if r.start = USERSTACK then sub32 (sub32 r.start r.size) 1 else r.start
      let region_end := if r.start = USERSTACK then r.start else sub32 (u32 (r.start + r.size)) 1
      if address ≥ region_start ∧ address ≤ region_end then .ret (some region)
      else region_find_loop nodes address fuel r.next

/-- The function `region_find`. -/
def region_find (fuel : Nat) (k : Kernel) (as : addrspace) (address : Nat) :
    Outcome (Option Nat) :=
  region_find_loop k.nodes address fuel as.regions

/-- The function `region_permissions`: `-1` when no region owns the address. -/
def region_permissions (fuel : Nat) (k : Kernel) (as : addrspace) (address : Nat) :
    Outcome Int :=
  match region_find fuel k as address with
  | .ret none => .ret (-1)
  | .ret (some region) =>
    match k.nodes[region]? with
    | some r => .ret (toInt32 r.perm)
    | none => .trap
  | .trap => .trap
  | .timeout => .timeout

/-- The loop of `as_prepare_load`. -/
def as_prepare_load_loop : Nat → List region_t → Option Nat → Outcome (List region_t)
  | 0, _, _ => .timeout
  | _ + 1, nodes, none => .ret nodes
  | fuel + 1, nodes, some region =>
    match nodes[region]? with
    | none => .trap
    | some r =>
      as_prepare_load_loop fuel
        (nodes.set region { r with old_perm := r.perm, perm := PF_R ||| PF_W }) r.next

/-- The function `as_prepare_load`. -/
def as_prepare_load (fuel : Nat) (k : Kernel) (as : Option addrspace) :
    Outcome (Nat × Kernel) :=
  match as with
  | none => .ret (EFAULT, k)
  | some a =>
    match as_prepare_load_loop fuel k.nodes a.regions with
    | .ret nodes => .ret (0, { k with nodes := nodes })
    | .trap => .trap
    | .timeout => .timeout

/-- The loop of `as_complete_load`. -/
def as_complete_load_loop : Nat → List region_t → Option Nat → Outcome (List region_t)
  | 0, _, _ => .timeout
  | _ + 1, nodes, none => .ret nodes
  | fuel + 1, nodes, some region =>
    match nodes[region]? with
    | none => .trap
    | some r =>
      as_complete_load_loop fuel (nodes.set region { r with perm := r.old_perm }) r.next

/-- The function `as_complete_load`. -/
def as_complete_load (fuel : Nat) (k : Kernel) (as : Option addrspace) :
    Outcome (Nat × Kernel) :=
  match as with
  | none => .ret (EFAULT, k)
  | some a =>
    match as_complete_load_loop fuel k.nodes a.regions with
    | .ret nodes => .ret (0, { k with nodes := nodes })
    | .trap => .trap
    | .timeout => .timeout

/-! ## Page table and fault handler (`vm.c`) -/

/-- The function `pt_init`: allocates the first-level table, every entry
`NULL`. -/
def pt_init (k : Kernel) (as : addrspace) : Nat × Kernel × addrspace :=
  let (ok, k1) := kmalloc k
  if !ok then (ENOMEM, k1, { as with page_table := none })
  else (0, k1, { as with page_table := some (fun _ => none) })

/-- The function `pt_create`: allocates a zeroed second-level table at
first-level index `pt1`. -/
def pt_create (k : Kernel) (page_table : PageTable1) (pt1 : Nat) :
    Nat × Kernel × PageTable1 :=
  let (ok, k1) := kmalloc k
  if !ok then (ENOMEM, k1, fun i => if i = pt1 then none else page_table i)
  else (0, k1, fun i => if i = pt1 then some (fun _ => 0) else page_table i)

/-- The function `pt_insert`: allocates one frame, zero-fills it and records
its page-aligned physical address at `[pt1][pt2]`. -/
def pt_insert (k : Kernel) (page_table : PageTable1) (pt1 pt2 : Nat) :
    Outcome (Nat × Kernel × PageTable1) :=
  let (page, k1) := alloc_kpages k
  if page = 0 then .ret (ENOMEM, k1, page_table)
  else
    let k2 := bzero k1 page PAGE_SIZE
    let frame := KVADDR_TO_PADDR page
    match page_table pt1 with
    | none => .trap
    | some t =>
      .ret (0, k2, fun i =>
        if i = pt1 then some (fun j => if j = pt2 then frame &&& PAGE_FRAME else t j)
        else page_table i)

/-- Writes the address space back into the current process. -/
def put_as (k : Kernel) (p : proc) (as : addrspace) : Kernel :=
  { k with curproc := some { p with p_addrspace := some as } }

/-- The first-level index `vm_fault` computes for a fault address. -/
def vm_fault_pt1 (faultaddress : Nat) : Nat :=
  (KVADDR_TO_PADDR (faultaddress &&& PAGE_FRAME) >>> 22) &&& 0x3FF

/-- The second-level index `vm_fault` computes for a fault address. -/
def vm_fault_pt2 (faultaddress : Nat) : Nat :=
  (u32 (KVADDR_TO_PADDR (faultaddress &&& PAGE_FRAME) <<< 10) >>> 22) &&& 0x3FF

/-- The part of `vm_fault` after the indices are computed: `faultaddress` is the
page-aligned fault address and `pt1`, `pt2` the two indices.  Grows the page
table where a level is absent and loads the TLB. -/
def vm_fault_walk (k : Kernel) (p : proc) (as : addrspace) (faultaddress pt1 pt2 : Nat) :
    Outcome (Nat × Kernel) :=
  let (error, k, as) :=
    match as.page_table with
    | none => pt_init k as
    | some _ => (0, k, as)
  if error ≠ 0 then .ret (error, put_as k p as)
  else
    match as.page_table with
    | none => .trap
    | some page_table =>
      let (error, k, page_table) :=
        match page_table pt1 with
        | none => pt_create k page_table pt1
        | some _ => (0, k, page_table)
      if error ≠ 0 then .ret (error, put_as k p { as with page_table := some page_table })
      else
        match page_table pt1 with
        | none => .trap
        | some t =>
          match (if t pt2 = 0 then pt_insert k page_table pt1 pt2
                 else .ret (0, k, page_table)) with
          | .trap => .trap
          | .timeout => .timeout
          | .ret (error, k, page_table) =>
            if error ≠ 0 then
              .ret (error, put_as k p { as with page_table := some page_table })
            else
              match page_table pt1 with
              | none => .trap
              | some t =>
                let ehi := faultaddress
                let elo := t pt2 ||| TLBLO_DIRTY ||| TLBLO_VALID
                .ret (0, tlb_random (put_as k p { as with page_table := some page_table })
                  ehi elo)

/-- The second half of `vm_fault`, from `faultaddress & PAGE_FRAME` on. -/
def vm_fault_map (k : Kernel) (p : proc) (as : addrspace) (faultaddress : Nat) :
    Outcome (Nat × Kernel) :=
  vm_fault_walk k p as (faultaddress &&& PAGE_FRAME) (vm_fault_pt1 faultaddress)
    (vm_fault_pt2 faultaddress)

/-- The function `vm_fault`.  The pair `splhigh`/`splx` around the TLB write
restores the interrupt level it found and is left out. -/
def vm_fault (fuel : Nat) (k : Kernel) (faulttype : Int) (faultaddress : Nat) :
    Outcome (Nat × Kernel) :=
  let k := { k with run_number := u32 (k.run_number + 1) }
  match k.curproc with
  | none => .ret (EFAULT, k)
  | some p =>
    if faultaddress = 0 then .ret (EFAULT, k)
    else
      match p.p_addrspace with
      | none => .ret (EFAULT, k)
      | some as =>
        match as.regions with
        | none => .ret (EFAULT, k)
        | some _ =>
          match region_find fuel k as faultaddress with
          | .trap => .trap
          | .timeout => .timeout
          | .ret found =>
            let stack_end := sub32 USERSTACK (u32 (16 * PAGE_SIZE))
            if found = none ∧ ¬ (USERSTACK > faultaddress ∧ faultaddress > stack_end) then
              .ret (EFAULT, k)
            else if faulttype = VM_FAULT_READ ∨ faulttype = VM_FAULT_WRITE then
              vm_fault_map k p as faultaddress
            else if faulttype = VM_FAULT_READONLY then .ret (EFAULT, k)
            else .ret (EINVAL, k)

/-! ## Observing the region list -/

/-- The start addresses met by following `next` from `p`, for at most `fuel`
nodes. -/
def region_walk (nodes : List region_t) : Nat → Option Nat → List Nat
  | 0, _ => []
  | _ + 1, none => []
  | fuel + 1, some p =>
    match nodes[p]? with
    | none => []
    | some r => r.start :: region_walk nodes fuel r.next

/-- A run of `as_define_region` calls `(vaddr, memsize, r, w, x)` on the same
address space, each of which must return `0`. -/
def define_regions (fuel : Nat) :
    Kernel → addrspace → List (Nat × Nat × Nat × Nat × Nat) → Outcome (Kernel × addrspace)
  | k, as, [] => .ret (k, as)
  | k, as, (vaddr, memsize, r, w, x) :: rest =>
    match as_define_region fuel k (some as) vaddr memsize r w x with
    | .ret (0, k1, some as1) => define_regions fuel k1 as1 rest
    | .ret _ => .trap
    | .trap => .trap
    | .timeout => .timeout

/-- A kernel with an empty heap in which every allocation succeeds, frames
being handed out upwards from kernel address `0x80100000`. -/
def boot : Kernel :=
  { run_number := 0, curproc := none, nodes := [],
    kmalloc_ok := fun _ => true, kmalloc_calls := 0,
    kpages := fun n => 0x80100000 + n * 4096, kpages_calls := 0, live_frames := [],
    mem := fun _ => 0, tlb := fun _ => (0, 0), tlb_slot := fun n => n, tlb_writes := 0 }

/-- Whether following `next` from `p` visits exactly the cells `ps`, in this
order, and then reaches `NULL`: the region list from `p` is null-terminated. -/
def is_list (nodes : List region_t) : Option Nat → List Nat → Bool
  | none, [] => true
  | some p, q :: qs =>
    p == q &&
      match nodes[q]? with
      | some r => is_list nodes r.next qs
      | none => false
  | _, _ => false

/-- Whether the cell `p` holds a region with `start <= a < start + size`. -/
def region_contains (nodes : List region_t) (a : Nat) (p : Nat) : Bool :=
  match nodes[p]? with
  | some r => decide (r.start ≤ a ∧ a < r.start + r.size)
  | none => false

/-- The address space of the current process (`proc_getas`). -/
def proc_getas (k : Kernel) : Option addrspace :=
  match k.curproc with
  | some p => p.p_addrspace
  | none => none

/-- The page-table entry at `[i][j]` of an address space, `0` when a level is
absent. -/
def pt_entry (as : addrspace) (i j : Nat) : Nat :=
  match as.page_table with
  | some t =>
    match t i with
    | some t2 => t2 j
    | none => 0
  | none => 0

/-- The region-list head of the current process's address space, `NULL` when
there is no process or no address space. -/
def cur_regions (k : Kernel) : Option Nat :=
  match proc_getas k with
  | some as => as.regions
  | none => none

/-- The common shape of the loops of `as_prepare_load` and `as_complete_load`:
rewrite every cell met from `p` on with `f`. -/
def for_each_region (f : region_t → region_t) :
    Nat → List region_t → Option Nat → Outcome (List region_t)
  | 0, _, _ => .timeout
  | _ + 1, nodes, none => .ret nodes
  | fuel + 1, nodes, some region =>
    match nodes[region]? with
    | none => .trap
    | some r => for_each_region f fuel (nodes.set region (f r)) (f r).next

/-- A two-region address space: `[0x1000, 0x2000)` read+execute followed by
`[0x3000, 0x5000)` read+write. -/
def sample_as : addrspace := { regions := some 0, page_table := none }

/-- A kernel whose current process owns `sample_as`. -/
def sample : Kernel :=
  { boot with
    nodes := [⟨0x1000, 0x1000, 5, 5, some 1⟩, ⟨0x3000, 0x2000, 6, 6, none⟩],
    kmalloc_calls := 2,
    curproc := some { p_addrspace := some sample_as } }

/-- Modelled from the spec: the macro `TLBHI_INVALID` of `mips/tlb.h`, an
`entryhi` value in the kernel segment that no user address matches. -/
def TLBHI_INVALID (entryno : Nat) : Nat := u32 ((0x80000 + entryno) <<< 12)

/-- Modelled from the spec: the macro `TLBLO_INVALID` of `mips/tlb.h`, an
`entrylo` value with the valid bit clear. -/
def TLBLO_INVALID : Nat := 0

/-- The hardware operation `tlb_write(entryhi, entrylo, index)`: overwrites the
slot `index`. -/
def tlb_write (k : Kernel) (entryhi entrylo index : Nat) : Kernel :=
  { k with tlb := fun i => if i = index then (entryhi, entrylo) else k.tlb i,
           tlb_writes := k.tlb_writes + 1 }

/-- The function `tlb_flush` (the same text in `tlb.c` and `addrspace.c`):
writes an invalid entry into every slot `0 .. NUM_TLB - 1`.  The pair
`splhigh`/`splx` restores the interrupt level it found and is left out. -/
def tlb_flush (k : Kernel) : Kernel :=
  (List.range NUM_TLB).foldl (fun k i => tlb_write k (TLBHI_INVALID i) TLBLO_INVALID i) k

/-- The function `as_activate`. -/
def as_activate (k : Kernel) : Kernel :=
  match proc_getas k with
  | none => k
  | some _ => tlb_flush k

/-- The function `as_deactivate`. -/
def as_deactivate (k : Kernel) : Kernel := tlb_flush k

/-! ## Extents of regions -/

/-- Modelled from the spec: the macro `PADDR_TO_KVADDR` of `machine/vm.h`,
`paddr + MIPS_KSEG0` on 32-bit words. -/
def PADDR_TO_KVADDR (paddr : Nat) : Nat := u32 (paddr + MIPS_KSEG0)

/-- The external `kfree`: records the object as freed. -/
def kfree (k : Kernel) (o : kobj) : Kernel :=
  { k with freed := k.freed ++ [o] }

/-- The external `free_kpages(addr)`: takes the page out of the live set and
records it as freed. -/
def free_kpages (k : Kernel) (addr : Nat) : Kernel :=
  { k with live_frames := k.live_frames.erase addr, freed := k.freed ++ [.frame addr] }

/-- The library routine `memmove(dst, src, len)` on kernel memory. -/
def memmove (k : Kernel) (dst src len : Nat) : Kernel :=
  { k with mem := fun a => if dst ≤ a ∧ a < dst + len then k.mem (src + (a - dst)) else k.mem a }

/-- The loop of `pt_destroy` over the second-level indices `js`: frees the page
of every non-zero entry. -/
def pt_destroy_loop (page_table : PageTable2) : List Nat → Kernel → Kernel
  | [], k => k
  | i :: js, k =>
    if page_table i ≠ 0 then
      pt_destroy_loop page_table js (free_kpages k (PADDR_TO_KVADDR (page_table i &&& PAGE_FRAME)))
    else pt_destroy_loop page_table js k

/-- The function `pt_destroy` on entry `i` of the first-level table: nothing
for `NULL`, else frees every mapped page and then the table. -/
def pt_destroy (k : Kernel) (i : Nat) (page_table : Option PageTable2) : Kernel :=
  match page_table with
  | none => k
  | some t => kfree (pt_destroy_loop t (List.range N_ENTRIES) k) (.table2 i)

/-- The first loop of `as_destroy`: frees the region nodes from `curr` on.
Reading `curr->next` from a node already freed is a fatal use after free. -/
def as_destroy_regions : Nat → Kernel → Option Nat → Outcome Kernel
  | 0, _, _ => .timeout
  | _ + 1, k, none => .ret k
  | fuel + 1, k, some curr =>
    if kobj.region curr ∈ k.freed then .trap
    else
      match k.nodes[curr]? with
      | none => .trap
      | some r => as_destroy_regions fuel (kfree k (.region curr)) r.next

/-- The second loop of `as_destroy`: `pt_destroy` on every first-level entry. -/
def as_destroy_tables (page_table : PageTable1) : List Nat → Kernel → Kernel
  | [], k => k
  | i :: is, k => as_destroy_tables page_table is (pt_destroy k i (page_table i))

/-- The function `as_destroy`. -/
def as_destroy (fuel : Nat) (k : Kernel) (as : addrspace) : Outcome Kernel :=
  match as_destroy_regions fuel k as.regions with
  | .ret k1 =>
    let k2 :=
      match as.page_table with
      | some t => kfree (as_destroy_tables t (List.range N_ENTRIES) k1) .table1
      | none => k1
    .ret (kfree k2 .addrspace)
  | .trap => .trap
  | .timeout => .timeout

/-- The inner loop of `pt_copy` over the second-level indices `js`, for the
first-level index `i`: copies every mapped page into a newly allocated one. -/
def pt_copy_inner (old2 : PageTable2) (i : Nat) :
    List Nat → Kernel → PageTable1 → Outcome (Nat × Kernel × PageTable1)
  | [], k, new_table => .ret (0, k, new_table)
  | j :: js, k, new_table =>
    if old2 j = 0 then pt_copy_inner old2 i js k new_table
    else
      let old_frame := PADDR_TO_KVADDR (old2 j)
      let (new_frame, k1) := alloc_kpages k
      if new_frame = 0 then .ret (ENOMEM, kfree k1 .table1, new_table)
      else
        let k2 := bzero k1 new_frame PAGE_SIZE
        let k3 := memmove k2 new_frame old_frame PAGE_SIZE
        match new_table i with
        | none => .trap
        | some t =>
          pt_copy_inner old2 i js k3 (fun x =>
            if x = i then
              some (fun y => if y = j then KVADDR_TO_PADDR new_frame &&& PAGE_FRAME else t y)
            else new_table x)

/-- The outer loop of `pt_copy` over the first-level indices `is`. -/
def pt_copy_outer (old_table : PageTable1) :
    List Nat → Kernel → PageTable1 → Outcome (Nat × Kernel × PageTable1)
  | [], k, new_table => .ret (0, k, new_table)
  | i :: is, k, new_table =>
    match old_table i with
    | none => pt_copy_outer old_table is k new_table
    | some old2 =>
      let (error, k1, new_table1) := pt_create k new_table i
      if error ≠ 0 then .ret (error, kfree k1 .table1, new_table1)
      else
        match pt_copy_inner old2 i (List.range N_ENTRIES) k1 new_table1 with
        | .ret (error, k2, new_table2) =>
          if error ≠ 0 then .ret (error, k2, new_table2)
          else pt_copy_outer old_table is k2 new_table2
        | .trap => .trap
        | .timeout => .timeout

/-- The function `pt_copy`; `ret` is the value of `*ret` before the call and the
third component of the result its value after. -/
def pt_copy (k : Kernel) (old_table : Option PageTable1) (ret : Option PageTable1) :
    Outcome (Nat × Kernel × Option PageTable1) :=
  match old_table with
  | none => .ret (0, k, ret)
  | some old =>
    let (ok, k1) := kmalloc k
    if !ok then .ret (ENOMEM, k1, ret)
    else
      match pt_copy_outer old (List.range N_ENTRIES) k1 (fun _ => none) with
      | .ret (error, k2, new_table) =>
        if error ≠ 0 then .ret (error, k2, ret) else .ret (0, k2, some new_table)
      | .trap => .trap
      | .timeout => .timeout

/-- The loop of `as_copy` over the regions of the old address space: defines
each of them in the new one and stops at the first call that fails. -/
def as_copy_regions (fuel : Nat) :
    Nat → Kernel → addrspace → Option Nat → Outcome (Nat × Kernel × addrspace)
  | 0, _, _, _ => .timeout
  | _ + 1, k, new_as, none => .ret (0, k, new_as)
  | n + 1, k, new_as, some region =>
    match k.nodes[region]? with
    | none => .trap
    | some r =>
      match as_define_region fuel k (some new_as) r.start r.size
          (r.perm &&& PF_R) (r.perm &&& PF_W) (r.perm &&& PF_X) with
      | .ret (result, k1, some new_as1) =>
        if result ≠ 0 then .ret (result, k1, new_as1)
        else as_copy_regions fuel n k1 new_as1 r.next
      | .ret (_, _, none) => .trap
      | .trap => .trap
      | .timeout => .timeout

/-- The function `as_copy`; the third component of the result is the address
space stored through `ret`, `none` when nothing was stored.  As in
`as_create`, the new record is zeroed before the result of `kmalloc` is tested,
so a failed allocation is a null-pointer write. -/
def as_copy (fuel : Nat) (k : Kernel) (old : addrspace) :
    Outcome (Nat × Kernel × Option addrspace) :=
  let (ok, k1) := kmalloc k
  if !ok then .trap
  else
    match as_copy_regions fuel fuel k1 as_create old.regions with
    | .ret (result, k2, new_as) =>
      if result ≠ 0 then
        match as_destroy fuel k2 new_as with
        | .ret k3 => .ret (result, k3, none)
        | .trap => .trap
        | .timeout => .timeout
      else
        let (_, k3, new_as1) := pt_init k2 new_as
        match pt_copy k3 old.page_table new_as1.page_table with
        | .ret (result, k4, pt) =>
          if result ≠ 0 then
            match as_destroy fuel k4 { new_as1 with page_table := pt } with
            | .ret k5 => .ret (result, k5, none)
            | .trap => .trap
            | .timeout => .timeout
          else .ret (0, k4, some { new_as1 with page_table := pt })
        | .trap => .trap
        | .timeout => .timeout
    | .trap => .trap
    | .timeout => .timeout

/-- A page as the frame allocator hands it out: page-aligned, in the
direct-mapped kernel segment above physical frame 0, and within 32 bits. -/
def good_page (p : Nat) : Prop :=
  p % PAGE_SIZE = 0 ∧ MIPS_KSEG0 + PAGE_SIZE ≤ p ∧ p + PAGE_SIZE ≤ 2 ^ 32

/-- The allocator only returns pages that are not currently allocated: every
page the script holds for a coming `alloc_kpages` call is a `good_page`, is not
live now and differs from the page of every other coming call. -/
def fresh_allocator (k : Kernel) : Prop :=
  ∀ n, k.kpages_calls ≤ n → k.kpages n ≠ 0 →
    good_page (k.kpages n) ∧ k.kpages n ∉ k.live_frames ∧
    ∀ m, k.kpages_calls ≤ m → m ≠ n → k.kpages m ≠ k.kpages n

/-- The two-region sample with a frame allocator that has sixteen pages to
hand out, from kernel address `0x80100000` upwards, and then fails. -/
def sample_finite : Kernel :=
  { sample with kpages := fun n => if n < 16 then 0x80100000 + n * 4096 else 0 }

/-! ## Copying a page table (`pt_copy`) -/

/-- The entry at `[i][j]` of the page table with root pointer `t`, `0` when a
level is absent. -/
def table_entry (t : Option PageTable1) (i j : Nat) : Nat :=
  match t with
  | some t1 =>
    match t1 i with
    | some t2 => t2 j
    | none => 0
  | none => 0

/-- The loop invariant of `pt_copy`, relating the kernel `k` and the new table
`nt` to the kernel `k0` at entry and the old table: the allocator stays fresh,
live pages stay live, every page allocated since is a page; every entry of
the new table sits where the old table has one, names a page allocated since
entry and holds the bytes the old page had at entry; the slots `D` already
visited are copied; no two slots of the new table share a frame; memory outside
the pages allocated since entry is as at entry. -/
def copy_inv (k0 : Kernel) (old : PageTable1) (D : Nat → Nat → Prop) (k : Kernel)
    (nt : PageTable1) : Prop :=
  fresh_allocator k ∧
  (∀ q, q ∈ k0.live_frames → q ∈ k.live_frames) ∧
  (∀ q, q ∈ k.live_frames → q ∉ k0.live_frames → good_page q) ∧
  (∀ i j, table_entry (some nt) i j ≠ 0 →
    table_entry (some old) i j ≠ 0 ∧
    ∃ q, good_page q ∧ q ∈ k.live_frames ∧ q ∉ k0.live_frames ∧
      table_entry (some nt) i j = KVADDR_TO_PADDR q &&& PAGE_FRAME ∧
      ∀ off, off < PAGE_SIZE →
        k.mem (q + off) = k0.mem (PADDR_TO_KVADDR (table_entry (some old) i j) + off)) ∧
  (∀ i j, D i j → table_entry (some old) i j ≠ 0 → table_entry (some nt) i j ≠ 0) ∧
  (∀ i j i2 j2, table_entry (some nt) i j ≠ 0 →
    table_entry (some nt) i j = table_entry (some nt) i2 j2 → i = i2 ∧ j = j2) ∧
  (∀ a, (∀ q, q ∈ k.live_frames → q ∉ k0.live_frames → ¬ (q ≤ a ∧ a < q + PAGE_SIZE)) →
    k.mem a = k0.mem a)

/-- A page table with one mapped page: entry `[0][1]` names the frame at
physical address `0x100000`. -/
def sample_table : PageTable1 :=
  fun i => if i = 0 then some (fun j => if j = 1 then 0x100000 else 0) else none

/-- The sample kernel after that frame was allocated and the byte `7` stored at
offset `4` of it. -/
def sample_mapped : Kernel :=
  { sample_finite with
    kpages_calls := 1, live_frames := [0x80100000],
    mem := fun a => if a = 0x80100004 then 7 else 0 }

/-! ## `tlb_insert` (`addrspace.c` and `tlb.c`) -/

/-- C division `a / b` on `int`: no value when the divisor is `0`. -/
def c_div (a b : Int) : Option Int := if b = 0 then none else some (Int.tdiv a b)

/-- The function `tlb_insert` of `addrspace.c`.  The pair `splhigh`/`splx`
restores the interrupt level it found and is left out. -/
def tlb_insert (k : Kernel) (page_table_entry address : Nat) : Outcome (Nat × Kernel) :=
  let entryhi := address &&& PAGE_FRAME
  let entrylo := page_table_entry
  .ret (0, tlb_random k entryhi entrylo)

/-- The function `tlb_insert` of `tlb.c`: the same statements with
`int x = 1 / 0;` after the first; a division by zero is a fatal trap. -/
def tlb_insert_tlb_c (k : Kernel) (page_table_entry address : Nat) : Outcome (Nat × Kernel) :=
  let entryhi := address &&& PAGE_FRAME
  match c_div 1 0 with
  | none => .trap
  | some _ =>
    let entrylo := page_table_entry
    .ret (0, tlb_random k entryhi entrylo)

/-! ## `as_define_stack` -/

/-- The function `as_define_stack`: the return value, the kernel state and the
value stored through `stackptr`.  The call of `as_define_region` that the
source holds is commented out, and `as` is not used. -/
def as_define_stack (k : Kernel) (as : Option addrspace) : Nat × Kernel × Nat :=
  let _ := as
  (0, k, USERSTACK)

/-! ## `vm_tlbshootdown` -/

/-- How a routine that can call `panic` ends. -/
inductive Halt (α : Type) where
  /-- The routine returned normally. -/
  | returned (v : α)
  /-- The kernel stopped in `panic`, in state `k`, after printing `msg`. -/
  | panicked (k : Kernel) (msg : String)

/-- Modelled from the spec: the external `panic` of `lib.h`, which prints its
message and stops the kernel without returning. -/
def panic {α : Type} (k : Kernel) (msg : String) : Halt α := .panicked k msg

/-- The function `vm_tlbshootdown`; `ts` is the pointer it is given. -/
def vm_tlbshootdown (k : Kernel) (ts : Option Nat) : Halt Unit :=
  let _ := ts
  panic k "vm tried to do tlb shootdown?!\n"

/-! ## `add_entries` -/

/-- The first-level index `add_entries` computes, `address >> 22`. -/
def add_entries_p1 (address : Nat) : Nat := address >>> 22

/-- The second-level index `add_entries` computes, `(address << 10) >> 22` on
32-bit words. -/
def add_entries_p2 (address : Nat) : Nat := u32 (address <<< 10) >>> 22

/-- The function `add_entries`, which reads `page_table[p1][p2]` without testing
either pointer. -/
def add_entries (fuel : Nat) (k : Kernel) (as : addrspace) (address : Nat) : Outcome Nat :=
  match as.page_table with
  | none => .trap
  | some page_table =>
    let p1 := add_entries_p1 address
    let p2 := add_entries_p2 address
    match page_table p1 with
    | none => .trap
    | some t =>
      if t p2 ≠ 0 then .ret 0
      else
        match region_permissions fuel k as address with
        | .ret perm => if perm = -1 then .ret EFAULT else .ret 0
        | .trap => .trap
        | .timeout => .timeout

/-! ## Page tables built by the code -/

/-- Every entry of the page table is a multiple of the page size. -/
def page_aligned_entries (t : Option PageTable1) : Prop :=
  ∀ i j, table_entry t i j % PAGE_SIZE = 0

/-- The page tables the code can build: the `NULL` root of `as_create`, and what
`pt_init`, `pt_create`, `pt_insert`, `pt_copy` and `vm_fault` leave behind,
whatever they return, when they start from such a table. -/
inductive pt_reachable : Option PageTable1 → Prop where
  | null : pt_reachable none
  | init (k : Kernel) (as : addrspace) : pt_reachable (pt_init k as).2.2.page_table
  | create (k : Kernel) (t : PageTable1) (i : Nat) :
      pt_reachable (some t) → pt_reachable (some (pt_create k t i).2.2)
  | insert (k : Kernel) (t : PageTable1) (i j e : Nat) (k1 : Kernel) (t1 : PageTable1) :
      pt_reachable (some t) → pt_insert k t i j = .ret (e, k1, t1) → pt_reachable (some t1)
  | copy (k : Kernel) (old ret : Option PageTable1) (e : Nat) (k1 : Kernel)
      (new : Option PageTable1) :
      pt_reachable ret → pt_copy k old ret = .ret (e, k1, new) → pt_reachable new
  | fault (fuel : Nat) (k : Kernel) (p : proc) (as : addrspace) (ft : Int) (a e : Nat)
      (k1 : Kernel) (as1 : addrspace) :
      pt_reachable as.page_table → k.curproc = some p → p.p_addrspace = some as →
      vm_fault fuel k ft a = .ret (e, k1) → proc_getas k1 = some as1 →
      pt_reachable as1.page_table

/-! ## Runs of faults -/

theorem and_offset_mask (x : Nat) : x &&& (PAGE_FRAME ^^^ 0xffffffff) = x % 4096 := by
  have h : (PAGE_FRAME ^^^ 0xffffffff) = 2 ^ 12 - 1 := by decide
  rw [h, Nat.and_pow_two_sub_one_eq_mod]

theorem and_page_frame (x : Nat) (h : x < 2 ^ 32) : x &&& PAGE_FRAME = x / 4096 * 4096 := by
  apply Nat.eq_of_testBit_eq
  intro i
  have e1 : PAGE_FRAME = (2 ^ 20 - 1) <<< 12 := by decide
  have e2 : x / 4096 * 4096 = (x >>> 12) <<< 12 := by
    rw [Nat.shiftRight_eq_div_pow, Nat.shiftLeft_eq]
  rw [e1, e2, Nat.testBit_and, Nat.testBit_shiftLeft, Nat.testBit_shiftLeft,
    Nat.testBit_shiftRight]
  by_cases hi : 12 ≤ i
  · simp only [hi, decide_True, Bool.true_and, ge_iff_le]
    have hsum : 12 + (i - 12) = i := by omega
    rw [hsum]
    by_cases h20 : i - 12 < 20
    · rw [Nat.testBit_two_pow_sub_one]; simp [h20]
    · have hx : x.testBit i = false := by
        apply Nat.testBit_lt_two_pow
        calc x < 2 ^ 32 := h
          _ ≤ 2 ^ i := Nat.pow_le_pow_right (by norm_num) (by omega)
      simp [hx]
  · simp [hi]

/-! ## The heap of region nodes -/

theorem getElem?_append_some {α : Type} (l l2 : List α) (i : Nat) (r : α)
    (h : l[i]? = some r) : (l ++ l2)[i]? = some r := by
  have hi : i < l.length := by
    by_contra hc
    have : l[i]? = none := List.getElem?_eq_none (by omega)
    rw [this] at h; cases h
  rw [List.getElem?_append_left hi]; exact h

theorem is_list_append (nodes : List region_t) (x : List region_t) :
    ∀ (ps : List Nat) (p : Option Nat), is_list nodes p ps = true →
      is_list (nodes ++ x) p ps = true := by
  intro ps
  induction ps with
  | nil => intro p h; cases p <;> simp_all [is_list]
  | cons q qs ih =>
    intro p h
    cases p with
    | none => simp [is_list] at h
    | some p0 =>
      simp only [is_list, Bool.and_eq_true, beq_iff_eq] at h ⊢
      obtain ⟨hpq, hrest⟩ := h
      refine ⟨hpq, ?_⟩
      cases hq : nodes[q]? with
      | none => rw [hq] at hrest; cases hrest
      | some r =>
        rw [hq] at hrest
        rw [getElem?_append_some nodes x q r hq]
        exact ih _ hrest

theorem is_list_lt (nodes : List region_t) :
    ∀ (ps : List Nat) (p : Option Nat), is_list nodes p ps = true →
      ∀ q ∈ ps, q < nodes.length := by
  intro ps
  induction ps with
  | nil => intro p _ q hq; cases hq
  | cons q0 qs ih =>
    intro p h q hq
    cases p with
    | none => simp [is_list] at h
    | some p0 =>
      simp only [is_list, Bool.and_eq_true, beq_iff_eq] at h
      obtain ⟨_, hrest⟩ := h
      cases hq0 : nodes[q0]? with
      | none => rw [hq0] at hrest; cases hrest
      | some r =>
        rw [hq0] at hrest
        rcases List.mem_cons.1 hq with rfl | hmem
        · by_contra hc
          have : nodes[q]? = none := List.getElem?_eq_none (by omega)
          rw [this] at hq0; cases hq0
        · exact ih _ hrest q hmem


theorem set_next_length (nodes : List region_t) (p : Nat) (v : Option Nat) :
    (set_next nodes p v).length = nodes.length := by
  unfold set_next
  cases h : nodes[p]? <;> simp

theorem set_next_getElem? (nodes : List region_t) (p : Nat) (v : Option Nat) (i : Nat) :
    (set_next nodes p v)[i]? =
      (nodes[i]?).map (fun r => if i = p then { r with next := v } else r) := by
  unfold set_next
  cases h : nodes[p]? with
  | none =>
    simp only
    by_cases hip : i = p
    · subst hip; simp [h]
    · cases nodes[i]? <;> simp [hip]
  | some r =>
    simp only
    by_cases hip : i = p
    · subst hip
      have hi : i < nodes.length := by
        by_contra hc
        have : nodes[i]? = none := List.getElem?_eq_none (by omega)
        rw [this] at h; cases h
      simp [List.getElem?_set_self, hi, h]
    · rw [List.getElem?_set_ne (Ne.symm hip)]
      cases nodes[i]? <;> simp [hip]

theorem region_insert_loop_of_list (nodes : List region_t) (start : Nat) :
    ∀ (ps : List Nat) (fuel temp : Nat) (c : Option Nat), is_list nodes c ps = true →
      ps.length < fuel →
      ∃ t c2, region_insert_loop nodes start fuel temp c = .ret (t, c2) ∧ (t = temp ∨ t ∈ ps) := by
  intro ps
  induction ps with
  | nil =>
    intro fuel temp c h hf
    cases c with
    | some c0 => simp [is_list] at h
    | none =>
      cases fuel with
      | zero => simp at hf
      | succ f => exact ⟨temp, none, rfl, Or.inl rfl⟩
  | cons q qs ih =>
    intro fuel temp c h hf
    cases c with
    | none => simp [is_list] at h
    | some c0 =>
      simp only [is_list, Bool.and_eq_true, beq_iff_eq] at h
      obtain ⟨hcq, hrest⟩ := h
      subst hcq
      cases fuel with
      | zero => simp at hf
      | succ f =>
        cases hq : nodes[c0]? with
        | none => rw [hq] at hrest; cases hrest
        | some r =>
          rw [hq] at hrest
          simp only [region_insert_loop, hq]
          by_cases hlt : r.start < start
          · simp only [hlt, if_true]
            obtain ⟨t, c2, e, ht⟩ := ih f c0 r.next hrest (by simpa using hf)
            refine ⟨t, c2, e, Or.inr ?_⟩
            rcases ht with rfl | hmem
            · exact List.mem_cons_self _ _
            · exact List.mem_cons_of_mem _ hmem
          · simp only [hlt, if_false]
            exact ⟨temp, some c0, rfl, Or.inl rfl⟩

/-- What `as_define_region` stores when it goes past its two guards. -/
theorem as_define_region_ret (fuel : Nat) (k : Kernel) (as : addrspace)
    (vaddr memsize r w x rc : Nat) (k2 : Kernel) (as2 : Option addrspace)
    (hlt : u32 (vaddr + memsize) < USERSTACK)
    (h : as_define_region fuel k (some as) vaddr memsize r w x = .ret (rc, k2, as2)) :
    rc = 0 ∧ k2.nodes.length = k.nodes.length + 1 ∧
    ∃ node, k2.nodes[k.nodes.length]? = some node ∧
      node.start = vaddr &&& PAGE_FRAME ∧
      node.size = u32 (u32 (memsize + (vaddr &&& (PAGE_FRAME ^^^ 0xffffffff))) + PAGE_SIZE - 1)
        &&& PAGE_FRAME ∧
      node.perm = r ||| w ||| x ∧ node.old_perm = r ||| w ||| x := by
  have hnot : ¬ (u32 (vaddr + memsize) ≥ USERSTACK) := by omega
  simp only [as_define_region, hnot, if_false, region_insert, kmalloc] at h
  cases hok : k.kmalloc_ok k.kmalloc_calls with
  | false => simp [hok] at h
  | true =>
    simp only [hok, Bool.not_true] at h
    cases hreg : as.regions with
    | none =>
      simp [hreg] at h
      obtain ⟨h1, h2, _⟩ := h
      subst h1; subst h2
      simp
    | some head =>
      simp only [hreg, List.length_append, List.length_singleton] at h
      cases hloop : region_insert_loop
          (k.nodes ++ [{ start := vaddr &&& PAGE_FRAME,
                         size := u32 (u32 (memsize + (vaddr &&& (PAGE_FRAME ^^^ 0xffffffff)))
                           + PAGE_SIZE - 1) &&& PAGE_FRAME,
                         perm := r ||| w ||| x, old_perm := r ||| w ||| x, next := none }])
          (vaddr &&& PAGE_FRAME) fuel head (some head) with
      | ret v =>
        obtain ⟨temp, curr⟩ := v
        simp [hloop] at h
        obtain ⟨h1, h2, _⟩ := h
        subst h1; subst h2
        refine ⟨rfl, ?_, ?_⟩
        · simp [set_next_length]
        · simp only [set_next_getElem?]
          simp
          split <;> simp
      | trap => simp [hloop] at h
      | timeout => simp [hloop] at h


/-- On a null-terminated region list and with a successful `kmalloc`,
`as_define_region` returns `0` within `length + 1` loop steps and links the new
cell either as the head or behind a cell of the list. -/
theorem as_define_region_returns (fuel : Nat) (k : Kernel) (as : addrspace)
    (vaddr memsize r w x : Nat) (ps : List Nat)
    (hlt : u32 (vaddr + memsize) < USERSTACK)
    (hl : is_list k.nodes as.regions ps = true)
    (hok : k.kmalloc_ok k.kmalloc_calls = true) (hf : ps.length < fuel) :
    ∃ k2 as2, as_define_region fuel k (some as) vaddr memsize r w x = .ret (0, k2, some as2) ∧
      (as2.regions = some k.nodes.length ∨
        ∃ t ∈ ps, ∃ tn, k2.nodes[t]? = some tn ∧ tn.next = some k.nodes.length) := by
  have hnot : ¬ (u32 (vaddr + memsize) ≥ USERSTACK) := by omega
  simp only [as_define_region, hnot, if_false, region_insert, kmalloc, hok, Bool.not_true]
  cases hreg : as.regions with
  | none => exact ⟨_, _, rfl, Or.inl rfl⟩
  | some head =>
    rw [hreg] at hl
    have hl1 := is_list_append k.nodes
      [{ start := vaddr &&& PAGE_FRAME,
         size := u32 (u32 (memsize + (vaddr &&& (PAGE_FRAME ^^^ 0xffffffff)))
           + PAGE_SIZE - 1) &&& PAGE_FRAME,
         perm := r ||| w ||| x, old_perm := r ||| w ||| x, next := none }] ps (some head) hl
    obtain ⟨t, c2, e, ht⟩ := region_insert_loop_of_list _ (vaddr &&& PAGE_FRAME) ps fuel head
      (some head) hl1 hf
    have hhead : head ∈ ps := by
      cases ps with
      | nil => simp [is_list] at hl
      | cons q qs =>
        simp only [is_list, Bool.and_eq_true, beq_iff_eq] at hl
        rw [hl.1]; exact List.mem_cons_self _ _
    have htp : t ∈ ps := by
      rcases ht with rfl | h
      · exact hhead
      · exact h
    have htlt : t < k.nodes.length := is_list_lt k.nodes ps (some head) hl t htp
    simp only [e, List.length_append, List.length_singleton]
    refine ⟨_, _, rfl, Or.inr ⟨t, htp, ?_⟩⟩
    have hne : t ≠ k.nodes.length := by omega
    simp only [set_next_getElem?]
    rw [List.getElem?_append_left htlt]
    rw [List.getElem?_eq_getElem htlt]
    simp [hne]

/-- The arithmetic of the alignment in `as_define_region`. -/
theorem align_arith (vaddr memsize : Nat) (h : vaddr + memsize < USERSTACK) :
    vaddr &&& PAGE_FRAME = vaddr / PAGE_SIZE * PAGE_SIZE ∧
    u32 (u32 (memsize + (vaddr &&& (PAGE_FRAME ^^^ 0xffffffff))) + PAGE_SIZE - 1) &&& PAGE_FRAME
      = (memsize + vaddr % PAGE_SIZE + (PAGE_SIZE - 1)) / PAGE_SIZE * PAGE_SIZE := by
  have hU : USERSTACK = 2147483648 := rfl
  have hP : PAGE_SIZE = 4096 := rfl
  rw [hU] at h
  rw [and_offset_mask, hP]
  have h1 : u32 (memsize + vaddr % 4096) = memsize + vaddr % 4096 := by
    unfold u32; omega
  have h2 : u32 (memsize + vaddr % 4096 + 4096 - 1) = memsize + vaddr % 4096 + 4095 := by
    unfold u32; omega
  rw [h1, h2]
  constructor
  · exact and_page_frame vaddr (by omega)
  · exact and_page_frame _ (by omega)


/-! ## Null-terminated lists -/

theorem is_list_cons (nodes : List region_t) (p : Option Nat) (q : Nat) (qs : List Nat) :
    is_list nodes p (q :: qs) = true ↔
      p = some q ∧ ∃ r, nodes[q]? = some r ∧ is_list nodes r.next qs = true := by
  cases p with
  | none => simp [is_list]
  | some p0 =>
    simp only [is_list, Bool.and_eq_true, beq_iff_eq, Option.some.injEq]
    cases hq : nodes[q]? with
    | none => simp
    | some r => simp

theorem is_list_nil (nodes : List region_t) (p : Option Nat) :
    is_list nodes p [] = true ↔ p = none := by
  cases p <;> simp [is_list]

theorem is_list_unique (nodes : List region_t) :
    ∀ (ps ps2 : List Nat) (p : Option Nat), is_list nodes p ps = true →
      is_list nodes p ps2 = true → ps = ps2 := by
  intro ps
  induction ps with
  | nil =>
    intro ps2 p h h2
    rw [is_list_nil] at h; subst h
    cases ps2 with
    | nil => rfl
    | cons q qs => simp [is_list] at h2
  | cons q qs ih =>
    intro ps2 p h h2
    rw [is_list_cons] at h
    obtain ⟨hp, r, hr, hrest⟩ := h
    subst hp
    cases ps2 with
    | nil => simp [is_list] at h2
    | cons q2 qs2 =>
      rw [is_list_cons] at h2
      obtain ⟨hp2, r2, hr2, hrest2⟩ := h2
      have hq : q = q2 := by simpa using hp2
      subst hq
      rw [hr] at hr2
      have hrr : r = r2 := by simpa using hr2
      subst hrr
      rw [ih qs2 r.next hrest hrest2]

theorem is_list_suffix (nodes : List region_t) :
    ∀ (ps : List Nat) (p : Option Nat), is_list nodes p ps = true → ∀ q ∈ ps,
      ∃ suf, is_list nodes (some q) suf = true ∧ suf.length ≤ ps.length := by
  intro ps
  induction ps with
  | nil => intro p _ q hq; cases hq
  | cons q0 qs ih =>
    intro p h q hq
    have h0 := h
    rw [is_list_cons] at h
    obtain ⟨hp, r, hr, hrest⟩ := h
    subst hp
    rcases List.mem_cons.1 hq with rfl | hmem
    · exact ⟨q :: qs, h0, Nat.le_refl _⟩
    · obtain ⟨suf, hs, hlen⟩ := ih r.next hrest q hmem
      exact ⟨suf, hs, by simp; omega⟩

theorem is_list_nodup (nodes : List region_t) :
    ∀ (ps : List Nat) (p : Option Nat), is_list nodes p ps = true → ps.Nodup := by
  intro ps
  induction ps with
  | nil => intro _ _; exact List.nodup_nil
  | cons q qs ih =>
    intro p h
    have h0 := h
    rw [is_list_cons] at h
    obtain ⟨hp, r, hr, hrest⟩ := h
    subst hp
    refine List.nodup_cons.2 ⟨?_, ih r.next hrest⟩
    intro hmem
    obtain ⟨suf, hs, hlen⟩ := is_list_suffix nodes qs r.next hrest q hmem
    have := is_list_unique nodes suf (q :: qs) (some q) hs h0
    subst this
    simp at hlen

theorem is_list_congr (nodes nodes2 : List region_t)
    (hn : ∀ i : Nat, (nodes2[i]?).map region_t.next = (nodes[i]?).map region_t.next) :
    ∀ (ps : List Nat) (p : Option Nat), is_list nodes2 p ps = is_list nodes p ps := by
  intro ps
  induction ps with
  | nil => intro p; cases p <;> simp [is_list]
  | cons q qs ih =>
    intro p
    cases p with
    | none => simp [is_list]
    | some p0 =>
      simp only [is_list]
      have hq := hn q
      cases h1 : nodes[q]? with
      | none =>
        rw [h1] at hq
        cases h2 : nodes2[q]? with
        | none => rfl
        | some r2 => rw [h2] at hq; simp at hq
      | some r =>
        rw [h1] at hq
        cases h2 : nodes2[q]? with
        | none => rw [h2] at hq; simp at hq
        | some r2 =>
          rw [h2] at hq
          have : r2.next = r.next := by simpa using hq
          simp only [this, ih]

/-! ## `region_find` on a null-terminated list -/

theorem region_find_loop_returns (nodes : List region_t) (a : Nat) :
    ∀ (ps : List Nat) (fuel : Nat) (p : Option Nat), is_list nodes p ps = true →
      ps.length < fuel →
      ∃ v, region_find_loop nodes a fuel p = .ret v ∧ (v = none ∨ ∃ q ∈ ps, v = some q) := by
  intro ps
  induction ps with
  | nil =>
    intro fuel p h hf
    rw [is_list_nil] at h; subst h
    cases fuel with
    | zero => simp at hf
    | succ f => exact ⟨none, rfl, Or.inl rfl⟩
  | cons q qs ih =>
    intro fuel p h hf
    rw [is_list_cons] at h
    obtain ⟨hp, r, hr, hrest⟩ := h
    subst hp
    cases fuel with
    | zero => simp at hf
    | succ f =>
      have hA : ∃ v, (Outcome.ret (some q) : Outcome (Option Nat)) = .ret v ∧
          (v = none ∨ ∃ q2 ∈ q :: qs, v = some q2) :=
        ⟨some q, rfl, Or.inr ⟨q, List.mem_cons_self _ _, rfl⟩⟩
      have hB : ∃ v, region_find_loop nodes a f r.next = .ret v ∧
          (v = none ∨ ∃ q2 ∈ q :: qs, v = some q2) := by
        obtain ⟨v, e, hv⟩ := ih f r.next hrest (by simpa using hf)
        refine ⟨v, e, ?_⟩
        rcases hv with h0 | ⟨q2, hq2, e2⟩
        · exact Or.inl h0
        · exact Or.inr ⟨q2, List.mem_cons_of_mem _ hq2, e2⟩
      simp only [region_find_loop, hr]
      split_ifs <;> first | exact hA | exact hB

theorem region_find_loop_of_list (nodes : List region_t) (a : Nat) :
    ∀ (ps : List Nat) (fuel : Nat) (p : Option Nat), is_list nodes p ps = true →
      (∀ q ∈ ps, ∀ r, nodes[q]? = some r →
        r.start ≠ USERSTACK ∧ 0 < r.size ∧ r.start + r.size ≤ 2 ^ 32) →
      ps.length < fuel →
      region_find_loop nodes a fuel p = .ret (ps.find? (region_contains nodes a)) := by
  intro ps
  induction ps with
  | nil =>
    intro fuel p h _ hf
    rw [is_list_nil] at h; subst h
    cases fuel with
    | zero => simp at hf
    | succ f => rfl
  | cons q qs ih =>
    intro fuel p h hreg hf
    rw [is_list_cons] at h
    obtain ⟨hp, r, hr, hrest⟩ := h
    subst hp
    cases fuel with
    | zero => simp at hf
    | succ f =>
      obtain ⟨hns, hsz, hw⟩ := hreg q (List.mem_cons_self _ _) r hr
      have hiff : (a ≥ r.start ∧ a ≤ sub32 (u32 (r.start + r.size)) 1) ↔
          (r.start ≤ a ∧ a < r.start + r.size) := by
        unfold sub32 u32; omega
      simp only [region_find_loop, hr, hns, if_false, List.find?_cons, region_contains]
      by_cases hc : r.start ≤ a ∧ a < r.start + r.size
      · have hc2 := hiff.2 hc
        simp only [hc2, hc, and_self, if_true, decide_True]
      · have hc2 : ¬ (a ≥ r.start ∧ a ≤ sub32 (u32 (r.start + r.size)) 1) := fun h => hc (hiff.1 h)
        simp only [hc2, hc, if_false, decide_False]
        have := ih f r.next hrest
          (fun q2 hq2 r2 hr2 => hreg q2 (List.mem_cons_of_mem _ hq2) r2 hr2) (by simpa using hf)
        rw [this]


/-! ## The permission loops -/

theorem as_prepare_load_loop_eq :
    ∀ (fuel : Nat) (nodes : List region_t) (p : Option Nat),
      as_prepare_load_loop fuel nodes p =
        for_each_region (fun r => { r with old_perm := r.perm, perm := PF_R ||| PF_W })
          fuel nodes p := by
  intro fuel
  induction fuel with
  | zero => intro nodes p; rfl
  | succ f ih =>
    intro nodes p
    cases p with
    | none => rfl
    | some q =>
      simp only [as_prepare_load_loop, for_each_region]
      cases nodes[q]? with
      | none => rfl
      | some r => exact ih _ _

theorem as_complete_load_loop_eq :
    ∀ (fuel : Nat) (nodes : List region_t) (p : Option Nat),
      as_complete_load_loop fuel nodes p =
        for_each_region (fun r => { r with perm := r.old_perm }) fuel nodes p := by
  intro fuel
  induction fuel with
  | zero => intro nodes p; rfl
  | succ f ih =>
    intro nodes p
    cases p with
    | none => rfl
    | some q =>
      simp only [as_complete_load_loop, for_each_region]
      cases nodes[q]? with
      | none => rfl
      | some r => exact ih _ _

theorem getElem?_set_cases (nodes : List region_t) (q : Nat) (r x : region_t)
    (hq : nodes[q]? = some r) (i : Nat) :
    (nodes.set q x)[i]? = if i = q then some x else nodes[i]? := by
  have hlt : q < nodes.length := by
    by_contra hc
    have : nodes[q]? = none := List.getElem?_eq_none (by omega)
    rw [this] at hq; cases hq
  by_cases hi : i = q
  · subst hi; simp [hlt]
  · rw [List.getElem?_set_ne (Ne.symm hi)]; simp [hi]

/-- On a null-terminated list a loop that keeps `next` rewrites exactly the
cells of the list, each once. -/
theorem for_each_region_of_list (f : region_t → region_t) (hf : ∀ r, (f r).next = r.next) :
    ∀ (ps : List Nat) (fuel : Nat) (nodes : List region_t) (p : Option Nat),
      is_list nodes p ps = true → ps.length < fuel →
      ∃ nodes2, for_each_region f fuel nodes p = .ret nodes2 ∧
        nodes2.length = nodes.length ∧
        ∀ i : Nat, nodes2[i]? = (nodes[i]?).map (fun r => if i ∈ ps then f r else r) := by
  intro ps
  induction ps with
  | nil =>
    intro fuel nodes p h hfu
    rw [is_list_nil] at h; subst h
    cases fuel with
    | zero => simp at hfu
    | succ n =>
      refine ⟨nodes, rfl, rfl, ?_⟩
      intro i
      cases nodes[i]? <;> simp
  | cons q qs ih =>
    intro fuel nodes p h hfu
    have hnd := is_list_nodup nodes (q :: qs) p h
    rw [is_list_cons] at h
    obtain ⟨hp, r, hr, hrest⟩ := h
    subst hp
    cases fuel with
    | zero => simp at hfu
    | succ n =>
      have hset := getElem?_set_cases nodes q r (f r) hr
      have hrest2 : is_list (nodes.set q (f r)) (f r).next qs = true := by
        rw [hf r, is_list_congr nodes (nodes.set q (f r)) _ qs r.next]
        · exact hrest
        · intro i
          rw [hset i]
          by_cases hi : i = q
          · subst hi; simp [hr, hf]
          · simp [hi]
      obtain ⟨nodes2, e, hlen, hget⟩ := ih n (nodes.set q (f r)) (f r).next hrest2
        (by simpa using hfu)
      simp only [for_each_region, hr]
      refine ⟨nodes2, e, by simpa using hlen, ?_⟩
      intro i
      rw [hget i, hset i]
      have hq : q ∉ qs := (List.nodup_cons.1 hnd).1
      by_cases hi : i = q
      · subst hi; simp [hr, hq]
      · simp [hi]


/-- The two-cell heap left by defining a region at `0x3000` and then one at
`0x1000`: each cell points to the other. -/
theorem two_cycle_not_list (r0 r1 : region_t) (h0 : r0.next = some 1) (h1 : r1.next = some 0) :
    ∀ (n : Nat) (ps : List Nat), ps.length ≤ n →
      is_list [r0, r1] (some 0) ps = false ∧ is_list [r0, r1] (some 1) ps = false := by
  intro n
  induction n with
  | zero =>
    intro ps hps
    have : ps = [] := List.length_eq_zero.1 (by omega)
    subst this
    simp [is_list]
  | succ n ih =>
    intro ps hps
    cases ps with
    | nil => simp [is_list]
    | cons q qs =>
      have hq : qs.length ≤ n := by simpa using hps
      obtain ⟨i0, i1⟩ := ih qs hq
      constructor
      · by_cases hq0 : q = 0
        · subst hq0; simp [is_list, h0, i1]
        · simp [is_list, Ne.symm hq0]
      · by_cases hq1 : q = 1
        · subst hq1; simp [is_list, h1, i0]
        · simp [is_list, Ne.symm hq1]

/-- C1 (code bug): `region_insert` does not keep the list ascending when the new
start is below the head's.  Two successful `as_define_region` calls with starts
`0x3000` and then `0x1000` leave a head cell `0x3000` whose `next` is the
`0x1000` cell, whose `next` is the head again: walking from the head yields
`0x3000, 0x1000, 0x3000, 0x1000, ...` and never reaches `NULL`. -/
theorem C1_region_insert_below_head_cycles :
    ∃ k as, define_regions 10 boot as_create
        [(0x3000, 0x1000, 4, 0, 0), (0x1000, 0x1000, 4, 0, 0)] = .ret (k, as) ∧
      k.nodes = [⟨0x3000, 0x1000, 4, 4, some 1⟩, ⟨0x1000, 0x1000, 4, 4, some 0⟩] ∧
      as.regions = some 0 ∧
      region_walk k.nodes 4 as.regions = [0x3000, 0x1000, 0x3000, 0x1000] ∧
      ∀ ps, is_list k.nodes as.regions ps = false :=
  ⟨_, _, rfl, by decide, by decide, by decide,
    fun ps => (two_cycle_not_list _ _ rfl rfl ps.length ps (Nat.le_refl _)).1⟩

/-- The guard of `as_define_region` as the code evaluates it: when the 32-bit
sum `vaddr + memsize` is at or above `USERSTACK` the call returns `ENOMEM` and
writes nothing. -/
theorem as_define_region_guard (fuel : Nat) (k : Kernel) (as : addrspace)
    (vaddr memsize r w x : Nat) (h : USERSTACK ≤ u32 (vaddr + memsize)) :
    as_define_region fuel k (some as) vaddr memsize r w x = .ret (ENOMEM, k, some as) := by
  simp [as_define_region, h]

/-- C2 (code bug): the end of the region is computed in 32 bits.  With
`vaddr = 0xFFFFF000` and `memsize = 0x2000` the true end `0x100001000` is above
`USERSTACK`, the wrapped sum is `0x1000`, and `as_define_region` returns `0`
after storing a region that starts at `0xFFFFF000`. -/
theorem C2_as_define_region_wrapped_end_accepted :
    USERSTACK ≤ 0xFFFFF000 + 0x2000 ∧
    ∃ k2 as2, as_define_region 10 boot (some as_create) 0xFFFFF000 0x2000 4 0 0
        = .ret (0, k2, some as2) ∧
      k2.nodes = [⟨0xFFFFF000, 0x2000, 4, 4, none⟩] ∧ as2.regions = some 0 :=
  ⟨by decide, _, _, rfl, by decide, by decide⟩

/-- C3: when `vaddr + memsize < USERSTACK` (no wraparound), every return of
`as_define_region` on a non-null address space is `0` and the node stored in the
fresh heap cell has `start` = `vaddr` rounded down to a page, a `size` that is a
multiple of `PAGE_SIZE`, an extent `[start, start+size)` that contains
`[vaddr, vaddr+memsize)` and ends less than a page above it, and `perm` = the
bitwise OR of the three flags.  The call does return `0` when the region list is
null-terminated, `kmalloc` succeeds and the fuel exceeds the list length; the
new cell is then the head or the successor of a cell of the list. -/
theorem C3_as_define_region_page_aligns (fuel : Nat) (k : Kernel) (as : addrspace)
    (vaddr memsize r w x : Nat) (hend : vaddr + memsize < USERSTACK) :
    (∀ rc k2 as2, as_define_region fuel k (some as) vaddr memsize r w x = .ret (rc, k2, as2) →
      rc = 0 ∧ ∃ node, k2.nodes[k.nodes.length]? = some node ∧
        node.start = vaddr / PAGE_SIZE * PAGE_SIZE ∧
        PAGE_SIZE ∣ node.size ∧
        node.start ≤ vaddr ∧ vaddr + memsize ≤ node.start + node.size ∧
        node.start + node.size - (vaddr + memsize) < PAGE_SIZE ∧
        node.perm = r ||| w ||| x) ∧
    (∀ ps, is_list k.nodes as.regions ps = true → k.kmalloc_ok k.kmalloc_calls = true →
      ps.length < fuel →
      ∃ k2 as2, as_define_region fuel k (some as) vaddr memsize r w x = .ret (0, k2, some as2) ∧
        (as2.regions = some k.nodes.length ∨
          ∃ t ∈ ps, ∃ tn, k2.nodes[t]? = some tn ∧ tn.next = some k.nodes.length)) := by
  have hU : USERSTACK = 2147483648 := rfl
  have hlt : u32 (vaddr + memsize) < USERSTACK := by
    unfold u32; rw [hU] at hend ⊢; omega
  obtain ⟨a1, a2⟩ := align_arith vaddr memsize hend
  constructor
  · intro rc k2 as2 h
    obtain ⟨h0, _, node, hn, hs, hz, hp, _⟩ :=
      as_define_region_ret fuel k as vaddr memsize r w x rc k2 as2 hlt h
    rw [a1] at hs
    rw [a2] at hz
    have hP : PAGE_SIZE = 4096 := rfl
    rw [hP] at hs hz ⊢
    refine ⟨h0, node, hn, hs, ?_, ?_, ?_, ?_, hp⟩
    · rw [hz]; exact Dvd.intro_left _ rfl
    · omega
    · omega
    · omega
  · intro ps hl hok hf
    exact as_define_region_returns fuel k as vaddr memsize r w x ps hlt hl hok hf

/-- C3 at a concrete call: `vaddr = 0x1234`, `memsize = 0x2000` on a fresh
address space. -/
theorem C3_as_define_region_page_aligns_witness :
    0x1234 + 0x2000 < USERSTACK ∧
    ∃ k2 as2, as_define_region 1 boot (some as_create) 0x1234 0x2000 4 0 1
        = .ret (0, k2, some as2) ∧
      (as2.regions = some boot.nodes.length ∨
        ∃ t ∈ ([] : List Nat), ∃ tn, k2.nodes[t]? = some tn ∧ tn.next = some boot.nodes.length) :=
  ⟨by decide,
    (C3_as_define_region_page_aligns 1 boot as_create 0x1234 0x2000 4 0 1 (by decide)).2 []
      (by decide) rfl (by decide)⟩


/-- C4: on a null-terminated region list made of non-stack regions with
`size > 0` and `start + size` not past `2^32`, `region_find` returns (with fuel
above the list length) the first cell in list order whose region has
`start <= a < start + size`, and it returns `NULL` exactly when no cell of the
list has such a region. -/
theorem C4_region_find_first_owner (fuel : Nat) (k : Kernel) (as : addrspace) (a : Nat)
    (ps : List Nat) (hl : is_list k.nodes as.regions ps = true)
    (hreg : ∀ q ∈ ps, ∀ r, k.nodes[q]? = some r →
      r.start ≠ USERSTACK ∧ 0 < r.size ∧ r.start + r.size ≤ 2 ^ 32)
    (hf : ps.length < fuel) :
    region_find fuel k as a = .ret (ps.find? (region_contains k.nodes a)) ∧
    (region_find fuel k as a = .ret none ↔ ∀ q ∈ ps, region_contains k.nodes a q = false) := by
  have h := region_find_loop_of_list k.nodes a ps fuel as.regions hl hreg hf
  unfold region_find
  refine ⟨h, ?_⟩
  rw [h]
  constructor
  · intro e
    have e2 : ps.find? (region_contains k.nodes a) = none := by
      injection e
    intro q hq
    have := List.find?_eq_none.1 e2 q hq
    simpa using this
  · intro hall
    have : ps.find? (region_contains k.nodes a) = none := by
      apply List.find?_eq_none.2
      intro q hq
      simp [hall q hq]
    rw [this]

theorem sample_regions_ok : ∀ q ∈ [0, 1], ∀ r, sample.nodes[q]? = some r →
    r.start ≠ USERSTACK ∧ 0 < r.size ∧ r.start + r.size ≤ 2 ^ 32 := by
  intro q hq r hr
  simp only [List.mem_cons, List.mem_singleton, List.not_mem_nil, or_false] at hq
  rcases hq with rfl | rfl
  · have : r = ⟨0x1000, 0x1000, 5, 5, some 1⟩ := by
      simp [sample] at hr; exact hr.symm
    subst this; decide
  · have : r = ⟨0x3000, 0x2000, 6, 6, none⟩ := by
      simp [sample] at hr; exact hr.symm
    subst this; decide

/-- C4 on the two-region sample: address `0x3800` belongs to the second cell. -/
theorem C4_region_find_first_owner_witness :
    region_find 3 sample sample_as 0x3800
        = .ret ([0, 1].find? (region_contains sample.nodes 0x3800)) ∧
    (region_find 3 sample sample_as 0x3800 = .ret none ↔
      ∀ q ∈ [0, 1], region_contains sample.nodes 0x3800 q = false) :=
  C4_region_find_first_owner 3 sample sample_as 0x3800 [0, 1] (by decide) sample_regions_ok
    (by decide)

theorem as_prepare_load_of_list (fuel : Nat) (k : Kernel) (as : addrspace) (ps : List Nat)
    (hl : is_list k.nodes as.regions ps = true) (hf : ps.length < fuel) :
    ∃ nodes1, as_prepare_load fuel k (some as) = .ret (0, { k with nodes := nodes1 }) ∧
      nodes1.length = k.nodes.length ∧
      ∀ i : Nat, nodes1[i]? = (k.nodes[i]?).map (fun r =>
        if i ∈ ps then { r with old_perm := r.perm, perm := PF_R ||| PF_W } else r) := by
  obtain ⟨nodes1, e, hlen, hget⟩ := for_each_region_of_list
    (fun r => { r with old_perm := r.perm, perm := PF_R ||| PF_W }) (fun _ => rfl)
    ps fuel k.nodes as.regions hl hf
  refine ⟨nodes1, ?_, hlen, hget⟩
  simp only [as_prepare_load, as_prepare_load_loop_eq, e]

theorem as_complete_load_of_list (fuel : Nat) (k : Kernel) (as : addrspace) (ps : List Nat)
    (hl : is_list k.nodes as.regions ps = true) (hf : ps.length < fuel) :
    ∃ nodes1, as_complete_load fuel k (some as) = .ret (0, { k with nodes := nodes1 }) ∧
      nodes1.length = k.nodes.length ∧
      ∀ i : Nat, nodes1[i]? = (k.nodes[i]?).map (fun r =>
        if i ∈ ps then { r with perm := r.old_perm } else r) := by
  obtain ⟨nodes1, e, hlen, hget⟩ := for_each_region_of_list
    (fun r => { r with perm := r.old_perm }) (fun _ => rfl)
    ps fuel k.nodes as.regions hl hf
  refine ⟨nodes1, ?_, hlen, hget⟩
  simp only [as_complete_load, as_complete_load_loop_eq, e]

/-- A loop that keeps `next` returns only on a null-terminated list, shorter
than the fuel it was given. -/
theorem for_each_region_ret_is_list (f : region_t → region_t)
    (hf : ∀ r, (f r).next = r.next) :
    ∀ (fuel : Nat) (nodes : List region_t) (p : Option Nat) (nodes2 : List region_t),
      for_each_region f fuel nodes p = .ret nodes2 →
      ∃ ps, is_list nodes p ps = true ∧ ps.length < fuel := by
  intro fuel
  induction fuel with
  | zero => intro nodes p nodes2 h; simp [for_each_region] at h
  | succ n ih =>
    intro nodes p nodes2 h
    cases p with
    | none => exact ⟨[], rfl, by simp⟩
    | some q =>
      simp only [for_each_region] at h
      cases hq : nodes[q]? with
      | none => simp [hq] at h
      | some r =>
        simp only [hq] at h
        obtain ⟨ps, hl, hlen⟩ := ih _ _ _ h
        refine ⟨q :: ps, ?_, by simpa using hlen⟩
        rw [is_list_cons]
        refine ⟨rfl, r, hq, ?_⟩
        rw [hf r, is_list_congr nodes (nodes.set q (f r)) _ ps r.next] at hl
        · exact hl
        · intro i
          rw [getElem?_set_cases nodes q r (f r) hq i]
          by_cases hi : i = q
          · subst hi; simp [hq, hf]
          · simp [hi]

theorem as_prepare_load_ret_is_list (fuel : Nat) (k : Kernel) (as : addrspace) (rc : Nat)
    (k1 : Kernel) (h : as_prepare_load fuel k (some as) = .ret (rc, k1)) :
    ∃ ps, is_list k.nodes as.regions ps = true ∧ ps.length < fuel := by
  simp only [as_prepare_load, as_prepare_load_loop_eq] at h
  cases hl : for_each_region (fun r => { r with old_perm := r.perm, perm := PF_R ||| PF_W })
      fuel k.nodes as.regions with
  | ret nodes2 =>
    exact for_each_region_ret_is_list
      (fun r => { r with old_perm := r.perm, perm := PF_R ||| PF_W }) (fun _ => rfl)
      fuel k.nodes as.regions nodes2 hl
  | trap => simp [hl] at h
  | timeout => simp [hl] at h

/-- A fault on a page that is already mapped only writes the TLB. -/
theorem vm_fault_walk_present (k : Kernel) (p : proc) (as : addrspace) (pg i j : Nat)
    (t : PageTable1) (t2 : PageTable2) (ht : as.page_table = some t)
    (ht2 : t i = some t2) (he : t2 j ≠ 0) :
    vm_fault_walk k p as pg i j = .ret (0, tlb_random (put_as k p as) pg
      (t2 j ||| TLBLO_DIRTY ||| TLBLO_VALID)) := by
  cases as with
  | mk regions page_table =>
    simp only at ht
    subst ht
    simp [vm_fault_walk, ht2, he]

theorem same_page_frame (a b : Nat) (ha : a < 2 ^ 32) (hb : b < 2 ^ 32)
    (h : b / PAGE_SIZE = a / PAGE_SIZE) : b &&& PAGE_FRAME = a &&& PAGE_FRAME := by
  have hP : PAGE_SIZE = 4096 := rfl
  rw [hP] at h
  rw [and_page_frame a ha, and_page_frame b hb, h]

/-- The guards of `vm_fault` that come before the region lookup. -/
theorem vm_fault_early (fuel : Nat) (k : Kernel) (ft : Int) (a : Nat)
    (h : k.curproc = none ∨ proc_getas k = none ∨ a = 0 ∨ cur_regions k = none) :
    vm_fault fuel k ft a = .ret (EFAULT, { k with run_number := u32 (k.run_number + 1) }) := by
  unfold vm_fault
  cases hcur : k.curproc with
  | none => rfl
  | some p =>
    simp only
    by_cases ha : a = 0
    · simp [ha]
    · simp only [ha, if_false]
      cases has : p.p_addrspace with
      | none => rfl
      | some as =>
        simp only
        cases hreg : as.regions with
        | none => rfl
        | some head =>
          exfalso
          rcases h with h | h | h | h
          · rw [hcur] at h; cases h
          · simp [proc_getas, hcur, has] at h
          · exact ha h
          · simp [cur_regions, proc_getas, hcur, has, hreg] at h

/-- C9: whatever the fault type and the fuel, `vm_fault` returns `EFAULT` when
there is no current process, or the process has no address space, or the fault
address is `0`, or the address space has no regions (also for an address in the
stack guard band).  The state it leaves differs from the one it found only in
the counter `run_number`: no `kmalloc` or `alloc_kpages` call is made and no TLB
slot is written. -/
theorem C9_vm_fault_early_guards (fuel : Nat) (k : Kernel) (ft : Int) (a : Nat)
    (h : k.curproc = none ∨ proc_getas k = none ∨ a = 0 ∨ cur_regions k = none) :
    vm_fault fuel k ft a = .ret (EFAULT, { k with run_number := u32 (k.run_number + 1) }) :=
  vm_fault_early fuel k ft a h

/-- C9 at a guard-band address, fault type 99, in a process whose address
space has no regions. -/
theorem C9_vm_fault_early_guards_witness :
    vm_fault 0 { boot with curproc := some ⟨some as_create⟩ } 99 (USERSTACK - 1)
      = .ret (EFAULT, { ({ boot with curproc := some ⟨some as_create⟩ } : Kernel) with
          run_number := u32 (boot.run_number + 1) }) :=
  C9_vm_fault_early_guards 0 { boot with curproc := some ⟨some as_create⟩ } 99 (USERSTACK - 1)
    (Or.inr (Or.inr (Or.inr rfl)))

theorem stack_end_eq : sub32 USERSTACK (u32 (16 * PAGE_SIZE)) = USERSTACK - 16 * PAGE_SIZE := by
  decide

/-- What `vm_fault` does once the early guards are passed and the region lookup
has returned `found`. -/
theorem vm_fault_after_lookup (fuel : Nat) (k : Kernel) (p : proc) (as : addrspace) (ft : Int)
    (a : Nat) (found : Option Nat) (hcur : k.curproc = some p) (has : p.p_addrspace = some as)
    (hreg : as.regions ≠ none) (ha0 : a ≠ 0)
    (hfind : region_find fuel k as a = .ret found) :
    vm_fault fuel k ft a =
      if found = none ∧ ¬ (a < USERSTACK ∧ USERSTACK - 16 * PAGE_SIZE < a) then
        .ret (EFAULT, { k with run_number := u32 (k.run_number + 1) })
      else if ft = VM_FAULT_READ ∨ ft = VM_FAULT_WRITE then
        vm_fault_map { k with run_number := u32 (k.run_number + 1) } p as a
      else if ft = VM_FAULT_READONLY then
        .ret (EFAULT, { k with run_number := u32 (k.run_number + 1) })
      else .ret (EINVAL, { k with run_number := u32 (k.run_number + 1) }) := by
  obtain ⟨head, hh⟩ := Option.ne_none_iff_exists'.1 hreg
  unfold region_find at hfind
  rw [hh] at hfind
  simp only [vm_fault, region_find, hcur, ha0, if_false, has, hh, hfind, stack_end_eq, gt_iff_lt]


/-- C11 (counterexample): in the two-region sample, a fault of type 99 at the
non-null address `0x7000`, which no region owns and which is outside the guard
band, returns `EFAULT` and not `EINVAL`. -/
theorem C11_unowned_address_gives_efault :
    cur_regions sample ≠ none ∧ (0x7000 : Nat) ≠ 0 ∧
    vm_fault 3 sample 99 0x7000
      = .ret (EFAULT, { sample with run_number := u32 (sample.run_number + 1) }) ∧
    ∀ k1, vm_fault 3 sample 99 0x7000 ≠ .ret (EINVAL, k1) := by
  have h : vm_fault 3 sample 99 0x7000
      = .ret (EFAULT, { sample with run_number := u32 (sample.run_number + 1) }) := rfl
  refine ⟨by decide, by decide, h, ?_⟩
  intro k1 h1
  rw [h] at h1
  simp only [Outcome.ret.injEq, Prod.mk.injEq] at h1
  exact absurd h1.1 (by decide)

/-- C12: when the region lookup of `vm_fault` returns `NULL` for the address in
the current address space and the address is not strictly inside the stack
guard band, `vm_fault` returns `EFAULT` for every fault type, and the state it
leaves differs from the one it found only in the counter `run_number`: page
table, region directory, live frames and TLB are as before. -/
theorem C12_unowned_address_is_efault (fuel : Nat) (k : Kernel) (ft : Int) (a : Nat)
    (hfind : ∀ as, proc_getas k = some as → region_find fuel k as a = .ret none)
    (hband : ¬ (a < USERSTACK ∧ USERSTACK - 16 * PAGE_SIZE < a)) :
    vm_fault fuel k ft a = .ret (EFAULT, { k with run_number := u32 (k.run_number + 1) }) := by
  by_cases hearly : k.curproc = none ∨ proc_getas k = none ∨ a = 0 ∨ cur_regions k = none
  · exact vm_fault_early fuel k ft a hearly
  · simp only [not_or] at hearly
    obtain ⟨hcur, hpa, ha, hreg⟩ := hearly
    obtain ⟨p, hc⟩ := Option.ne_none_iff_exists'.1 hcur
    obtain ⟨as, hs⟩ := Option.ne_none_iff_exists'.1 hpa
    have hs2 : p.p_addrspace = some as := by
      simpa [proc_getas, hc] using hs
    have hr : as.regions ≠ none := by
      simpa [cur_regions, hs] using hreg
    rw [vm_fault_after_lookup fuel k p as ft a none hc hs2 hr ha (hfind as hs)]
    simp [hband]

/-- C12 on the two-region sample, at `0x7000` with a Write fault. -/
theorem C12_unowned_address_is_efault_witness :
    vm_fault 3 sample VM_FAULT_WRITE 0x7000
      = .ret (EFAULT, { sample with run_number := u32 (sample.run_number + 1) }) :=
  C12_unowned_address_is_efault 3 sample VM_FAULT_WRITE 0x7000
    (fun as h => by
      have : as = sample_as := by
        simp [proc_getas, sample] at h; exact h.symm
      subst this; rfl)
    (by decide)


/-- The first-level table cannot be allocated. -/
theorem vm_fault_walk_fail_l1 (k : Kernel) (p : proc) (as : addrspace) (pg i j : Nat)
    (hpt : as.page_table = none) (hk0 : k.kmalloc_ok k.kmalloc_calls = false) :
    vm_fault_walk k p as pg i j
      = .ret (ENOMEM, put_as { k with kmalloc_calls := k.kmalloc_calls + 1 } p
          { as with page_table := none }) := by
  cases as with
  | mk regions page_table =>
    simp only at hpt
    subst hpt
    simp [vm_fault_walk, pt_init, kmalloc, hk0, ENOMEM]

/-- The second-level table cannot be allocated, the first-level table being
present. -/
theorem vm_fault_walk_fail_l2 (k : Kernel) (p : proc) (as : addrspace) (pg i j : Nat)
    (t : PageTable1) (hpt : as.page_table = some t) (hti : t i = none)
    (hk0 : k.kmalloc_ok k.kmalloc_calls = false) :
    vm_fault_walk k p as pg i j
      = .ret (ENOMEM, put_as { k with kmalloc_calls := k.kmalloc_calls + 1 } p as) := by
  cases as with
  | mk regions page_table =>
    simp only at hpt
    subst hpt
    have ht : (fun x => if x = i then none else t x) = t := by
      funext x
      by_cases hx : x = i
      · subst hx; simp [hti]
      · simp [hx]
    simp [vm_fault_walk, hti, pt_create, kmalloc, hk0, ENOMEM, ht]

/-- The second-level table cannot be allocated, the first-level table having
been created by this call. -/
theorem vm_fault_walk_fail_l2_fresh (k : Kernel) (p : proc) (as : addrspace) (pg i j : Nat)
    (hpt : as.page_table = none) (hk0 : k.kmalloc_ok k.kmalloc_calls = true)
    (hk1 : k.kmalloc_ok (k.kmalloc_calls + 1) = false) :
    vm_fault_walk k p as pg i j
      = .ret (ENOMEM, put_as { k with kmalloc_calls := k.kmalloc_calls + 2 } p
          { as with page_table := some (fun _ => none) }) := by
  cases as with
  | mk regions page_table =>
    simp only at hpt
    subst hpt
    simp [vm_fault_walk, pt_init, pt_create, kmalloc, hk0, hk1, ENOMEM]


/-- The frame cannot be allocated (`alloc_kpages` returns `0`) for an empty
slot, every table level being present or successfully created on the way. -/
theorem vm_fault_walk_fail_frame (k : Kernel) (p : proc) (as : addrspace) (pg i j : Nat)
    (hp0 : k.kpages k.kpages_calls = 0)
    (hlev : (as.page_table = none ∧ k.kmalloc_ok k.kmalloc_calls = true ∧
        k.kmalloc_ok (k.kmalloc_calls + 1) = true) ∨
      (∃ t, as.page_table = some t ∧ t i = none ∧ k.kmalloc_ok k.kmalloc_calls = true) ∨
      (∃ t t2, as.page_table = some t ∧ t i = some t2 ∧ t2 j = 0)) :
    ∃ k1 t1 t3, vm_fault_walk k p as pg i j = .ret (ENOMEM, k1) ∧
      k1.curproc = some { p with p_addrspace := some { as with page_table := some t1 } } ∧
      k1.tlb = k.tlb ∧ k1.tlb_writes = k.tlb_writes ∧ k1.nodes = k.nodes ∧
      k1.live_frames = k.live_frames ∧
      t1 i = some t3 ∧ t3 j = 0 ∧
      (∀ t, as.page_table = some t →
        (∀ x, x ≠ i → t1 x = t x) ∧ ∀ t2, t i = some t2 → t3 = t2) := by
  cases as with
  | mk regions page_table =>
    rcases hlev with ⟨hpt, hk0, hk1⟩ | ⟨t, hpt, hti, hk0⟩ | ⟨t, t2, hpt, hti, he⟩
    · simp only at hpt
      subst hpt
      refine ⟨?k1a, fun x => if x = i then some (fun _ => 0) else none, fun _ => 0,
        ?heqa, ?hcura, ?htlba, ?hwa, ?hna, ?hla, ?hta, rfl, ?hka⟩
      case heqa =>
        simp [vm_fault_walk, pt_init, kmalloc, hk0, pt_create, hk1, pt_insert, alloc_kpages, hp0,
          ENOMEM]
        exact rfl
      case hcura => exact rfl
      case htlba => rfl
      case hwa => rfl
      case hna => rfl
      case hla => simp [put_as, hp0]
      case hta => simp
      case hka => intro t h; simp at h
    · simp only at hpt
      subst hpt
      refine ⟨?k1b, fun x => if x = i then some (fun _ => 0) else t x, fun _ => 0,
        ?heqb, ?hcurb, ?htlbb, ?hwb, ?hnb, ?hlb, ?htb, rfl, ?hkb⟩
      case heqb =>
        simp [vm_fault_walk, hti, kmalloc, hk0, pt_create, pt_insert, alloc_kpages, hp0, ENOMEM]
        exact rfl
      case hcurb => exact rfl
      case htlbb => rfl
      case hwb => rfl
      case hnb => rfl
      case hlb => simp [put_as, hp0]
      case htb => simp
      case hkb =>
        intro t' h
        simp only [Option.some.injEq] at h
        subst h
        refine ⟨fun x hx => by simp [hx], fun t2 h2 => ?_⟩
        rw [hti] at h2; cases h2
    · simp only at hpt
      subst hpt
      refine ⟨?k1c, t, t2, ?heqc, ?hcurc, ?htlbc, ?hwc, ?hnc, ?hlc, hti, he, ?hkc⟩
      case heqc =>
        simp [vm_fault_walk, hti, he, pt_insert, alloc_kpages, hp0, ENOMEM]
        exact rfl
      case hcurc => exact rfl
      case htlbc => rfl
      case hwc => rfl
      case hnc => rfl
      case hlc => simp [put_as, hp0]
      case hkc =>
        intro t' h
        simp only [Option.some.injEq] at h
        subst h
        refine ⟨fun x _ => rfl, fun t2' h2 => ?_⟩
        rw [hti] at h2
        simpa using h2


/-- C18: for a legal Read or Write fault (non-null address, owned by a region
or inside the guard band), with `i`, `j` the two indices of the address:
(1) when there is no first-level table and its `kmalloc` fails, `vm_fault`
returns `ENOMEM` and the table pointer stays `NULL`;
(2) when the `kmalloc` of the second-level table fails, `vm_fault` returns
`ENOMEM`, entry `i` of the first-level table stays `NULL`, and the first-level
table is the one that was present (unchanged) or the one just created;
(3) when `alloc_kpages` returns `0` for an empty slot, `vm_fault` returns
`ENOMEM`, the slot `[i][j]` stays `0`, the second-level table `i` is the one
that was present or the one just created, and every other entry of a present
first-level table is kept.
In all three cases the TLB and the count of TLB writes are unchanged. -/
theorem C18_vm_fault_alloc_failure (fuel : Nat) (k : Kernel) (p : proc) (as : addrspace)
    (ft : Int) (a : Nat) (found : Option Nat)
    (hcur : k.curproc = some p) (has : p.p_addrspace = some as) (hreg : as.regions ≠ none)
    (ha0 : a ≠ 0) (hfind : region_find fuel k as a = .ret found)
    (hlegal : found ≠ none ∨ (a < USERSTACK ∧ USERSTACK - 16 * PAGE_SIZE < a))
    (hft : ft = VM_FAULT_READ ∨ ft = VM_FAULT_WRITE) :
    (as.page_table = none → k.kmalloc_ok k.kmalloc_calls = false →
      ∃ k1 as1, vm_fault fuel k ft a = .ret (ENOMEM, k1) ∧ proc_getas k1 = some as1 ∧
        k1.tlb = k.tlb ∧ k1.tlb_writes = k.tlb_writes ∧ as1.regions = as.regions ∧
        as1.page_table = none) ∧
    ((as.page_table = none ∧ k.kmalloc_ok k.kmalloc_calls = true ∧
        k.kmalloc_ok (k.kmalloc_calls + 1) = false) ∨
      (∃ t, as.page_table = some t ∧ t (vm_fault_pt1 a) = none ∧
        k.kmalloc_ok k.kmalloc_calls = false) →
      ∃ k1 as1 t1, vm_fault fuel k ft a = .ret (ENOMEM, k1) ∧ proc_getas k1 = some as1 ∧
        k1.tlb = k.tlb ∧ k1.tlb_writes = k.tlb_writes ∧ as1.regions = as.regions ∧
        as1.page_table = some t1 ∧ t1 (vm_fault_pt1 a) = none ∧
        ∀ t, as.page_table = some t → t1 = t) ∧
    (k.kpages k.kpages_calls = 0 →
      ((as.page_table = none ∧ k.kmalloc_ok k.kmalloc_calls = true ∧
          k.kmalloc_ok (k.kmalloc_calls + 1) = true) ∨
        (∃ t, as.page_table = some t ∧ t (vm_fault_pt1 a) = none ∧
          k.kmalloc_ok k.kmalloc_calls = true) ∨
        (∃ t t2, as.page_table = some t ∧ t (vm_fault_pt1 a) = some t2 ∧
          t2 (vm_fault_pt2 a) = 0)) →
      ∃ k1 as1 t1 t3, vm_fault fuel k ft a = .ret (ENOMEM, k1) ∧ proc_getas k1 = some as1 ∧
        k1.tlb = k.tlb ∧ k1.tlb_writes = k.tlb_writes ∧ as1.regions = as.regions ∧
        k1.live_frames = k.live_frames ∧
        as1.page_table = some t1 ∧ t1 (vm_fault_pt1 a) = some t3 ∧ t3 (vm_fault_pt2 a) = 0 ∧
        ∀ t, as.page_table = some t →
          (∀ x, x ≠ vm_fault_pt1 a → t1 x = t x) ∧
          ∀ t2, t (vm_fault_pt1 a) = some t2 → t3 = t2) := by
  have h1 := vm_fault_after_lookup fuel k p as ft a found hcur has hreg ha0 hfind
  have hb : ¬ (found = none ∧ ¬ (a < USERSTACK ∧ USERSTACK - 16 * PAGE_SIZE < a)) := by
    intro h
    rcases hlegal with h2 | h2
    · exact h2 h.1
    · exact h.2 h2
  rw [if_neg hb, if_pos hft] at h1
  unfold vm_fault_map at h1
  refine ⟨?_, ?_, ?_⟩
  · intro hpt hk0
    have hw := vm_fault_walk_fail_l1 { k with run_number := u32 (k.run_number + 1) } p as
      (a &&& PAGE_FRAME) (vm_fault_pt1 a) (vm_fault_pt2 a) hpt hk0
    refine ⟨_, { as with page_table := none }, h1.trans hw, rfl, rfl, rfl, rfl, rfl⟩
  · intro h
    rcases h with ⟨hpt, hk0, hk1⟩ | ⟨t, hpt, hti, hk0⟩
    · have hw := vm_fault_walk_fail_l2_fresh { k with run_number := u32 (k.run_number + 1) } p as
        (a &&& PAGE_FRAME) (vm_fault_pt1 a) (vm_fault_pt2 a) hpt hk0 hk1
      refine ⟨_, { as with page_table := some (fun _ => none) }, fun _ => none, h1.trans hw,
        rfl, rfl, rfl, rfl, rfl, rfl, ?_⟩
      intro t ht
      rw [hpt] at ht; cases ht
    · have hw := vm_fault_walk_fail_l2 { k with run_number := u32 (k.run_number + 1) } p as
        (a &&& PAGE_FRAME) (vm_fault_pt1 a) (vm_fault_pt2 a) t hpt hti hk0
      refine ⟨_, as, t, h1.trans hw, rfl, rfl, rfl, rfl, hpt, hti, ?_⟩
      intro t' ht
      rw [hpt] at ht
      simpa using ht
  · intro hp0 hlev
    obtain ⟨k1, t1, t3, hw, hc1, htlb, hwr, _, hlive, ht1, ht3, hkeep⟩ :=
      vm_fault_walk_fail_frame { k with run_number := u32 (k.run_number + 1) } p as
        (a &&& PAGE_FRAME) (vm_fault_pt1 a) (vm_fault_pt2 a) hp0 hlev
    refine ⟨k1, { as with page_table := some t1 }, t1, t3, h1.trans hw, ?_, htlb, hwr, rfl,
      hlive, rfl, ht1, ht3, hkeep⟩
    simp [proc_getas, hc1]

/-- C18 on the two-region sample with a failing `kmalloc`: the Read fault at
`0x3800` returns `ENOMEM` and leaves the page-table root `NULL`. -/
theorem C18_vm_fault_alloc_failure_witness :
    ∃ k1 as1, vm_fault 3 { sample with kmalloc_ok := fun _ => false } VM_FAULT_READ 0x3800
        = .ret (ENOMEM, k1) ∧ proc_getas k1 = some as1 ∧
      k1.tlb = sample.tlb ∧ k1.tlb_writes = sample.tlb_writes ∧
      as1.regions = sample_as.regions ∧ as1.page_table = none :=
  (C18_vm_fault_alloc_failure 3 { sample with kmalloc_ok := fun _ => false }
    ⟨some sample_as⟩ sample_as VM_FAULT_READ 0x3800 (some 1) rfl rfl (by decide) (by decide)
    rfl (Or.inl (by decide)) (Or.inl rfl)).1 rfl rfl


/-! ## The TLB flush -/

theorem tlb_flush_fold (l : List Nat) :
    ∀ (k : Kernel) (i : Nat),
      ((l.foldl (fun k i => tlb_write k (TLBHI_INVALID i) TLBLO_INVALID i) k).tlb i
        = if i ∈ l then (TLBHI_INVALID i, TLBLO_INVALID) else k.tlb i) ∧
      (l.foldl (fun k i => tlb_write k (TLBHI_INVALID i) TLBLO_INVALID i) k).curproc
        = k.curproc := by
  induction l with
  | nil => intro k i; simp
  | cons x xs ih =>
    intro k i
    simp only [List.foldl_cons]
    obtain ⟨h1, h2⟩ := ih (tlb_write k (TLBHI_INVALID x) TLBLO_INVALID x) i
    refine ⟨?_, h2⟩
    rw [h1]
    by_cases hi : i ∈ xs
    · simp [hi]
    · by_cases hx : i = x
      · subst hx; simp [tlb_write]
      · simp [hi, hx, tlb_write]

/-- C20: whatever the TLB held, after `tlb_flush` every slot below `NUM_TLB`
holds the invalid entry of its index, whose valid bit is clear, and slots from
`NUM_TLB` on are untouched; `as_deactivate` is this flush; `as_activate` is
this flush when the current process has an address space and changes nothing
when it has none. -/
theorem C20_tlb_flush_invalidates_all (k : Kernel) :
    (∀ i, i < NUM_TLB →
      (tlb_flush k).tlb i = (TLBHI_INVALID i, TLBLO_INVALID) ∧
      ((tlb_flush k).tlb i).2 &&& TLBLO_VALID = 0) ∧
    (∀ i, NUM_TLB ≤ i → (tlb_flush k).tlb i = k.tlb i) ∧
    as_deactivate k = tlb_flush k ∧
    (proc_getas k ≠ none → as_activate k = tlb_flush k) ∧
    (proc_getas k = none → as_activate k = k) := by
  refine ⟨?_, ?_, rfl, ?_, ?_⟩
  · intro i hi
    have h := (tlb_flush_fold (List.range NUM_TLB) k i).1
    have hm : i ∈ List.range NUM_TLB := List.mem_range.2 hi
    rw [if_pos hm] at h
    unfold tlb_flush
    rw [h]
    exact ⟨rfl, (by decide : TLBLO_INVALID &&& TLBLO_VALID = 0)⟩
  · intro i hi
    have h := (tlb_flush_fold (List.range NUM_TLB) k i).1
    have hm : i ∉ List.range NUM_TLB := by
      rw [List.mem_range]; omega
    rw [if_neg hm] at h
    exact h
  · intro h
    obtain ⟨as, has⟩ := Option.ne_none_iff_exists'.1 h
    simp [as_activate, has]
  · intro h
    simp [as_activate, h]

/-- C20 on the two-region sample (a process with an address space) and on the
boot kernel (no process): slot 5 after the flush, and `as_activate`. -/
theorem C20_tlb_flush_invalidates_all_witness :
    ((tlb_flush sample).tlb 5 = (TLBHI_INVALID 5, TLBLO_INVALID) ∧
      ((tlb_flush sample).tlb 5).2 &&& TLBLO_VALID = 0) ∧
    as_activate sample = tlb_flush sample ∧ as_activate boot = boot :=
  ⟨(C20_tlb_flush_invalidates_all sample).1 5 (by decide),
    (C20_tlb_flush_invalidates_all sample).2.2.2.1 (by simp [proc_getas, sample]),
    (C20_tlb_flush_invalidates_all boot).2.2.2.2 rfl⟩


/-! ## The cells created by a run of `as_define_region` calls -/

/-- C14 (code bug): after the successful call
`as_define_region(as, 0x1000, 0xFFFFF000, PF_R, PF_W, 0)`, whose 32-bit end
wraps to `0`, the directory holds a region `[0x1000, 0xFFFFFFFF]`; a Read fault
at `USERSTACK + 1` is then found in that region, returns `0`, allocates a page
and maps it. -/
theorem C14_fault_above_userstack_is_mapped :
    ∃ k as k1 as1, define_regions 3 boot as_create [(0x1000, 0xFFFFF000, 4, 2, 0)] = .ret (k, as) ∧
      k.nodes = [⟨0x1000, 0xFFFFF000, 6, 6, none⟩] ∧
      region_find 3 k as (USERSTACK + 1) = .ret (some 0) ∧
      vm_fault 3 { k with curproc := some ⟨some as⟩ } VM_FAULT_READ (USERSTACK + 1)
        = .ret (0, k1) ∧
      proc_getas k1 = some as1 ∧
      k1.kpages_calls = 1 ∧ k1.live_frames = [0x80100000] ∧
      pt_entry as1 (vm_fault_pt1 (USERSTACK + 1)) (vm_fault_pt2 (USERSTACK + 1)) = 0x100000 :=
  ⟨_, _, _, _, rfl, by decide, rfl, rfl, rfl, rfl, rfl, rfl⟩

/-- C15 (code bug): the address space whose only region was defined by
`as_define_region(as, 0x7FFFF000, 0x800, PF_R, PF_W, 0)` holds the region
`[0x7FFFF000, 0x80000000)`.  `as_copy` hands the aligned extent back to
`as_define_region`, whose guard rejects the end `0x80000000 >= USERSTACK`: with
every allocation succeeding `as_copy` returns `ENOMEM` and stores no copy. -/
theorem C15_as_copy_rejects_region_ending_at_userstack :
    ∃ k as k1, define_regions 3 boot as_create [(0x7FFFF000, 0x800, 4, 2, 0)] = .ret (k, as) ∧
      k.nodes = [⟨0x7FFFF000, 0x1000, 6, 6, none⟩] ∧
      is_list k.nodes as.regions [0] = true ∧
      as_copy 3 k as = .ret (ENOMEM, k1, none) ∧ ENOMEM ≠ 0 :=
  ⟨_, _, _, rfl, by decide, by decide, rfl, by decide⟩


/-! ## What `as_destroy` frees -/

/-- A good page and its page-table entry determine each other. -/
theorem good_page_entry (p : Nat) (h : good_page p) :
    KVADDR_TO_PADDR p &&& PAGE_FRAME = p - MIPS_KSEG0 ∧
    KVADDR_TO_PADDR p &&& PAGE_FRAME ≠ 0 ∧
    PADDR_TO_KVADDR ((KVADDR_TO_PADDR p &&& PAGE_FRAME) &&& PAGE_FRAME) = p := by
  obtain ⟨h1, h2, h3⟩ := h
  have hP : PAGE_SIZE = 4096 := rfl
  have hK : MIPS_KSEG0 = 2147483648 := rfl
  rw [hP, hK] at h2
  rw [hP] at h1 h3
  have e1 : KVADDR_TO_PADDR p = p - 2147483648 := by
    unfold KVADDR_TO_PADDR sub32
    rw [hK]; omega
  have e2 : (p - 2147483648) &&& PAGE_FRAME = p - 2147483648 := by
    rw [and_page_frame _ (by omega)]; omega
  rw [e1, e2, e2, hK]
  refine ⟨rfl, by omega, ?_⟩
  unfold PADDR_TO_KVADDR u32
  rw [hK]; omega

/-- A `vm_fault` that returns `0` went through the page-table walk. -/
theorem vm_fault_ret_zero (fuel : Nat) (k : Kernel) (ft : Int) (a : Nat) (k1 : Kernel)
    (h : vm_fault fuel k ft a = .ret (0, k1)) :
    ∃ p as, k.curproc = some p ∧ p.p_addrspace = some as ∧
      vm_fault_walk { k with run_number := u32 (k.run_number + 1) } p as
        (a &&& PAGE_FRAME) (vm_fault_pt1 a) (vm_fault_pt2 a) = .ret (0, k1) := by
  have hE : EFAULT ≠ 0 := by decide
  have hI : EINVAL ≠ 0 := by decide
  unfold vm_fault at h
  cases hcur : k.curproc with
  | none => simp [hcur, hE] at h
  | some p =>
    simp only [hcur] at h
    by_cases ha : a = 0
    · simp [ha, hE] at h
    · simp only [ha, if_false] at h
      cases has : p.p_addrspace with
      | none => simp [has, hE] at h
      | some as =>
        simp only [has] at h
        cases hreg : as.regions with
        | none => simp [hreg, hE] at h
        | some head =>
          simp only [hreg] at h
          refine ⟨p, as, rfl, has, ?_⟩
          cases hfind : region_find fuel
              { k with run_number := u32 (k.run_number + 1), curproc := some p } as a with
          | trap => simp [hcur, hfind] at h
          | timeout => simp [hcur, hfind] at h
          | ret found =>
            simp only [hcur, hfind] at h
            split_ifs at h
            · simp [hE] at h
            · simpa [vm_fault_map, hcur] using h
            · simp [hE] at h
            · simp [hI] at h


theorem fresh_allocator_congr (k k1 : Kernel) (h1 : k1.kpages = k.kpages)
    (h2 : k1.kpages_calls = k.kpages_calls) (h3 : k1.live_frames = k.live_frames)
    (h : fresh_allocator k) : fresh_allocator k1 := by
  unfold fresh_allocator at *
  rw [h1, h2, h3]
  exact h

theorem fresh_allocator_step (k k1 : Kernel) (h1 : k1.kpages = k.kpages)
    (h2 : k1.kpages_calls = k.kpages_calls + 1)
    (h3 : k1.live_frames = k.kpages k.kpages_calls :: k.live_frames)
    (h : fresh_allocator k) : fresh_allocator k1 := by
  unfold fresh_allocator at *
  rw [h1, h2, h3]
  intro n hn hne
  obtain ⟨g, hlive, hdist⟩ := h n (by omega) hne
  refine ⟨g, ?_, fun m hm hmn => hdist m (by omega) hmn⟩
  intro hmem
  rcases List.mem_cons.1 hmem with heq | hmem2
  · exact hdist k.kpages_calls (Nat.le_refl _) (by omega) heq.symm
  · exact hlive hmem2

theorem good_page_kvaddr (q : Nat) (g : good_page q) :
    PADDR_TO_KVADDR (KVADDR_TO_PADDR q &&& PAGE_FRAME) = q := by
  have h := good_page_entry q g
  rw [h.1]
  obtain ⟨_, g2, g3⟩ := g
  unfold PADDR_TO_KVADDR u32
  unfold MIPS_KSEG0 PAGE_SIZE at *
  omega

theorem good_pages_disjoint (q q0 off a : Nat) (g : good_page q) (g0 : good_page q0)
    (hne : q ≠ q0) (hoff : off < PAGE_SIZE) (ha : a = q0 + off) :
    ¬ (q ≤ a ∧ a < q + PAGE_SIZE) := by
  obtain ⟨g1, _, _⟩ := g
  obtain ⟨h1, _, _⟩ := g0
  unfold PAGE_SIZE at *
  omega

theorem copy_inv_weaken (k0 : Kernel) (old : PageTable1) (D D2 : Nat → Nat → Prop)
    (k : Kernel) (nt : PageTable1)
    (hD : ∀ x y, D2 x y → D x y ∨ table_entry (some old) x y = 0)
    (h : copy_inv k0 old D k nt) : copy_inv k0 old D2 k nt := by
  obtain ⟨a, b, c, d, e, f, g⟩ := h
  refine ⟨a, b, c, d, ?_, f, g⟩
  intro i j hd h0
  rcases hD i j hd with h1 | h1
  · exact e i j h1 h0
  · exact absurd h1 h0

/-- One copied page: the step of the inner loop of `pt_copy` keeps the
invariant and marks the slot `[i][j]` as visited. -/
theorem copy_inv_step (k0 : Kernel) (old : PageTable1) (D : Nat → Nat → Prop) (k : Kernel)
    (nt : PageTable1) (i j : Nat) (t : PageTable2) (hnt : nt i = some t)
    (hinv : copy_inv k0 old D k nt)
    (hpage : k.kpages k.kpages_calls ≠ 0)
    (h0 : table_entry (some old) i j ≠ 0)
    (hg : good_page (PADDR_TO_KVADDR (table_entry (some old) i j)))
    (hl : PADDR_TO_KVADDR (table_entry (some old) i j) ∈ k0.live_frames) :
    copy_inv k0 old (fun x y => D x y ∨ (x = i ∧ y = j))
      (memmove (bzero (alloc_kpages k).2 (k.kpages k.kpages_calls) PAGE_SIZE)
        (k.kpages k.kpages_calls) (PADDR_TO_KVADDR (table_entry (some old) i j)) PAGE_SIZE)
      (fun x => if x = i then
          some (fun y => if y = j then KVADDR_TO_PADDR (k.kpages k.kpages_calls) &&& PAGE_FRAME
            else t y)
        else nt x) := by
  obtain ⟨hfresh, hgrow, hnew, hent, hdone, hinj, hmem⟩ := hinv
  obtain ⟨g, hnl, _⟩ := hfresh k.kpages_calls (Nat.le_refl _) hpage
  obtain ⟨ge1, ge2, ge3⟩ := good_page_entry _ g
  generalize hnf : k.kpages k.kpages_calls = nf at *
  generalize hof : PADDR_TO_KVADDR (table_entry (some old) i j) = q0 at *
  have hnl0 : nf ∉ k0.live_frames := fun h => hnl (hgrow _ h)
  have hq0 : nf ≠ q0 := fun h => hnl0 (h ▸ hl)
  -- shape of the new state
  have hlive : ∀ x, x ∈ (memmove (bzero (alloc_kpages k).2 nf PAGE_SIZE) nf q0
      PAGE_SIZE).live_frames ↔ x = nf ∨ x ∈ k.live_frames := by
    intro x
    simp [memmove, bzero, alloc_kpages, hnf, hpage]
  have hm : ∀ a, (memmove (bzero (alloc_kpages k).2 nf PAGE_SIZE) nf q0 PAGE_SIZE).mem a =
      if nf ≤ a ∧ a < nf + PAGE_SIZE then k.mem (q0 + (a - nf)) else k.mem a := by
    intro a
    simp only [memmove, bzero, alloc_kpages]
    by_cases hc : nf ≤ a ∧ a < nf + PAGE_SIZE
    · rw [if_pos hc]
      have hd := good_pages_disjoint nf q0 (a - nf) (q0 + (a - nf)) g hg hq0 (by omega) rfl
      rw [if_neg hd, if_pos hc]
    · rw [if_neg hc, if_neg hc, if_neg hc]
  have hte : ∀ x y, table_entry (some (fun x => if x = i then
          some (fun y => if y = j then KVADDR_TO_PADDR nf &&& PAGE_FRAME else t y)
        else nt x)) x y =
      if x = i ∧ y = j then KVADDR_TO_PADDR nf &&& PAGE_FRAME
      else table_entry (some nt) x y := by
    intro x y
    simp only [table_entry]
    by_cases hx : x = i
    · subst hx
      simp only [if_true, hnt, true_and]
    · simp [hx]
  -- an entry already in the new table never equals the one being added
  have hold : ∀ x y, table_entry (some nt) x y ≠ 0 →
      table_entry (some nt) x y ≠ KVADDR_TO_PADDR nf &&& PAGE_FRAME := by
    intro x y hxy heq
    obtain ⟨_, q, gq, hq, _, hqe, _⟩ := hent x y hxy
    have r1 := good_page_kvaddr q gq
    rw [← hqe, heq, good_page_kvaddr nf g] at r1
    exact hnl (r1 ▸ hq)
  refine ⟨?_, ?_, ?_, ?_, ?_, ?_, ?_⟩
  · refine fresh_allocator_step k _ rfl rfl ?_ hfresh
    simp [memmove, bzero, alloc_kpages, hnf, hpage]
  · intro q hq
    exact (hlive q).2 (Or.inr (hgrow q hq))
  · intro q hq hq2
    rcases (hlive q).1 hq with rfl | h
    · exact g
    · exact hnew q h hq2
  · intro x y hxy
    rw [hte] at hxy ⊢
    by_cases c : x = i ∧ y = j
    · obtain ⟨rfl, rfl⟩ := c
      rw [if_pos ⟨rfl, rfl⟩]
      refine ⟨h0, nf, g, (hlive nf).2 (Or.inl rfl), hnl0, rfl, ?_⟩
      intro off hoff
      rw [hm, if_pos (by omega), hof]
      have : nf + off - nf = off := by omega
      rw [this]
      refine hmem _ ?_
      intro q hq hq2
      exact good_pages_disjoint q q0 off _ (hnew q hq hq2) hg (fun h => hq2 (h ▸ hl)) hoff rfl
    · rw [if_neg c] at hxy ⊢
      obtain ⟨r0, q, gq, hq, hq2, hqe, hqm⟩ := hent x y hxy
      refine ⟨r0, q, gq, (hlive q).2 (Or.inr hq), hq2, hqe, ?_⟩
      intro off hoff
      rw [hm, if_neg (good_pages_disjoint nf q off _ g gq (fun h => hnl (h ▸ hq)) hoff rfl)]
      exact hqm off hoff
  · intro x y hd hxy
    rw [hte]
    by_cases c : x = i ∧ y = j
    · rw [if_pos c]; exact ge2
    · rw [if_neg c]
      rcases hd with hd | hd
      · exact hdone x y hd hxy
      · exact absurd hd c
  · intro x y x2 y2 hxy heq
    rw [hte] at hxy
    rw [hte, hte] at heq
    by_cases c1 : x = i ∧ y = j
    · by_cases c2 : x2 = i ∧ y2 = j
      · exact ⟨c1.1.trans c2.1.symm, c1.2.trans c2.2.symm⟩
      · rw [if_pos c1, if_neg c2] at heq
        exfalso
        have hne : table_entry (some nt) x2 y2 ≠ 0 := by rw [← heq]; exact ge2
        exact hold x2 y2 hne heq.symm
    · rw [if_neg c1] at hxy heq
      by_cases c2 : x2 = i ∧ y2 = j
      · rw [if_pos c2] at heq
        exact absurd heq (hold x y hxy)
      · rw [if_neg c2] at heq
        exact hinj x y x2 y2 hxy heq
  · intro a ha
    rw [hm]
    have hnfa := ha nf ((hlive nf).2 (Or.inl rfl)) hnl0
    rw [if_neg hnfa]
    exact hmem a (fun q hq hq2 => ha q ((hlive q).2 (Or.inr hq)) hq2)


/-- The inner loop of `pt_copy`, when it returns `0`, keeps the invariant,
marks the slots `[i][js]` as visited and touches only row `i` of the new
table. -/
theorem pt_copy_inner_inv (k0 : Kernel) (old : PageTable1) (old2 : PageTable2) (i : Nat)
    (hold2 : old i = some old2)
    (hold : ∀ j, j < N_ENTRIES → old2 j ≠ 0 →
      good_page (PADDR_TO_KVADDR (old2 j)) ∧ PADDR_TO_KVADDR (old2 j) ∈ k0.live_frames) :
    ∀ (js : List Nat) (D : Nat → Nat → Prop) (k : Kernel) (nt : PageTable1) (k1 : Kernel)
      (nt1 : PageTable1),
      (∀ j ∈ js, j < N_ENTRIES) → (∃ t, nt i = some t) → copy_inv k0 old D k nt →
      pt_copy_inner old2 i js k nt = .ret (0, k1, nt1) →
      copy_inv k0 old (fun x y => D x y ∨ (x = i ∧ y ∈ js)) k1 nt1 := by
  have he : ∀ y, table_entry (some old) i y = old2 y := by
    intro y; simp [table_entry, hold2]
  intro js
  induction js with
  | nil =>
    intro D k nt k1 nt1 _ _ hinv h
    simp only [pt_copy_inner, Outcome.ret.injEq, Prod.mk.injEq, true_and] at h
    obtain ⟨rfl, rfl⟩ := h
    exact copy_inv_weaken k0 old D _ k nt (by intro x y h; simpa using Or.inl h) hinv
  | cons j js ih =>
    intro D k nt k1 nt1 hjs hnt hinv h
    have hj : j < N_ENTRIES := hjs j (List.mem_cons_self _ _)
    have hjs2 : ∀ y ∈ js, y < N_ENTRIES := fun y hy => hjs y (List.mem_cons_of_mem _ hy)
    simp only [pt_copy_inner] at h
    by_cases h0 : old2 j = 0
    · rw [if_pos h0] at h
      refine copy_inv_weaken k0 old _ _ k1 nt1 ?_ (ih D k nt k1 nt1 hjs2 hnt hinv h)
      intro x y hxy
      rcases hxy with hd | ⟨rfl, hy⟩
      · exact Or.inl (Or.inl hd)
      · rcases List.mem_cons.1 hy with rfl | hy
        · exact Or.inr (by rw [he]; exact h0)
        · exact Or.inl (Or.inr ⟨rfl, hy⟩)
    · rw [if_neg h0] at h
      by_cases hp : k.kpages k.kpages_calls = 0
      · exfalso
        simp [alloc_kpages, hp, ENOMEM] at h
      · obtain ⟨t, ht⟩ := hnt
        obtain ⟨hg, hl⟩ := hold j hj h0
        have hstep := copy_inv_step k0 old D k nt i j t ht hinv hp (by rw [he]; exact h0)
          (by rw [he]; exact hg) (by rw [he]; exact hl)
        rw [he] at hstep
        have h2 : pt_copy_inner old2 i js
            (memmove (bzero (alloc_kpages k).2 (k.kpages k.kpages_calls) PAGE_SIZE)
              (k.kpages k.kpages_calls) (PADDR_TO_KVADDR (old2 j)) PAGE_SIZE)
            (fun x => if x = i then
                some (fun y => if y = j then
                    KVADDR_TO_PADDR (k.kpages k.kpages_calls) &&& PAGE_FRAME
                  else t y)
              else nt x) = .ret (0, k1, nt1) := by
          simpa [alloc_kpages, hp, ht] using h
        refine copy_inv_weaken k0 old _ _ k1 nt1 ?_
          (ih _ _ _ k1 nt1 hjs2 ⟨_, if_pos rfl⟩ hstep h2)
        intro x y hxy
        rcases hxy with hd | ⟨rfl, hy⟩
        · exact Or.inl (Or.inl (Or.inl hd))
        · rcases List.mem_cons.1 hy with rfl | hy
          · exact Or.inl (Or.inl (Or.inr ⟨rfl, rfl⟩))
          · exact Or.inl (Or.inr ⟨rfl, hy⟩)


/-- The call of `pt_create` for a row not visited so far keeps the invariant. -/
theorem copy_inv_create (k0 : Kernel) (old : PageTable1) (D : Nat → Nat → Prop) (k : Kernel)
    (nt : PageTable1) (i : Nat) (hD : ∀ j, ¬ D i j) (hinv : copy_inv k0 old D k nt) :
    copy_inv k0 old D (kmalloc k).2 (fun x => if x = i then some (fun _ => 0) else nt x) := by
  obtain ⟨hfresh, hgrow, hnew, hent, hdone, hinj, hmem⟩ := hinv
  have hte : ∀ x y, table_entry (some (fun x => if x = i then some (fun _ => 0) else nt x)) x y
      = if x = i then 0 else table_entry (some nt) x y := by
    intro x y
    simp only [table_entry]
    by_cases hx : x = i
    · simp [hx]
    · simp [hx]
  refine ⟨fresh_allocator_congr k _ rfl rfl rfl hfresh, hgrow, hnew, ?_, ?_, ?_, hmem⟩
  · intro x y hxy
    rw [hte] at hxy ⊢
    by_cases hx : x = i
    · rw [if_pos hx] at hxy; exact absurd rfl hxy
    · rw [if_neg hx] at hxy ⊢
      exact hent x y hxy
  · intro x y hd hxy
    rw [hte]
    by_cases hx : x = i
    · subst hx; exact absurd hd (hD y)
    · rw [if_neg hx]; exact hdone x y hd hxy
  · intro x y x2 y2 hxy heq
    rw [hte] at hxy
    rw [hte, hte] at heq
    by_cases hx : x = i
    · rw [if_pos hx] at hxy; exact absurd rfl hxy
    · rw [if_neg hx] at hxy heq
      by_cases hx2 : x2 = i
      · rw [if_pos hx2] at heq; exact absurd heq hxy
      · rw [if_neg hx2] at heq
        exact hinj x y x2 y2 hxy heq

set_option maxRecDepth 100000 in
/-- The outer loop of `pt_copy`, when it returns `0`, keeps the invariant and
marks every slot of the rows `is` as visited. -/
theorem pt_copy_outer_inv (k0 : Kernel) (old : PageTable1)
    (hold : ∀ i j, i < N_ENTRIES → j < N_ENTRIES → table_entry (some old) i j ≠ 0 →
      good_page (PADDR_TO_KVADDR (table_entry (some old) i j)) ∧
        PADDR_TO_KVADDR (table_entry (some old) i j) ∈ k0.live_frames) :
    ∀ (is : List Nat) (D : Nat → Nat → Prop) (k : Kernel) (nt : PageTable1) (k1 : Kernel)
      (nt1 : PageTable1),
      (∀ i ∈ is, i < N_ENTRIES) → is.Nodup → (∀ i ∈ is, ∀ j, ¬ D i j) →
      copy_inv k0 old D k nt →
      pt_copy_outer old is k nt = .ret (0, k1, nt1) →
      copy_inv k0 old (fun x y => D x y ∨ (x ∈ is ∧ y < N_ENTRIES)) k1 nt1 := by
  intro is
  induction is with
  | nil =>
    intro D k nt k1 nt1 _ _ _ hinv h
    simp only [pt_copy_outer, Outcome.ret.injEq, Prod.mk.injEq, true_and] at h
    obtain ⟨rfl, rfl⟩ := h
    exact copy_inv_weaken k0 old D _ k nt (by intro x y h; simpa using Or.inl h) hinv
  | cons i is ih =>
    intro D k nt k1 nt1 hr hnd hD hinv h
    have hi : i < N_ENTRIES := hr i (List.mem_cons_self _ _)
    have hr2 : ∀ x ∈ is, x < N_ENTRIES := fun x hx => hr x (List.mem_cons_of_mem _ hx)
    have hD2 : ∀ x ∈ is, ∀ j, ¬ D x j := fun x hx => hD x (List.mem_cons_of_mem _ hx)
    obtain ⟨hni, hnd2⟩ := List.nodup_cons.1 hnd
    simp only [pt_copy_outer] at h
    cases ho : old i with
    | none =>
      rw [ho] at h
      refine copy_inv_weaken k0 old _ _ k1 nt1 ?_ (ih D k nt k1 nt1 hr2 hnd2 hD2 hinv h)
      intro x y hxy
      rcases hxy with hd | ⟨hx, hy⟩
      · exact Or.inl (Or.inl hd)
      · rcases List.mem_cons.1 hx with rfl | hx
        · exact Or.inr (by simp [table_entry, ho])
        · exact Or.inl (Or.inr ⟨hx, hy⟩)
    | some old2 =>
      rw [ho] at h
      have he : ∀ y, table_entry (some old) i y = old2 y := by
        intro y; simp [table_entry, ho]
      by_cases hok : k.kmalloc_ok k.kmalloc_calls = true
      · have hc := copy_inv_create k0 old D k nt i (hD i (List.mem_cons_self _ _)) hinv
        have hpc : pt_create k nt i =
            (0, (kmalloc k).2, fun x => if x = i then some (fun _ => 0) else nt x) := by
          simp [pt_create, kmalloc, hok]
        rw [hpc] at h
        simp only [ne_eq, not_true_eq_false, if_false] at h
        cases hin : pt_copy_inner old2 i (List.range N_ENTRIES) (kmalloc k).2
            (fun x => if x = i then some (fun _ => 0) else nt x) with
        | trap => rw [hin] at h; simp at h
        | timeout => rw [hin] at h; simp at h
        | ret r =>
          obtain ⟨e, k2, nt2⟩ := r
          rw [hin] at h
          simp only at h
          by_cases he0 : e = 0
          · subst he0
            simp only [ne_eq, not_true_eq_false, if_false] at h
            have hinner := pt_copy_inner_inv k0 old old2 i ho
              (fun j hj h0 => by
                have := hold i j hi hj (by rw [he]; exact h0)
                rw [he] at this
                exact this)
              (List.range N_ENTRIES) D _ _ k2 nt2
              (fun j hj => List.mem_range.1 hj) ⟨_, if_pos rfl⟩ hc hin
            refine copy_inv_weaken k0 old _ _ k1 nt1 ?_
              (ih _ k2 nt2 k1 nt1 hr2 hnd2 ?_ hinner h)
            · intro x y hxy
              rcases hxy with hd | ⟨hx, hy⟩
              · exact Or.inl (Or.inl (Or.inl hd))
              · rcases List.mem_cons.1 hx with rfl | hx
                · exact Or.inl (Or.inl (Or.inr ⟨rfl, List.mem_range.2 hy⟩))
                · exact Or.inl (Or.inr ⟨hx, hy⟩)
            · intro x hx j hd
              rcases hd with hd | ⟨rfl, _⟩
              · exact hD2 x hx j hd
              · exact hni hx
          · rw [if_pos he0] at h
            simp only [Outcome.ret.injEq, Prod.mk.injEq] at h
            exact absurd h.1 he0
      · exfalso
        have hpc : (pt_create k nt i).1 = ENOMEM := by
          simp [pt_create, kmalloc, hok]
        have hne : (pt_create k nt i).1 ≠ 0 := by rw [hpc]; decide
        simp only [ne_eq] at h
        rw [if_pos hne] at h
        simp only [Outcome.ret.injEq, Prod.mk.injEq] at h
        exact hne h.1


theorem copy_inv_start (k : Kernel) (old : PageTable1) (halloc : fresh_allocator k) :
    copy_inv k old (fun _ _ => False) (kmalloc k).2 (fun _ => none) := by
  refine ⟨fresh_allocator_congr k _ rfl rfl rfl halloc, fun q hq => hq,
    fun q hq hq2 => absurd hq hq2, ?_, fun i j hd => hd.elim, ?_, fun a _ => rfl⟩
  · intro i j h; exact absurd rfl h
  · intro i j i2 j2 h; exact absurd rfl h

theorem sample_mapped_fresh : fresh_allocator sample_mapped := by
  intro n hn hne
  have hk : ∀ m, sample_mapped.kpages m = if m < 16 then 0x80100000 + m * 4096 else 0 :=
    fun _ => rfl
  have hc : sample_mapped.kpages_calls = 1 := rfl
  have hlv : sample_mapped.live_frames = [0x80100000] := rfl
  rw [hc] at hn
  rw [hk] at hne ⊢
  by_cases h16 : n < 16
  · rw [if_pos h16]
    refine ⟨?_, ?_, ?_⟩
    · unfold good_page PAGE_SIZE MIPS_KSEG0
      omega
    · rw [hlv]
      simp only [List.mem_singleton]
      omega
    · intro m _ hmn
      rw [hk]
      by_cases hm : m < 16
      · rw [if_pos hm]; omega
      · rw [if_neg hm]; omega
  · rw [if_neg h16] at hne
    exact absurd rfl hne

theorem sample_table_entry (i j : Nat) :
    table_entry (some sample_table) i j = if i = 0 ∧ j = 1 then 0x100000 else 0 := by
  unfold table_entry sample_table
  by_cases hi : i = 0
  · by_cases hj : j = 1
    · simp [hi, hj]
    · simp [hi, hj]
  · simp [hi]

/-- C16: with an allocator that hands out only fresh pages and an old table
whose present entries name live pages, when `pt_copy`, called as in `as_copy`
with an empty table behind `ret`, returns `0`: the new table has an entry at
`[i][j]` exactly when the old one has; no frame of the new table is a frame of
the old table; no two slots of the new table share a frame; and for every
present entry the 4096 bytes of the new frame are the bytes the old frame had,
which the old frame still has. -/
theorem C16_pt_copy_copies_every_frame (k : Kernel) (old ret : Option PageTable1)
    (k1 : Kernel) (new : Option PageTable1)
    (hret : ∀ i j, table_entry ret i j = 0)
    (halloc : fresh_allocator k)
    (hold : ∀ i j, i < N_ENTRIES → j < N_ENTRIES → table_entry old i j ≠ 0 →
      good_page (PADDR_TO_KVADDR (table_entry old i j)) ∧
        PADDR_TO_KVADDR (table_entry old i j) ∈ k.live_frames)
    (h : pt_copy k old ret = .ret (0, k1, new)) :
    (∀ i j, i < N_ENTRIES → j < N_ENTRIES →
      (table_entry new i j ≠ 0 ↔ table_entry old i j ≠ 0)) ∧
    (∀ i j i2 j2, i2 < N_ENTRIES → j2 < N_ENTRIES →
      table_entry new i j ≠ 0 → table_entry old i2 j2 ≠ 0 →
      table_entry new i j ≠ table_entry old i2 j2 ∧
        PADDR_TO_KVADDR (table_entry new i j) ≠ PADDR_TO_KVADDR (table_entry old i2 j2)) ∧
    (∀ i j i2 j2, table_entry new i j ≠ 0 →
      table_entry new i j = table_entry new i2 j2 → i = i2 ∧ j = j2) ∧
    (∀ i j off, i < N_ENTRIES → j < N_ENTRIES → table_entry old i j ≠ 0 → off < PAGE_SIZE →
      k1.mem (PADDR_TO_KVADDR (table_entry new i j) + off)
        = k.mem (PADDR_TO_KVADDR (table_entry old i j) + off) ∧
      k1.mem (PADDR_TO_KVADDR (table_entry old i j) + off)
        = k.mem (PADDR_TO_KVADDR (table_entry old i j) + off)) := by
  cases old with
  | none =>
    simp only [pt_copy, Outcome.ret.injEq, Prod.mk.injEq, true_and] at h
    obtain ⟨rfl, rfl⟩ := h
    have e0 : ∀ i j, table_entry none i j = 0 := fun _ _ => rfl
    refine ⟨?_, ?_, ?_, ?_⟩
    · intro i j _ _; rw [hret, e0]
    · intro i j i2 j2 _ _ h1; exact absurd (hret i j) h1
    · intro i j i2 j2 h1; exact absurd (hret i j) h1
    · intro i j off _ _ h1; exact absurd (e0 i j) h1
  | some o =>
    simp only [pt_copy] at h
    by_cases hok : k.kmalloc_ok k.kmalloc_calls = true
    · have hk : (kmalloc k).1 = true := hok
      rw [hk] at h
      simp only [Bool.not_true, Bool.false_eq_true, if_false] at h
      cases hout : pt_copy_outer o (List.range N_ENTRIES) (kmalloc k).2 (fun _ => none) with
      | trap => rw [hout] at h; simp at h
      | timeout => rw [hout] at h; simp at h
      | ret r =>
        obtain ⟨e, k2, nt⟩ := r
        rw [hout] at h
        simp only at h
        by_cases he0 : e = 0
        · subst he0
          simp only [ne_eq, not_true_eq_false, if_false, Outcome.ret.injEq, Prod.mk.injEq,
            true_and] at h
          obtain ⟨rfl, rfl⟩ := h
          obtain ⟨_, hgrow, hnew, hent, hdone, hinj, hmem⟩ :=
            pt_copy_outer_inv k o hold (List.range N_ENTRIES) (fun _ _ => False) (kmalloc k).2
              (fun _ => none) k2 nt (fun i hi => List.mem_range.1 hi)
              (List.nodup_range N_ENTRIES) (fun _ _ _ hd => hd) (copy_inv_start k o halloc) hout
          have hiff : ∀ i j, i < N_ENTRIES → j < N_ENTRIES →
              (table_entry (some nt) i j ≠ 0 ↔ table_entry (some o) i j ≠ 0) :=
            fun i j hi hj => ⟨fun h1 => (hent i j h1).1,
              fun h1 => hdone i j (Or.inr ⟨List.mem_range.2 hi, hj⟩) h1⟩
          refine ⟨hiff, ?_, hinj, ?_⟩
          · intro i j i2 j2 hi2 hj2 h1 h2
            obtain ⟨_, q, gq, _, hq2, hqe, _⟩ := hent i j h1
            have hkv : PADDR_TO_KVADDR (table_entry (some nt) i j) = q := by
              rw [hqe]; exact good_page_kvaddr q gq
            have hne : PADDR_TO_KVADDR (table_entry (some nt) i j)
                ≠ PADDR_TO_KVADDR (table_entry (some o) i2 j2) := by
              rw [hkv]
              intro heq
              exact hq2 (heq ▸ (hold i2 j2 hi2 hj2 h2).2)
            exact ⟨fun heq => hne (by rw [heq]), hne⟩
          · intro i j off hi hj h1 hoff
            obtain ⟨g0, hl0⟩ := hold i j hi hj h1
            obtain ⟨_, q, gq, _, _, hqe, hqm⟩ := hent i j ((hiff i j hi hj).2 h1)
            refine ⟨?_, ?_⟩
            · rw [hqe, good_page_kvaddr q gq]
              exact hqm off hoff
            · refine hmem _ ?_
              intro q2 hq2 hq3
              exact good_pages_disjoint q2 _ off _ (hnew q2 hq2 hq3) g0
                (fun heq => hq3 (heq ▸ hl0)) hoff rfl
        · rw [if_pos he0] at h
          simp only [Outcome.ret.injEq, Prod.mk.injEq] at h
          exact absurd h.1 he0
    · exfalso
      have hk : (kmalloc k).1 = false := by
        simpa [kmalloc] using hok
      rw [hk] at h
      simp [ENOMEM] at h

set_option maxRecDepth 100000 in
/-- On the one-page sample table `pt_copy` returns `0`. -/
theorem sample_pt_copy_returns :
    ∃ k1 new, pt_copy sample_mapped (some sample_table) (some (fun _ => none))
      = .ret (0, k1, new) := ⟨_, _, rfl⟩

/-- C16 on the one-page sample table: the copy maps `[0][1]` to another frame
whose byte at offset `4` is the `7` stored in the old frame. -/
theorem C16_pt_copy_copies_every_frame_witness :
    ∃ k1 new, pt_copy sample_mapped (some sample_table) (some (fun _ => none))
        = .ret (0, k1, new) ∧
      table_entry new 0 1 ≠ 0 ∧ table_entry new 0 1 ≠ 0x100000 ∧
      k1.mem (PADDR_TO_KVADDR (table_entry new 0 1) + 4) = 7 ∧
      k1.mem 0x80100004 = 7 := by
  obtain ⟨k1, new, hrun⟩ := sample_pt_copy_returns
  have hold : ∀ i j, i < N_ENTRIES → j < N_ENTRIES → table_entry (some sample_table) i j ≠ 0 →
      good_page (PADDR_TO_KVADDR (table_entry (some sample_table) i j)) ∧
        PADDR_TO_KVADDR (table_entry (some sample_table) i j) ∈ sample_mapped.live_frames := by
    intro i j _ _ h0
    rw [sample_table_entry] at h0 ⊢
    by_cases c : i = 0 ∧ j = 1
    · rw [if_pos c]
      exact ⟨⟨by decide, by decide, by decide⟩, by decide⟩
    · rw [if_neg c] at h0
      exact absurd rfl h0
  obtain ⟨h1, h2, _, h4⟩ :=
    C16_pt_copy_copies_every_frame sample_mapped (some sample_table) (some (fun _ => none))
      k1 new (fun _ _ => rfl) sample_mapped_fresh hold hrun
  have e : table_entry (some sample_table) 0 1 = 0x100000 := rfl
  have hn0 : table_entry (some sample_table) 0 1 ≠ 0 := by rw [e]; decide
  have h5 := h4 0 1 4 (by decide) (by decide) hn0 (by decide)
  have hnew := (h1 0 1 (by decide) (by decide)).2 hn0
  have h6 := (h2 0 1 0 1 (by decide) (by decide) hnew hn0).1
  rw [e] at h5 h6
  exact ⟨k1, new, hrun, hnew, h6, h5.1, h5.2⟩


/-! ## The two definitions of `tlb_insert` -/

/-- C21: for every entry and address the `tlb_insert` of `tlb.c` stops at the
division `1 / 0` before it writes anything, while the `tlb_insert` of
`addrspace.c` returns `0` after the one write
`tlb_random(address & PAGE_FRAME, entry)`. -/
theorem C21_tlb_insert_divides_by_zero (k : Kernel) (page_table_entry address : Nat) :
    tlb_insert_tlb_c k page_table_entry address = .trap ∧
    tlb_insert k page_table_entry address
      = .ret (0, tlb_random k (address &&& PAGE_FRAME) page_table_entry) :=
  ⟨rfl, rfl⟩

/-! ## `as_define_stack` -/

/-- C22, counterexample: on a freshly created address space `as_define_stack`
returns `0` with the stack pointer `USERSTACK`, and afterwards no region owns
`USERSTACK - 1`: `region_permissions` answers `-1`, not `PF_R | PF_W`. -/
theorem C22_stack_region_is_not_defined :
    as_define_stack boot (some as_create) = (0, boot, USERSTACK) ∧
    region_permissions 1 (as_define_stack boot (some as_create)).2.1 as_create (USERSTACK - 1)
      = .ret (-1) ∧
    (-1 : Int) ≠ toInt32 (PF_R ||| PF_W) :=
  ⟨rfl, rfl, by decide⟩

/-- C22: for every address space `as_define_stack` returns `0`, stores
`USERSTACK` as the initial stack pointer and leaves the kernel state, hence the
region list, as it was: what `region_permissions` and `region_find` answer for
any address is the same after the call as before. -/
theorem C22_as_define_stack_changes_nothing (fuel : Nat) (k : Kernel) (as : addrspace)
    (a : Nat) :
    (as_define_stack k (some as)).1 = 0 ∧
    (as_define_stack k (some as)).2.2 = USERSTACK ∧
    (as_define_stack k (some as)).2.1 = k ∧
    region_permissions fuel (as_define_stack k (some as)).2.1 as a
      = region_permissions fuel k as a ∧
    region_find fuel (as_define_stack k (some as)).2.1 as a = region_find fuel k as a :=
  ⟨rfl, rfl, rfl, rfl, rfl⟩

/-! ## `as_define_region` on a null address space -/

/-- C23, counterexample: a call with a null address space returns `EFAULT`,
which is not `EINVAL`. -/
theorem C23_null_address_space_is_not_einval :
    as_define_region 1 boot none 0x1000 0x1000 PF_R 0 0 = .ret (EFAULT, boot, none) ∧
    EFAULT ≠ EINVAL :=
  ⟨rfl, by decide⟩

/-- C23: for every `vaddr`, size and flags, `as_define_region` called with a
null address space returns `EFAULT` and changes nothing. -/
theorem C23_null_address_space_is_efault (fuel : Nat) (k : Kernel)
    (vaddr memsize readable writeable executable : Nat) :
    as_define_region fuel k none vaddr memsize readable writeable executable
      = .ret (EFAULT, k, none) :=
  rfl

/-! ## `vm_tlbshootdown` -/

/-- C24: for every kernel state and argument `vm_tlbshootdown` ends in `panic`,
in the state it was called in (TLB, current process and region nodes
untouched), and does not return. -/
theorem C24_vm_tlbshootdown_panics (k : Kernel) (ts : Option Nat) :
    (∃ k1 msg, vm_tlbshootdown k ts = .panicked k1 msg ∧ k1 = k ∧
      k1.tlb = k.tlb ∧ k1.tlb_writes = k.tlb_writes ∧ k1.curproc = k.curproc ∧
      k1.nodes = k.nodes) ∧
    ∀ v, vm_tlbshootdown k ts ≠ .returned v :=
  ⟨⟨k, _, rfl, rfl, rfl, rfl, rfl, rfl⟩, fun _ h => Halt.noConfusion h⟩


/-- The two indices of `vm_fault` in arithmetic: the page number of the fault
address, moved by half the address space, split into two 10-bit digits. -/
theorem vm_fault_index_arith (a : Nat) (ha : a < 2 ^ 32) :
    vm_fault_pt1 a = (a / 4096 + 2 ^ 19) % 2 ^ 20 / 1024 ∧
    vm_fault_pt2 a = (a / 4096 + 2 ^ 19) % 2 ^ 20 % 1024 := by
  have h1 : a &&& PAGE_FRAME = a / 4096 * 4096 := and_page_frame a ha
  have h3 : ∀ x : Nat, x &&& 0x3FF = x % 1024 := by
    intro x
    exact Nat.and_pow_two_sub_one_eq_mod x 10
  unfold vm_fault_pt1 vm_fault_pt2 KVADDR_TO_PADDR sub32 u32 MIPS_KSEG0
  rw [h1, h3, h3, Nat.shiftRight_eq_div_pow, Nat.shiftRight_eq_div_pow, Nat.shiftLeft_eq]
  constructor <;> omega


/-! ## The page-table indices -/

/-- C25: for the fault address `0x1000` the first-level index of `vm_fault` is
`512`, not the top 10 bits `0x1000 >> 22 = 0` that `add_entries` derives, while
the second-level index is `1` for both; a Read fault at `0x1000` on the
two-region sample maps the page at `[512][1]` and leaves `[0][1]` empty. -/
theorem C25_first_level_index_is_not_top_bits :
    vm_fault_pt1 0x1000 = 512 ∧ 0x1000 >>> 22 = 0 ∧ add_entries_p1 0x1000 = 0 ∧
    vm_fault_pt2 0x1000 = 1 ∧ add_entries_p2 0x1000 = 1 ∧
    ∃ k1 as1, vm_fault 3 sample VM_FAULT_READ 0x1000 = .ret (0, k1) ∧
      proc_getas k1 = some as1 ∧ pt_entry as1 512 1 ≠ 0 ∧ pt_entry as1 0 1 = 0 :=
  ⟨by decide, by decide, by decide, by decide, by decide,
    _, _, rfl, rfl, by decide, by decide⟩

/-- For every 32-bit fault address the second-level index of `vm_fault` is
bits 12..21 of the address, as in `add_entries`, but the first-level index is
the top 10 bits moved by 512 modulo 1024 (the top bit inverted), because the
indices are taken from `KVADDR_TO_PADDR` of the address; it never equals
`address >> 22`, the first-level index of `add_entries`. -/
theorem vm_fault_indices_shifted (a : Nat) (ha : a < 2 ^ 32) :
    vm_fault_pt1 a = (a >>> 22 + 512) % 1024 ∧
    vm_fault_pt2 a = (a >>> 12) &&& 0x3FF ∧
    add_entries_p1 a = a >>> 22 ∧
    add_entries_p2 a = (a >>> 12) &&& 0x3FF ∧
    vm_fault_pt1 a ≠ add_entries_p1 a := by
  obtain ⟨h1, h2⟩ := vm_fault_index_arith a ha
  have h3 : ∀ x : Nat, x &&& 0x3FF = x % 1024 := by
    intro x
    exact Nat.and_pow_two_sub_one_eq_mod x 10
  rw [h1, h2, h3]
  unfold add_entries_p1 add_entries_p2 u32
  rw [Nat.shiftRight_eq_div_pow, Nat.shiftRight_eq_div_pow, Nat.shiftRight_eq_div_pow,
    Nat.shiftLeft_eq]
  refine ⟨?_, ?_, rfl, ?_, ?_⟩ <;> omega

/-- The address `0x00401234` has the indices `(513, 1)` in `vm_fault` and `(1, 1)` in
`add_entries`. -/
theorem vm_fault_indices_shifted_example :
    vm_fault_pt1 0x00401234 = (0x00401234 >>> 22 + 512) % 1024 ∧
    vm_fault_pt2 0x00401234 = (0x00401234 >>> 12) &&& 0x3FF ∧
    add_entries_p1 0x00401234 = 0x00401234 >>> 22 ∧
    add_entries_p2 0x00401234 = (0x00401234 >>> 12) &&& 0x3FF ∧
    vm_fault_pt1 0x00401234 ≠ add_entries_p1 0x00401234 :=
  vm_fault_indices_shifted 0x00401234 (by decide)

/-- C30: for all 32-bit addresses both indices of `vm_fault` are below
`N_ENTRIES`, and two addresses get the same pair of indices exactly when they
lie in the same 4 KiB page. -/
theorem C30_vm_fault_slot_injective (a b : Nat) (ha : a < 2 ^ 32) (hb : b < 2 ^ 32) :
    vm_fault_pt1 a < N_ENTRIES ∧ vm_fault_pt2 a < N_ENTRIES ∧
    vm_fault_pt1 b < N_ENTRIES ∧ vm_fault_pt2 b < N_ENTRIES ∧
    ((vm_fault_pt1 a = vm_fault_pt1 b ∧ vm_fault_pt2 a = vm_fault_pt2 b) ↔
      a >>> 12 = b >>> 12) := by
  obtain ⟨h1, h2⟩ := vm_fault_index_arith a ha
  obtain ⟨h3, h4⟩ := vm_fault_index_arith b hb
  rw [h1, h2, h3, h4, Nat.shiftRight_eq_div_pow, Nat.shiftRight_eq_div_pow]
  unfold N_ENTRIES
  refine ⟨?_, ?_, ?_, ?_, ?_, ?_⟩ <;> omega

/-- C30 at `0x00401234` and `0x00401ff0`, two addresses of one page. -/
theorem C30_vm_fault_slot_injective_witness :
    vm_fault_pt1 0x00401234 < N_ENTRIES ∧ vm_fault_pt2 0x00401234 < N_ENTRIES ∧
    vm_fault_pt1 0x00401ff0 < N_ENTRIES ∧ vm_fault_pt2 0x00401ff0 < N_ENTRIES ∧
    ((vm_fault_pt1 0x00401234 = vm_fault_pt1 0x00401ff0 ∧
        vm_fault_pt2 0x00401234 = vm_fault_pt2 0x00401ff0) ↔
      0x00401234 >>> 12 = 0x00401ff0 >>> 12) :=
  C30_vm_fault_slot_injective 0x00401234 0x00401ff0 (by decide) (by decide)


/-! ## The bounds of the stack region in `region_find` -/

/-- Whenever the loop of `region_find` returns a region, the address passed the
bounds test of that region. -/
theorem region_find_loop_sound (nodes : List region_t) (a : Nat) :
    ∀ (fuel : Nat) (p : Option Nat) (q : Nat),
      region_find_loop nodes a fuel p = .ret (some q) →
      ∃ r, nodes[q]? = some r ∧
        a ≥ (if r.start = USERSTACK then sub32 (sub32 r.start r.size) 1 else r.start) ∧
        a ≤ (if r.start = USERSTACK then r.start else sub32 (u32 (r.start + r.size)) 1) := by
  intro fuel
  induction fuel with
  | zero => intro p q h; simp [region_find_loop] at h
  | succ n ih =>
    intro p q h
    cases p with
    | none => simp [region_find_loop] at h
    | some x =>
      simp only [region_find_loop] at h
      cases hx : nodes[x]? with
      | none => rw [hx] at h; simp at h
      | some r =>
        rw [hx] at h
        simp only at h
        by_cases hc : a ≥ (if r.start = USERSTACK then sub32 (sub32 r.start r.size) 1
            else r.start) ∧
            a ≤ (if r.start = USERSTACK then r.start else sub32 (u32 (r.start + r.size)) 1)
        · rw [if_pos hc] at h
          simp only [Outcome.ret.injEq, Option.some.injEq] at h
          subst h
          exact ⟨r, hx, hc.1, hc.2⟩
        · rw [if_neg hc] at h
          exact ih r.next q h

/-- For a stack region (`start = USERSTACK`, size below `USERSTACK`) in cell `q`
and every address `a`: whenever `region_find` returns `q` the address
satisfies `start - size - 1 <= a <= start`; and when the loop of `region_find`
reaches `q` with such an address it returns `q`.  The lower bound is one below
`start - size`. -/
theorem stack_region_bounds (k : Kernel) (q : Nat) (r : region_t) (a : Nat)
    (hq : k.nodes[q]? = some r) (hs : r.start = USERSTACK) (hsz : r.size < USERSTACK) :
    (∀ fuel as, region_find fuel k as a = .ret (some q) →
      r.start - r.size - 1 ≤ a ∧ a ≤ r.start) ∧
    (∀ fuel, r.start - r.size - 1 ≤ a ∧ a ≤ r.start →
      region_find_loop k.nodes a (fuel + 1) (some q) = .ret (some q)) ∧
    (∀ fuel as, as.regions = some q → r.start - r.size - 1 ≤ a ∧ a ≤ r.start →
      region_find (fuel + 1) k as a = .ret (some q)) := by
  have hlo : sub32 (sub32 r.start r.size) 1 = r.start - r.size - 1 := by
    rw [hs]
    unfold sub32 USERSTACK at *
    omega
  have hstep : ∀ fuel, r.start - r.size - 1 ≤ a ∧ a ≤ r.start →
      region_find_loop k.nodes a (fuel + 1) (some q) = .ret (some q) := by
    intro fuel hb
    simp only [region_find_loop, hq, hs, if_true]
    rw [hs] at hlo hb
    rw [hlo, if_pos ⟨hb.1, hb.2⟩]
  refine ⟨?_, hstep, ?_⟩
  · intro fuel as h
    obtain ⟨r2, hr2, h1, h2⟩ := region_find_loop_sound k.nodes a fuel as.regions q h
    rw [hq] at hr2
    obtain rfl := Option.some.inj hr2
    rw [if_pos hs, hlo] at h1
    rw [if_pos hs] at h2
    exact ⟨h1, h2⟩
  · intro fuel as has hb
    unfold region_find
    rw [has]
    exact hstep fuel hb

/-- On a one-region list the address `USERSTACK - 0x10000 - 1` is returned. -/
theorem stack_region_bounds_example :
    (∀ fuel as, region_find fuel { boot with nodes := [⟨USERSTACK, 0x10000, 6, 6, none⟩] } as
        (USERSTACK - 0x10000 - 1) = .ret (some 0) →
      USERSTACK - 0x10000 - 1 ≤ USERSTACK - 0x10000 - 1 ∧
        USERSTACK - 0x10000 - 1 ≤ USERSTACK) ∧
    region_find_loop [⟨USERSTACK, 0x10000, 6, 6, none⟩] (USERSTACK - 0x10000 - 1) (0 + 1)
      (some 0) = .ret (some 0) := by
  have h := stack_region_bounds { boot with nodes := [⟨USERSTACK, 0x10000, 6, 6, none⟩] }
    0 ⟨USERSTACK, 0x10000, 6, 6, none⟩ (USERSTACK - 0x10000 - 1) rfl rfl (by decide)
  exact ⟨h.1, h.2.1 0 ⟨Nat.le_refl _, by decide⟩⟩


/-! ## Region lists after calls in descending order -/

/-- Two cells that point at each other are not a null-terminated list. -/
theorem cycle_not_list (nodes : List region_t) (p q : Nat) (rp rq : region_t)
    (hp : nodes[p]? = some rp) (hq : nodes[q]? = some rq)
    (hpn : rp.next = some q) (hqn : rq.next = some p) (ps : List Nat) :
    is_list nodes (some p) ps = false := by
  cases hl : is_list nodes (some p) ps with
  | false => rfl
  | true =>
    exfalso
    have hnd := is_list_nodup nodes ps (some p) hl
    cases ps with
    | nil => simp [is_list] at hl
    | cons x xs =>
      obtain ⟨hx, r1, hr1, hl1⟩ := (is_list_cons nodes (some p) x xs).1 hl
      obtain rfl := Option.some.inj hx
      rw [hp] at hr1
      obtain rfl := Option.some.inj hr1
      rw [hpn] at hl1
      cases xs with
      | nil => simp [is_list] at hl1
      | cons y ys =>
        obtain ⟨hy, r2, hr2, hl2⟩ := (is_list_cons nodes (some q) y ys).1 hl1
        obtain rfl := Option.some.inj hy
        rw [hq] at hr2
        obtain rfl := Option.some.inj hr2
        rw [hqn] at hl2
        cases ys with
        | nil => simp [is_list] at hl2
        | cons z zs =>
          obtain ⟨hz, _⟩ := (is_list_cons nodes (some p) z zs).1 hl2
          obtain rfl := Option.some.inj hz
          simp at hnd

/-- On two cells that point at each other and do not own the address the loop
of `region_find` uses up any amount of fuel. -/
theorem region_find_loop_cycle (nodes : List region_t) (a p q : Nat) (rp rq : region_t)
    (hp : nodes[p]? = some rp) (hq : nodes[q]? = some rq)
    (hpn : rp.next = some q) (hqn : rq.next = some p)
    (hmp : ¬ (a ≥ (if rp.start = USERSTACK then sub32 (sub32 rp.start rp.size) 1
        else rp.start) ∧
      a ≤ (if rp.start = USERSTACK then rp.start else sub32 (u32 (rp.start + rp.size)) 1)))
    (hmq : ¬ (a ≥ (if rq.start = USERSTACK then sub32 (sub32 rq.start rq.size) 1
        else rq.start) ∧
      a ≤ (if rq.start = USERSTACK then rq.start else sub32 (u32 (rq.start + rq.size)) 1))) :
    ∀ fuel, region_find_loop nodes a fuel (some p) = .timeout ∧
      region_find_loop nodes a fuel (some q) = .timeout := by
  intro fuel
  induction fuel with
  | zero => exact ⟨rfl, rfl⟩
  | succ n ih =>
    constructor
    · simp only [region_find_loop, hp]
      rw [if_neg hmp, hpn]
      exact ih.2
    · simp only [region_find_loop, hq]
      rw [if_neg hmq, hqn]
      exact ih.1

/-- C29: the calls `as_define_region` at `0x3000`, `0x5000` and `0x1000`, in this
order, on a fresh address space all return `0` and leave the head cell
`0x3000` pointing at the cell `0x1000`, which points back at the head: the
list is not null-terminated, the region `0x5000` is no longer on it, and
`region_find` for the address `0x5000` inside that region uses up any amount
of fuel without returning. -/
theorem C29_descending_calls_make_a_cycle :
    ∃ k as, define_regions 10 boot as_create
        [(0x3000, 0x1000, 4, 0, 0), (0x5000, 0x1000, 4, 2, 0), (0x1000, 0x1000, 4, 0, 1)]
        = .ret (k, as) ∧
      k.nodes = [⟨0x3000, 0x1000, 4, 4, some 2⟩, ⟨0x5000, 0x1000, 6, 6, none⟩,
        ⟨0x1000, 0x1000, 5, 5, some 0⟩] ∧
      as.regions = some 0 ∧
      region_walk k.nodes 5 as.regions = [0x3000, 0x1000, 0x3000, 0x1000, 0x3000] ∧
      (∀ ps, is_list k.nodes as.regions ps = false) ∧
      ∀ fuel, region_find fuel k as 0x5000 = .timeout :=
  ⟨_, _, rfl, by decide, by decide, by decide,
    fun ps => cycle_not_list _ 0 2 _ _ rfl rfl rfl rfl ps,
    fun fuel => (region_find_loop_cycle _ 0x5000 0 2 _ _ rfl rfl rfl rfl (by decide)
      (by decide) fuel).1⟩


/-! ## The TLB entry written by a successful fault -/

/-- A page-table walk that returns `0` writes one TLB entry: the page address
with the entry of the slot, the dirty flag and the valid flag. -/
theorem vm_fault_walk_tlb (k : Kernel) (p : proc) (as : addrspace) (pg i j : Nat)
    (k1 : Kernel) (h : vm_fault_walk k p as pg i j = .ret (0, k1)) :
    ∃ as1, k1.curproc = some { p with p_addrspace := some as1 } ∧
      k1.tlb_writes = k.tlb_writes + 1 ∧
      ∀ s, k1.tlb s =
        if s = k.tlb_slot k.tlb_writes % NUM_TLB then
          (pg, pt_entry as1 i j ||| TLBLO_DIRTY ||| TLBLO_VALID)
        else k.tlb s := by
  have hE : ENOMEM ≠ 0 := by decide
  cases as with
  | mk regions page_table =>
    cases page_table with
    | none =>
      cases hk0 : k.kmalloc_ok k.kmalloc_calls with
      | false => simp [vm_fault_walk, pt_init, kmalloc, hk0, hE] at h
      | true =>
        cases hk1 : k.kmalloc_ok (k.kmalloc_calls + 1) with
        | false => simp [vm_fault_walk, pt_init, pt_create, kmalloc, hk0, hk1, hE] at h
        | true =>
          by_cases hp0 : k.kpages k.kpages_calls = 0
          · simp [vm_fault_walk, pt_init, pt_create, pt_insert, alloc_kpages, kmalloc, hk0, hk1,
              hp0, hE] at h
          · simp [vm_fault_walk, pt_init, pt_create, pt_insert, alloc_kpages, kmalloc, hk0, hk1,
              hp0] at h
            subst h
            refine ⟨_, rfl, rfl, ?_⟩
            intro s
            simp [tlb_random, put_as, bzero, pt_entry]
    | some t =>
      cases ht1 : t i with
      | none =>
        cases hk0 : k.kmalloc_ok k.kmalloc_calls with
        | false => simp [vm_fault_walk, ht1, pt_create, kmalloc, hk0, hE] at h
        | true =>
          by_cases hp0 : k.kpages k.kpages_calls = 0
          · simp [vm_fault_walk, ht1, pt_create, pt_insert, alloc_kpages, kmalloc, hk0,
              hp0, hE] at h
          · simp [vm_fault_walk, ht1, pt_create, pt_insert, alloc_kpages, kmalloc, hk0,
              hp0] at h
            subst h
            refine ⟨_, rfl, rfl, ?_⟩
            intro s
            simp [tlb_random, put_as, bzero, pt_entry]
      | some t2 =>
        by_cases he : t2 j = 0
        · by_cases hp0 : k.kpages k.kpages_calls = 0
          · simp [vm_fault_walk, ht1, he, pt_insert, alloc_kpages, hp0, hE] at h
          · simp [vm_fault_walk, ht1, he, pt_insert, alloc_kpages, hp0] at h
            subst h
            refine ⟨_, rfl, rfl, ?_⟩
            intro s
            simp [tlb_random, put_as, bzero, pt_entry]
        · rw [vm_fault_walk_present k p ⟨regions, some t⟩ pg i j t t2 rfl ht1 he] at h
          simp only [Outcome.ret.injEq, Prod.mk.injEq, true_and] at h
          subst h
          refine ⟨⟨regions, some t⟩, rfl, rfl, ?_⟩
          intro s
          simp [tlb_random, put_as, pt_entry, ht1]

/-- A fault that returns `0` was a Read or a Write fault. -/
theorem vm_fault_ret_zero_type (fuel : Nat) (k : Kernel) (ft : Int) (a : Nat) (k1 : Kernel)
    (h : vm_fault fuel k ft a = .ret (0, k1)) :
    ft = VM_FAULT_READ ∨ ft = VM_FAULT_WRITE := by
  have hE : EFAULT ≠ 0 := by decide
  have hI : EINVAL ≠ 0 := by decide
  unfold vm_fault at h
  cases hcur : k.curproc with
  | none => simp [hcur, hE] at h
  | some p =>
    simp only [hcur] at h
    by_cases ha : a = 0
    · simp [ha, hE] at h
    · simp only [ha, if_false] at h
      cases has : p.p_addrspace with
      | none => simp [has, hE] at h
      | some as =>
        simp only [has] at h
        cases hreg : as.regions with
        | none => simp [hreg, hE] at h
        | some head =>
          simp only [hreg] at h
          cases hfind : region_find fuel
              { k with run_number := u32 (k.run_number + 1), curproc := some p } as a with
          | trap => simp [hcur, hfind] at h
          | timeout => simp [hcur, hfind] at h
          | ret found =>
            simp only [hcur, hfind] at h
            split_ifs at h with h1 h2
            · simp [hE] at h
            · exact h2
            · simp [hE] at h
            · simp [hI] at h

theorem or_flags_and (x : Nat) :
    (x ||| TLBLO_DIRTY ||| TLBLO_VALID) &&& (TLBLO_DIRTY ||| TLBLO_VALID)
      = TLBLO_DIRTY ||| TLBLO_VALID := by
  apply Nat.eq_of_testBit_eq
  intro n
  simp only [Nat.testBit_and, Nat.testBit_or]
  cases x.testBit n <;> cases TLBLO_DIRTY.testBit n <;> cases TLBLO_VALID.testBit n <;> rfl


/-- C27: whenever `vm_fault` returns `0` the fault type was Read or Write, the
TLB was written once, in the slot the hardware picked, and the entry written
has `entryhi` the fault address with its low 12 bits cleared and `entrylo` the
page-table entry of the slot with both the dirty and the valid flag set; no
other slot changed.  The entry written is this one whatever the fault type and
whatever the permissions of the region. -/
theorem C27_vm_fault_tlb_entry (fuel : Nat) (k : Kernel) (ft : Int) (a : Nat) (k1 : Kernel)
    (h : vm_fault fuel k ft a = .ret (0, k1)) :
    (ft = VM_FAULT_READ ∨ ft = VM_FAULT_WRITE) ∧
    ∃ as1, proc_getas k1 = some as1 ∧
      k1.tlb_writes = k.tlb_writes + 1 ∧
      (∀ s, k1.tlb s =
        if s = k.tlb_slot k.tlb_writes % NUM_TLB then
          (a &&& PAGE_FRAME,
            pt_entry as1 (vm_fault_pt1 a) (vm_fault_pt2 a) ||| TLBLO_DIRTY ||| TLBLO_VALID)
        else k.tlb s) ∧
      (pt_entry as1 (vm_fault_pt1 a) (vm_fault_pt2 a) ||| TLBLO_DIRTY ||| TLBLO_VALID)
          &&& (TLBLO_DIRTY ||| TLBLO_VALID) = TLBLO_DIRTY ||| TLBLO_VALID ∧
      (a < 2 ^ 32 → a &&& PAGE_FRAME = a - a % PAGE_SIZE) := by
  refine ⟨vm_fault_ret_zero_type fuel k ft a k1 h, ?_⟩
  obtain ⟨p, as, _, _, hw⟩ := vm_fault_ret_zero fuel k ft a k1 h
  obtain ⟨as1, hc, hn, ht⟩ := vm_fault_walk_tlb _ p as _ _ _ k1 hw
  refine ⟨as1, by simp [proc_getas, hc], hn, ht, or_flags_and _, ?_⟩
  intro ha
  rw [and_page_frame a ha]
  unfold PAGE_SIZE
  omega

/-- C27 on the two-region sample: a Read fault at `0x1000`, in the region with
permissions read+execute, writes the entry `(0x1000, frame | dirty | valid)`
into slot `0`. -/
theorem C27_vm_fault_tlb_entry_witness :
    ∃ k1, vm_fault 3 sample VM_FAULT_READ 0x1000 = .ret (0, k1) ∧
      region_permissions 3 sample sample_as 0x1000 = .ret 5 ∧
      k1.tlb_writes = sample.tlb_writes + 1 ∧
      (k1.tlb 0).1 = 0x1000 ∧
      (k1.tlb 0).2 &&& (TLBLO_DIRTY ||| TLBLO_VALID) = TLBLO_DIRTY ||| TLBLO_VALID := by
  obtain ⟨k1, h⟩ : ∃ k1, vm_fault 3 sample VM_FAULT_READ 0x1000 = .ret (0, k1) := ⟨_, rfl⟩
  obtain ⟨_, as1, _, hn, ht, hfl, _⟩ := C27_vm_fault_tlb_entry 3 sample VM_FAULT_READ 0x1000 k1 h
  have h0 := ht 0
  rw [if_pos (by decide)] at h0
  refine ⟨k1, h, rfl, hn, ?_, ?_⟩
  · rw [h0]; rfl
  · rw [h0]; exact hfl


/-! ## Page-table entries carry no flag bits -/

theorem masked_aligned (x : Nat) : (x &&& PAGE_FRAME) % PAGE_SIZE = 0 := by
  have h := Nat.and_pow_two_sub_one_eq_mod (x &&& PAGE_FRAME) 12
  have e : (2 : Nat) ^ 12 = PAGE_SIZE := by decide
  rw [e] at h
  rw [← h, Nat.land_assoc]
  have : PAGE_FRAME &&& (PAGE_SIZE - 1) = 0 := by decide
  rw [this, Nat.and_zero]

theorem aligned_no_flags (x : Nat) (h : x % PAGE_SIZE = 0) :
    x &&& 0xFFF = 0 ∧ x &&& TLBLO_VALID = 0 ∧ x &&& TLBLO_DIRTY = 0 := by
  have h1 : x &&& 0xFFF = 0 := by
    have h2 := Nat.and_pow_two_sub_one_eq_mod x 12
    have e : (2 : Nat) ^ 12 = PAGE_SIZE := by decide
    rw [e, h] at h2
    exact h2
  have hv : (0xFFF : Nat) &&& TLBLO_VALID = TLBLO_VALID := by decide
  have hd : (0xFFF : Nat) &&& TLBLO_DIRTY = TLBLO_DIRTY := by decide
  refine ⟨h1, ?_, ?_⟩
  · rw [← hv, ← Nat.land_assoc, h1, Nat.zero_and]
  · rw [← hd, ← Nat.land_assoc, h1, Nat.zero_and]

theorem pt_init_aligned (k : Kernel) (as : addrspace) :
    page_aligned_entries (pt_init k as).2.2.page_table := by
  intro i j
  unfold pt_init kmalloc
  cases k.kmalloc_ok k.kmalloc_calls <;> simp [table_entry]

theorem pt_create_aligned (k : Kernel) (t : PageTable1) (i : Nat)
    (h : page_aligned_entries (some t)) :
    page_aligned_entries (some (pt_create k t i).2.2) := by
  intro x y
  have hxy := h x y
  unfold pt_create kmalloc
  simp only [table_entry] at hxy ⊢
  cases k.kmalloc_ok k.kmalloc_calls <;> by_cases hx : x = i <;> simp [hx] <;>
    simpa [hx] using hxy

theorem pt_insert_aligned (k : Kernel) (t : PageTable1) (i j e : Nat) (k1 : Kernel)
    (t1 : PageTable1) (h : page_aligned_entries (some t))
    (hr : pt_insert k t i j = .ret (e, k1, t1)) : page_aligned_entries (some t1) := by
  unfold pt_insert alloc_kpages at hr
  simp only at hr
  by_cases hp : k.kpages k.kpages_calls = 0
  · rw [if_pos hp] at hr
    simp only [Outcome.ret.injEq, Prod.mk.injEq] at hr
    obtain ⟨_, _, rfl⟩ := hr
    exact h
  · rw [if_neg hp] at hr
    cases hti : t i with
    | none => rw [hti] at hr; simp at hr
    | some t2 =>
      rw [hti] at hr
      simp only [Outcome.ret.injEq, Prod.mk.injEq] at hr
      obtain ⟨_, _, rfl⟩ := hr
      intro x y
      have hxy := h x y
      simp only [table_entry] at hxy ⊢
      by_cases hx : x = i
      · subst hx
        rw [hti] at hxy
        by_cases hy : y = j
        · simp [hy, masked_aligned]
        · simpa [hy] using hxy
      · simpa [hx] using hxy


theorem pt_copy_inner_aligned (old2 : PageTable2) (i : Nat) :
    ∀ (js : List Nat) (k : Kernel) (nt : PageTable1) (e : Nat) (k1 : Kernel)
      (nt1 : PageTable1), page_aligned_entries (some nt) →
      pt_copy_inner old2 i js k nt = .ret (e, k1, nt1) → page_aligned_entries (some nt1) := by
  intro js
  induction js with
  | nil =>
    intro k nt e k1 nt1 hal h
    simp only [pt_copy_inner, Outcome.ret.injEq, Prod.mk.injEq] at h
    obtain ⟨_, _, rfl⟩ := h
    exact hal
  | cons j js ih =>
    intro k nt e k1 nt1 hal h
    simp only [pt_copy_inner] at h
    by_cases h0 : old2 j = 0
    · rw [if_pos h0] at h
      exact ih k nt e k1 nt1 hal h
    · rw [if_neg h0] at h
      by_cases hp : (alloc_kpages k).1 = 0
      · rw [if_pos hp] at h
        simp only [Outcome.ret.injEq, Prod.mk.injEq] at h
        obtain ⟨_, _, rfl⟩ := h
        exact hal
      · rw [if_neg hp] at h
        cases hti : nt i with
        | none => rw [hti] at h; simp at h
        | some t =>
          rw [hti] at h
          refine ih _ _ e k1 nt1 ?_ h
          intro x y
          have hxy := hal x y
          simp only [table_entry] at hxy ⊢
          by_cases hx : x = i
          · subst hx
            rw [hti] at hxy
            by_cases hy : y = j
            · simp [hy, masked_aligned]
            · simpa [hy] using hxy
          · simpa [hx] using hxy

set_option maxRecDepth 100000 in
theorem pt_copy_outer_aligned (old : PageTable1) :
    ∀ (is : List Nat) (k : Kernel) (nt : PageTable1) (e : Nat) (k1 : Kernel)
      (nt1 : PageTable1), page_aligned_entries (some nt) →
      pt_copy_outer old is k nt = .ret (e, k1, nt1) → page_aligned_entries (some nt1) := by
  intro is
  induction is with
  | nil =>
    intro k nt e k1 nt1 hal h
    simp only [pt_copy_outer, Outcome.ret.injEq, Prod.mk.injEq] at h
    obtain ⟨_, _, rfl⟩ := h
    exact hal
  | cons i is ih =>
    intro k nt e k1 nt1 hal h
    simp only [pt_copy_outer] at h
    cases ho : old i with
    | none =>
      rw [ho] at h
      exact ih k nt e k1 nt1 hal h
    | some old2 =>
      rw [ho] at h
      simp only at h
      have hc := pt_create_aligned k nt i hal
      by_cases herr : (pt_create k nt i).1 ≠ 0
      · rw [if_pos herr] at h
        simp only [Outcome.ret.injEq, Prod.mk.injEq] at h
        obtain ⟨_, _, rfl⟩ := h
        exact hc
      · rw [if_neg herr] at h
        cases hin : pt_copy_inner old2 i (List.range N_ENTRIES) (pt_create k nt i).2.1
            (pt_create k nt i).2.2 with
        | trap => rw [hin] at h; simp at h
        | timeout => rw [hin] at h; simp at h
        | ret r =>
          obtain ⟨e2, k2, nt2⟩ := r
          rw [hin] at h
          simp only at h
          have hi2 := pt_copy_inner_aligned old2 i _ _ _ e2 k2 nt2 hc hin
          by_cases he2 : e2 ≠ 0
          · rw [if_pos he2] at h
            simp only [Outcome.ret.injEq, Prod.mk.injEq] at h
            obtain ⟨_, _, rfl⟩ := h
            exact hi2
          · rw [if_neg he2] at h
            exact ih k2 nt2 e k1 nt1 hi2 h

theorem pt_copy_aligned (k : Kernel) (old ret : Option PageTable1) (e : Nat) (k1 : Kernel)
    (new : Option PageTable1) (hal : page_aligned_entries ret)
    (h : pt_copy k old ret = .ret (e, k1, new)) : page_aligned_entries new := by
  cases old with
  | none =>
    simp only [pt_copy, Outcome.ret.injEq, Prod.mk.injEq] at h
    obtain ⟨_, _, rfl⟩ := h
    exact hal
  | some o =>
    simp only [pt_copy] at h
    by_cases hok : (kmalloc k).1 = true
    · rw [hok] at h
      simp only [Bool.not_true, Bool.false_eq_true, if_false] at h
      cases hout : pt_copy_outer o (List.range N_ENTRIES) (kmalloc k).2 (fun _ => none) with
      | trap => rw [hout] at h; simp at h
      | timeout => rw [hout] at h; simp at h
      | ret r =>
        obtain ⟨e2, k2, nt⟩ := r
        rw [hout] at h
        simp only at h
        by_cases he2 : e2 ≠ 0
        · rw [if_pos he2] at h
          simp only [Outcome.ret.injEq, Prod.mk.injEq] at h
          obtain ⟨_, _, rfl⟩ := h
          exact hal
        · rw [if_neg he2] at h
          simp only [Outcome.ret.injEq, Prod.mk.injEq] at h
          obtain ⟨_, _, rfl⟩ := h
          refine pt_copy_outer_aligned o _ _ _ e2 k2 nt ?_ hout
          intro x y
          rfl
    · have hk : (kmalloc k).1 = false := by
        cases hh : (kmalloc k).1 with
        | true => exact absurd hh hok
        | false => rfl
      rw [hk] at h
      simp only [Bool.not_false, if_true, Outcome.ret.injEq, Prod.mk.injEq] at h
      obtain ⟨_, _, rfl⟩ := h
      exact hal


/-- Whatever a page-table walk returns, it leaves a page table whose entries
are page-aligned when it found one. -/
theorem vm_fault_walk_aligned (k : Kernel) (p : proc) (as : addrspace) (pg i j e : Nat)
    (k1 : Kernel) (hal : page_aligned_entries as.page_table)
    (h : vm_fault_walk k p as pg i j = .ret (e, k1)) :
    ∃ as1, k1.curproc = some { p with p_addrspace := some as1 } ∧
      page_aligned_entries as1.page_table := by
  have hE : ENOMEM ≠ 0 := by decide
  cases as with
  | mk regions page_table =>
    cases page_table with
    | none =>
      cases hk0 : k.kmalloc_ok k.kmalloc_calls with
      | false =>
        simp [vm_fault_walk, pt_init, kmalloc, hk0, hE] at h
        obtain ⟨_, rfl⟩ := h
        exact ⟨_, rfl, hal⟩
      | true =>
        cases hk1 : k.kmalloc_ok (k.kmalloc_calls + 1) with
        | false =>
          simp [vm_fault_walk, pt_init, pt_create, kmalloc, hk0, hk1, hE] at h
          obtain ⟨_, rfl⟩ := h
          refine ⟨_, rfl, ?_⟩
          intro x y
          simp [table_entry]
        | true =>
          by_cases hp0 : k.kpages k.kpages_calls = 0
          · simp [vm_fault_walk, pt_init, pt_create, pt_insert, alloc_kpages, kmalloc, hk0, hk1,
              hp0, hE] at h
            obtain ⟨_, rfl⟩ := h
            refine ⟨_, rfl, ?_⟩
            intro x y
            by_cases hx : x = i <;> simp [table_entry, hx]
          · simp [vm_fault_walk, pt_init, pt_create, pt_insert, alloc_kpages, kmalloc, hk0, hk1,
              hp0] at h
            obtain ⟨_, rfl⟩ := h
            refine ⟨_, rfl, ?_⟩
            intro x y
            by_cases hx : x = i <;> by_cases hy : y = j <;>
              simp [table_entry, tlb_random, put_as, hx, hy, masked_aligned]
    | some t =>
      have hent : ∀ x y t2, t x = some t2 → t2 y % PAGE_SIZE = 0 := by
        intro x y t2 hx
        have := hal x y
        simpa [table_entry, hx] using this
      cases ht1 : t i with
      | none =>
        cases hk0 : k.kmalloc_ok k.kmalloc_calls with
        | false =>
          simp [vm_fault_walk, ht1, pt_create, kmalloc, hk0, hE] at h
          obtain ⟨_, rfl⟩ := h
          refine ⟨_, rfl, ?_⟩
          intro x y
          have hxy := hal x y
          by_cases hx : x = i
          · simp [table_entry, hx]
          · simpa [table_entry, hx] using hxy
        | true =>
          by_cases hp0 : k.kpages k.kpages_calls = 0
          · simp [vm_fault_walk, ht1, pt_create, pt_insert, alloc_kpages, kmalloc, hk0,
              hp0, hE] at h
            obtain ⟨_, rfl⟩ := h
            refine ⟨_, rfl, ?_⟩
            intro x y
            have hxy := hal x y
            by_cases hx : x = i
            · simp [table_entry, hx]
            · simpa [table_entry, hx] using hxy
          · simp [vm_fault_walk, ht1, pt_create, pt_insert, alloc_kpages, kmalloc, hk0,
              hp0] at h
            obtain ⟨_, rfl⟩ := h
            refine ⟨_, rfl, ?_⟩
            intro x y
            have hxy := hal x y
            by_cases hx : x = i
            · by_cases hy : y = j <;>
                simp [table_entry, tlb_random, put_as, hx, hy, masked_aligned]
            · simpa [table_entry, tlb_random, put_as, hx] using hxy
      | some t2 =>
        by_cases he : t2 j = 0
        · by_cases hp0 : k.kpages k.kpages_calls = 0
          · simp [vm_fault_walk, ht1, he, pt_insert, alloc_kpages, hp0, hE] at h
            obtain ⟨_, rfl⟩ := h
            exact ⟨_, rfl, hal⟩
          · simp [vm_fault_walk, ht1, he, pt_insert, alloc_kpages, hp0] at h
            obtain ⟨_, rfl⟩ := h
            refine ⟨_, rfl, ?_⟩
            intro x y
            have hxy := hal x y
            by_cases hx : x = i
            · by_cases hy : y = j
              · simp [table_entry, tlb_random, put_as, hx, hy, masked_aligned]
              · have := hent i y t2 ht1
                simpa [table_entry, tlb_random, put_as, hx, hy] using this
            · simpa [table_entry, tlb_random, put_as, hx] using hxy
        · rw [vm_fault_walk_present k p ⟨regions, some t⟩ pg i j t t2 rfl ht1 he] at h
          simp only [Outcome.ret.injEq, Prod.mk.injEq] at h
          obtain ⟨_, rfl⟩ := h
          exact ⟨⟨regions, some t⟩, rfl, hal⟩


/-- Whatever `vm_fault` returns, the page table of the current address space
keeps page-aligned entries. -/
theorem vm_fault_aligned (fuel : Nat) (k : Kernel) (p : proc) (as : addrspace) (ft : Int)
    (a e : Nat) (k1 : Kernel) (as1 : addrspace)
    (hcur : k.curproc = some p) (has : p.p_addrspace = some as)
    (hal : page_aligned_entries as.page_table)
    (h : vm_fault fuel k ft a = .ret (e, k1)) (h1 : proc_getas k1 = some as1) :
    page_aligned_entries as1.page_table := by
  have hsame : ∀ k2 : Kernel, k2.curproc = some p → proc_getas k2 = some as1 →
      page_aligned_entries as1.page_table := by
    intro k2 hc hg
    simp only [proc_getas, hc, has, Option.some.injEq] at hg
    rw [← hg]
    exact hal
  unfold vm_fault at h
  simp only [hcur] at h
  by_cases ha : a = 0
  · simp only [ha, if_true, Outcome.ret.injEq, Prod.mk.injEq] at h
    obtain ⟨_, rfl⟩ := h
    exact hsame _ rfl h1
  · simp only [ha, if_false, has] at h
    cases hreg : as.regions with
    | none =>
      simp only [hreg, Outcome.ret.injEq, Prod.mk.injEq] at h
      obtain ⟨_, rfl⟩ := h
      exact hsame _ rfl h1
    | some head =>
      simp only [hreg] at h
      cases hfind : region_find fuel
          { k with run_number := u32 (k.run_number + 1), curproc := some p } as a with
      | trap => simp [hfind] at h
      | timeout => simp [hfind] at h
      | ret found =>
        simp only [hfind] at h
        split_ifs at h
        · simp only [Outcome.ret.injEq, Prod.mk.injEq] at h
          obtain ⟨_, rfl⟩ := h
          exact hsame _ rfl h1
        · obtain ⟨as2, hc2, hal2⟩ := vm_fault_walk_aligned _ p as _ _ _ e k1 hal h
          simp only [proc_getas, hc2, Option.some.injEq] at h1
          rw [← h1]
          exact hal2
        · simp only [Outcome.ret.injEq, Prod.mk.injEq] at h
          obtain ⟨_, rfl⟩ := h
          exact hsame _ rfl h1
        · simp only [Outcome.ret.injEq, Prod.mk.injEq] at h
          obtain ⟨_, rfl⟩ := h
          exact hsame _ rfl h1

theorem pt_reachable_aligned (t : Option PageTable1) (h : pt_reachable t) :
    page_aligned_entries t := by
  induction h with
  | null => intro i j; rfl
  | init k as => exact pt_init_aligned k as
  | create k t i _ ih => exact pt_create_aligned k t i ih
  | insert k t i j e k1 t1 _ hr ih => exact pt_insert_aligned k t i j e k1 t1 ih hr
  | copy k old ret e k1 new _ hr ih => exact pt_copy_aligned k old ret e k1 new ih hr
  | fault fuel k p as ft a e k1 as1 _ hcur has hr hg ih =>
    exact vm_fault_aligned fuel k p as ft a e k1 as1 hcur has ih hr hg

/-- C28: in every page table built from an empty one by `pt_init`,
`pt_create`, `pt_insert`, `pt_copy` and `vm_fault`, whatever these return,
every entry is a multiple of the page size: its low 12 bits are zero, so it
carries neither the valid nor the dirty flag. -/
theorem C28_page_table_entries_are_page_aligned (t : Option PageTable1)
    (h : pt_reachable t) (i j : Nat) :
    table_entry t i j % PAGE_SIZE = 0 ∧ table_entry t i j &&& 0xFFF = 0 ∧
    table_entry t i j &&& TLBLO_VALID = 0 ∧ table_entry t i j &&& TLBLO_DIRTY = 0 :=
  ⟨pt_reachable_aligned t h i j, aligned_no_flags _ (pt_reachable_aligned t h i j)⟩

/-- C28 on the page table left by a Read fault at `0x1000` on the two-region
sample: the entry at `[512][1]` is present and page-aligned. -/
theorem C28_page_table_entries_are_page_aligned_witness :
    ∃ k1 as1, vm_fault 3 sample VM_FAULT_READ 0x1000 = .ret (0, k1) ∧
      proc_getas k1 = some as1 ∧ table_entry as1.page_table 512 1 ≠ 0 ∧
      table_entry as1.page_table 512 1 % PAGE_SIZE = 0 ∧
      table_entry as1.page_table 512 1 &&& 0xFFF = 0 ∧
      table_entry as1.page_table 512 1 &&& TLBLO_VALID = 0 ∧
      table_entry as1.page_table 512 1 &&& TLBLO_DIRTY = 0 := by
  obtain ⟨k1, as1, h, hg, hne⟩ : ∃ k1 as1, vm_fault 3 sample VM_FAULT_READ 0x1000
      = .ret (0, k1) ∧ proc_getas k1 = some as1 ∧ table_entry as1.page_table 512 1 ≠ 0 :=
    ⟨_, _, rfl, rfl, by decide⟩
  exact ⟨k1, as1, h, hg, hne,
    C28_page_table_entries_are_page_aligned as1.page_table
      (pt_reachable.fault 3 sample ⟨some sample_as⟩ sample_as VM_FAULT_READ 0x1000 0 k1 as1
        pt_reachable.null rfl rfl h hg) 512 1⟩


/-! ## `as_prepare_load` called twice -/

/-- On a null-terminated list the sequence `as_prepare_load`,
`as_prepare_load`, `as_complete_load` returns `0` three times and leaves every
region of the list with the permissions read+write, saved and current. -/
theorem prepare_twice_then_complete_of_list (fuel : Nat) (k : Kernel) (as : addrspace)
    (ps : List Nat) (hl : is_list k.nodes as.regions ps = true) (hf : ps.length < fuel) :
    ∃ k1 k2 k3, as_prepare_load fuel k (some as) = .ret (0, k1) ∧
      as_prepare_load fuel k1 (some as) = .ret (0, k2) ∧
      as_complete_load fuel k2 (some as) = .ret (0, k3) ∧
      is_list k3.nodes as.regions ps = true ∧
      k3.nodes.length = k.nodes.length ∧
      (∀ p ∈ ps, ∀ r, k.nodes[p]? = some r →
        ∃ r3, k3.nodes[p]? = some r3 ∧ r3.perm = PF_R ||| PF_W ∧
          r3.old_perm = PF_R ||| PF_W ∧ r3.start = r.start ∧ r3.size = r.size ∧
          r3.next = r.next) ∧
      ∀ (i : Nat), i ∉ ps → k3.nodes[i]? = k.nodes[i]? := by
  obtain ⟨n1, e1, len1, get1⟩ := as_prepare_load_of_list fuel k as ps hl hf
  have hl1 : is_list n1 as.regions ps = true := by
    rw [is_list_congr k.nodes n1 _ ps as.regions]
    · exact hl
    · intro i
      rw [get1 i]
      cases k.nodes[i]? with
      | none => rfl
      | some r => by_cases hi : i ∈ ps <;> simp [hi]
  obtain ⟨n2, e2, len2, get2⟩ :=
    as_prepare_load_of_list fuel { k with nodes := n1 } as ps hl1 hf
  have hl2 : is_list n2 as.regions ps = true := by
    rw [is_list_congr n1 n2 _ ps as.regions]
    · exact hl1
    · intro i
      rw [get2 i]
      show Option.map region_t.next (Option.map _ n1[i]?) = _
      cases n1[i]? with
      | none => rfl
      | some r => by_cases hi : i ∈ ps <;> simp [hi]
  obtain ⟨n3, e3, len3, get3⟩ :=
    as_complete_load_of_list fuel { k with nodes := n2 } as ps hl2 hf
  have hget : ∀ (i : Nat), n3[i]? = (k.nodes[i]?).map (fun r =>
      if i ∈ ps then { r with old_perm := PF_R ||| PF_W, perm := PF_R ||| PF_W } else r) := by
    intro i
    have h3 := get3 i
    have h2 := get2 i
    simp only at h2 h3
    rw [h3, h2, get1 i]
    cases k.nodes[i]? with
    | none => rfl
    | some r => by_cases hi : i ∈ ps <;> simp [hi]
  refine ⟨_, _, _, e1, e2, e3, ?_, ?_, ?_, ?_⟩
  · show is_list n3 as.regions ps = true
    rw [is_list_congr k.nodes n3 _ ps as.regions]
    · exact hl
    · intro i
      rw [hget i]
      cases k.nodes[i]? with
      | none => rfl
      | some r => by_cases hi : i ∈ ps <;> simp [hi]
  · show n3.length = k.nodes.length
    rw [len3]
    show n2.length = k.nodes.length
    rw [len2]
    exact len1
  · intro p hp r hr
    have h := hget p
    simp only [hr, Option.map_some', hp, if_true] at h
    exact ⟨_, h, rfl, rfl, rfl, rfl, rfl⟩
  · intro i hi
    show n3[i]? = k.nodes[i]?
    rw [hget i]
    cases k.nodes[i]? with
    | none => rfl
    | some r => simp [hi]

/-- C32, counterexample: on the two-region sample the sequence
`as_prepare_load`, `as_prepare_load`, `as_complete_load` leaves the first
region, which was read+execute (`5`), with the permissions read+write (`6`). -/
theorem C32_double_prepare_loses_permissions :
    ∃ k1 k2 k3, as_prepare_load 3 sample (some sample_as) = .ret (0, k1) ∧
      as_prepare_load 3 k1 (some sample_as) = .ret (0, k2) ∧
      as_complete_load 3 k2 (some sample_as) = .ret (0, k3) ∧
      sample.nodes = [⟨0x1000, 0x1000, 5, 5, some 1⟩, ⟨0x3000, 0x2000, 6, 6, none⟩] ∧
      k2.nodes = [⟨0x1000, 0x1000, 6, 6, some 1⟩, ⟨0x3000, 0x2000, 6, 6, none⟩] ∧
      k3.nodes = [⟨0x1000, 0x1000, 6, 6, some 1⟩, ⟨0x3000, 0x2000, 6, 6, none⟩] :=
  ⟨_, _, _, rfl, rfl, rfl, by decide, by decide, by decide⟩

/-- C32: whenever `as_prepare_load`, `as_prepare_load`, `as_complete_load` all
return, they return `0` and every region of the list ends with the permissions
read+write, both current and saved, whatever it had before: the second
`as_prepare_load` overwrites the saved permissions, and a region keeps its
bits only if they were read+write already.  Cells outside the list, and the
start, size and link of every region, are unchanged.  On a null-terminated
list with enough fuel the three calls do return. -/
theorem C32_prepare_twice_forces_rw (fuel : Nat) (k : Kernel) (as : addrspace) :
    (∀ rc1 k1 rc2 k2 rc3 k3, as_prepare_load fuel k (some as) = .ret (rc1, k1) →
      as_prepare_load fuel k1 (some as) = .ret (rc2, k2) →
      as_complete_load fuel k2 (some as) = .ret (rc3, k3) →
      rc1 = 0 ∧ rc2 = 0 ∧ rc3 = 0 ∧
      ∃ ps, is_list k.nodes as.regions ps = true ∧ is_list k3.nodes as.regions ps = true ∧
        (∀ p ∈ ps, ∀ r, k.nodes[p]? = some r →
          ∃ r3, k3.nodes[p]? = some r3 ∧ r3.perm = PF_R ||| PF_W ∧
            r3.old_perm = PF_R ||| PF_W ∧ r3.start = r.start ∧ r3.size = r.size ∧
            r3.next = r.next ∧ (r3.perm = r.perm ↔ r.perm = PF_R ||| PF_W)) ∧
        ∀ (i : Nat), i ∉ ps → k3.nodes[i]? = k.nodes[i]?) ∧
    (∀ ps, is_list k.nodes as.regions ps = true → ps.length < fuel →
      ∃ k1 k2 k3, as_prepare_load fuel k (some as) = .ret (0, k1) ∧
        as_prepare_load fuel k1 (some as) = .ret (0, k2) ∧
        as_complete_load fuel k2 (some as) = .ret (0, k3)) := by
  constructor
  · intro rc1 k1 rc2 k2 rc3 k3 h1 h2 h3
    obtain ⟨ps, hl, hf⟩ := as_prepare_load_ret_is_list fuel k as rc1 k1 h1
    obtain ⟨k1', k2', k3', e1, e2, e3, hl3, _, hget, hout⟩ :=
      prepare_twice_then_complete_of_list fuel k as ps hl hf
    rw [h1] at e1
    simp only [Outcome.ret.injEq, Prod.mk.injEq] at e1
    obtain ⟨hrc1, hk1⟩ := e1
    subst hk1
    rw [h2] at e2
    simp only [Outcome.ret.injEq, Prod.mk.injEq] at e2
    obtain ⟨hrc2, hk2⟩ := e2
    subst hk2
    rw [h3] at e3
    simp only [Outcome.ret.injEq, Prod.mk.injEq] at e3
    obtain ⟨hrc3, hk3⟩ := e3
    subst hk3
    refine ⟨hrc1, hrc2, hrc3, ps, hl, hl3, ?_, hout⟩
    intro p hp r hr
    obtain ⟨r3, a1, a2, a3, a4, a5, a6⟩ := hget p hp r hr
    refine ⟨r3, a1, a2, a3, a4, a5, a6, ?_⟩
    rw [a2]
    exact ⟨fun h => h.symm, fun h => h.symm⟩
  · intro ps hl hf
    obtain ⟨k1, k2, k3, e1, e2, e3, _⟩ := prepare_twice_then_complete_of_list fuel k as ps hl hf
    exact ⟨k1, k2, k3, e1, e2, e3⟩

/-- C32 on the two-region sample: the three calls return `0` and both regions
end with the permissions read+write. -/
theorem C32_prepare_twice_forces_rw_witness :
    ∃ k1 k2 k3, as_prepare_load 3 sample (some sample_as) = .ret (0, k1) ∧
      as_prepare_load 3 k1 (some sample_as) = .ret (0, k2) ∧
      as_complete_load 3 k2 (some sample_as) = .ret (0, k3) ∧
      ∃ ps, is_list sample.nodes sample_as.regions ps = true ∧
        ∀ p ∈ ps, ∀ r, sample.nodes[p]? = some r →
          ∃ r3, k3.nodes[p]? = some r3 ∧ r3.perm = PF_R ||| PF_W := by
  obtain ⟨k1, k2, k3, e1, e2, e3⟩ :=
    (C32_prepare_twice_forces_rw 3 sample sample_as).2 [0, 1] (by decide) (by decide)
  obtain ⟨_, _, _, ps, hl, _, hget, _⟩ :=
    (C32_prepare_twice_forces_rw 3 sample sample_as).1 0 k1 0 k2 0 k3 e1 e2 e3
  refine ⟨k1, k2, k3, e1, e2, e3, ps, hl, ?_⟩
  intro p hp r hr
  obtain ⟨r3, a1, a2, _⟩ := hget p hp r hr
  exact ⟨r3, a1, a2⟩


/-! ## Faults at two addresses of one page -/

theorem find?_eq_of_agree {α : Type} (f g : α → Bool) :
    ∀ (l : List α), (∀ x ∈ l, f x = g x) → l.find? f = l.find? g := by
  intro l
  induction l with
  | nil => intro _; rfl
  | cons x xs ih =>
    intro h
    have hx := h x (List.mem_cons_self _ _)
    have hxs := ih (fun y hy => h y (List.mem_cons_of_mem _ hy))
    simp only [List.find?_cons, hx, hxs]

/-- A page-aligned region owns either all of a page or none of it. -/
theorem region_contains_same_page (nodes : List region_t) (a b q : Nat) (r : region_t)
    (hq : nodes[q]? = some r) (hs : r.start % PAGE_SIZE = 0) (hz : r.size % PAGE_SIZE = 0)
    (hpage : b / PAGE_SIZE = a / PAGE_SIZE) :
    region_contains nodes a q = region_contains nodes b q := by
  unfold region_contains
  rw [hq]
  simp only
  unfold PAGE_SIZE at *
  have : (r.start ≤ a ∧ a < r.start + r.size) ↔ (r.start ≤ b ∧ b < r.start + r.size) := by
    constructor <;> intro h <;> constructor <;> omega
  simp only [this]

/-- The page-table walk returns whatever state it starts in. -/
theorem vm_fault_walk_returns (k : Kernel) (p : proc) (as : addrspace) (pg i j : Nat) :
    ∃ e k1, vm_fault_walk k p as pg i j = .ret (e, k1) := by
  have hE : ENOMEM ≠ 0 := by decide
  cases as with
  | mk regions page_table =>
    cases page_table with
    | none =>
      cases hk0 : k.kmalloc_ok k.kmalloc_calls with
      | false => exact ⟨_, _, by simp [vm_fault_walk, pt_init, kmalloc, hk0, hE]; exact ⟨rfl, rfl⟩⟩
      | true =>
        cases hk1 : k.kmalloc_ok (k.kmalloc_calls + 1) with
        | false =>
          exact ⟨_, _, by
            simp [vm_fault_walk, pt_init, pt_create, kmalloc, hk0, hk1, hE]; exact ⟨rfl, rfl⟩⟩
        | true =>
          by_cases hp0 : k.kpages k.kpages_calls = 0
          · exact ⟨_, _, by
              simp [vm_fault_walk, pt_init, pt_create, pt_insert, alloc_kpages, kmalloc, hk0,
                hk1, hp0, hE]; exact ⟨rfl, rfl⟩⟩
          · exact ⟨_, _, by
              simp [vm_fault_walk, pt_init, pt_create, pt_insert, alloc_kpages, kmalloc, hk0,
                hk1, hp0]; exact ⟨rfl, rfl⟩⟩
    | some t =>
      cases ht1 : t i with
      | none =>
        cases hk0 : k.kmalloc_ok k.kmalloc_calls with
        | false =>
          exact ⟨_, _, by simp [vm_fault_walk, ht1, pt_create, kmalloc, hk0, hE]; exact ⟨rfl, rfl⟩⟩
        | true =>
          by_cases hp0 : k.kpages k.kpages_calls = 0
          · exact ⟨_, _, by
              simp [vm_fault_walk, ht1, pt_create, pt_insert, alloc_kpages, kmalloc, hk0,
                hp0, hE]; exact ⟨rfl, rfl⟩⟩
          · exact ⟨_, _, by
              simp [vm_fault_walk, ht1, pt_create, pt_insert, alloc_kpages, kmalloc, hk0,
                hp0]; exact ⟨rfl, rfl⟩⟩
      | some t2 =>
        by_cases he : t2 j = 0
        · by_cases hp0 : k.kpages k.kpages_calls = 0
          · exact ⟨_, _, by
              simp [vm_fault_walk, ht1, he, pt_insert, alloc_kpages, hp0, hE]; exact ⟨rfl, rfl⟩⟩
          · exact ⟨_, _, by
              simp [vm_fault_walk, ht1, he, pt_insert, alloc_kpages, hp0]; exact ⟨rfl, rfl⟩⟩
        · exact ⟨_, _, vm_fault_walk_present k p ⟨regions, some t⟩ pg i j t t2 rfl ht1 he⟩


/-- Away from the lowest byte of the guard band `vm_fault` treats two addresses
of one page alike: on a null-terminated list of page-aligned regions, none of
them a stack region, the calls for two non-null addresses of the same page,
neither of them `USERSTACK - 16 * PAGE_SIZE`, return, with the same result
code and the same state. -/
theorem vm_fault_same_page (fuel : Nat) (k : Kernel) (p : proc) (as : addrspace) (ft : Int)
    (a b : Nat) (ps : List Nat)
    (hcur : k.curproc = some p) (has : p.p_addrspace = some as)
    (hl : is_list k.nodes as.regions ps = true) (hf : ps.length < fuel)
    (hreg : ∀ q ∈ ps, ∀ r, k.nodes[q]? = some r →
      r.start ≠ USERSTACK ∧ 0 < r.size ∧ r.start + r.size ≤ 2 ^ 32 ∧
        r.start % PAGE_SIZE = 0 ∧ r.size % PAGE_SIZE = 0)
    (ha0 : a ≠ 0) (hb0 : b ≠ 0) (ha : a < 2 ^ 32) (hb : b < 2 ^ 32)
    (hpage : b / PAGE_SIZE = a / PAGE_SIZE)
    (hedge : a ≠ USERSTACK - 16 * PAGE_SIZE ∧ b ≠ USERSTACK - 16 * PAGE_SIZE) :
    vm_fault fuel k ft a = vm_fault fuel k ft b ∧
    ∃ e k1, vm_fault fuel k ft a = .ret (e, k1) := by
  have hreg3 : ∀ q ∈ ps, ∀ r, k.nodes[q]? = some r →
      r.start ≠ USERSTACK ∧ 0 < r.size ∧ r.start + r.size ≤ 2 ^ 32 :=
    fun q hq r hr => ⟨(hreg q hq r hr).1, (hreg q hq r hr).2.1, (hreg q hq r hr).2.2.1⟩
  cases hregs : as.regions with
  | none =>
    have e1 := vm_fault_early fuel k ft a (Or.inr (Or.inr (Or.inr (by
      simp [cur_regions, proc_getas, hcur, has, hregs]))))
    have e2 := vm_fault_early fuel k ft b (Or.inr (Or.inr (Or.inr (by
      simp [cur_regions, proc_getas, hcur, has, hregs]))))
    exact ⟨e1.trans e2.symm, _, _, e1⟩
  | some head =>
    have hne : as.regions ≠ none := by rw [hregs]; simp
    have fa : region_find fuel k as a = .ret (ps.find? (region_contains k.nodes a)) :=
      region_find_loop_of_list k.nodes a ps fuel as.regions hl hreg3 hf
    have fb : region_find fuel k as b = .ret (ps.find? (region_contains k.nodes b)) :=
      region_find_loop_of_list k.nodes b ps fuel as.regions hl hreg3 hf
    have hfind : ps.find? (region_contains k.nodes b) = ps.find? (region_contains k.nodes a) := by
      apply find?_eq_of_agree
      intro q hq
      unfold region_contains
      cases hn : k.nodes[q]? with
      | none => rfl
      | some r =>
        obtain ⟨_, _, _, h4, h5⟩ := hreg q hq r hn
        have := region_contains_same_page k.nodes a b q r hn h4 h5 hpage
        unfold region_contains at this
        rw [hn] at this
        exact this.symm
    rw [hfind] at fb
    have va := vm_fault_after_lookup fuel k p as ft a _ hcur has hne ha0 fa
    have vb := vm_fault_after_lookup fuel k p as ft b _ hcur has hne hb0 fb
    have hmap : vm_fault_map { k with run_number := u32 (k.run_number + 1) } p as b =
        vm_fault_map { k with run_number := u32 (k.run_number + 1) } p as a := by
      unfold vm_fault_map vm_fault_pt1 vm_fault_pt2
      rw [same_page_frame a b ha hb hpage]
    have hband : (b < USERSTACK ∧ USERSTACK - 16 * PAGE_SIZE < b) ↔
        (a < USERSTACK ∧ USERSTACK - 16 * PAGE_SIZE < a) := by
      obtain ⟨h1, h2⟩ := hedge
      unfold USERSTACK PAGE_SIZE at *
      constructor <;> intro h <;> constructor <;> omega
    rw [hmap] at vb
    simp only [hband] at vb
    refine ⟨va.trans vb.symm, ?_⟩
    rw [va]
    obtain ⟨e, k1, hw⟩ := vm_fault_walk_returns { k with run_number := u32 (k.run_number + 1) }
      p as (a &&& PAGE_FRAME) (vm_fault_pt1 a) (vm_fault_pt2 a)
    split_ifs
    · exact ⟨_, _, rfl⟩
    · exact ⟨e, k1, hw⟩
    · exact ⟨_, _, rfl⟩
    · exact ⟨_, _, rfl⟩

/-- C31: on the address space built by `as_define_region` calls at `0x1000` and
`0x3000`, the addresses `0x7FFF0000` and `0x7FFF0001` lie in one 4 KiB page and are
both non-null, yet a Read fault at the first returns `EFAULT` and maps
nothing, while a Read fault at the second, from the same state, returns `0`
and maps the page: the guard-band test `faultaddress > stack_end` leaves out
the lowest byte of the band. -/
theorem C31_guard_band_edge_splits_a_page :
    ∃ k as ka kb, define_regions 10 boot as_create
        [(0x1000, 0x1000, 4, 0, 1), (0x3000, 0x2000, 4, 2, 0)] = .ret (k, as) ∧
      0x7FFF0000 / PAGE_SIZE = 0x7FFF0001 / PAGE_SIZE ∧
      0x7FFF0000 = USERSTACK - 16 * PAGE_SIZE ∧
      vm_fault 3 { k with curproc := some ⟨some as⟩ } VM_FAULT_READ 0x7FFF0000
        = .ret (EFAULT, ka) ∧
      ka.kpages_calls = 0 ∧ ka.live_frames = [] ∧
      vm_fault 3 { k with curproc := some ⟨some as⟩ } VM_FAULT_READ 0x7FFF0001
        = .ret (0, kb) ∧
      kb.kpages_calls = 1 ∧ kb.live_frames = [0x80100000] ∧
      EFAULT ≠ 0 :=
  ⟨_, _, _, _, rfl, by decide, by decide, rfl, by decide, by decide, rfl, by decide, by decide,
    by decide⟩


/-! ## Loops on a list that is not null-terminated -/

/-- C11: for a current address space with at least one region, a non-null
address and a fault type other than Read, Write and ReadOnly: whenever the
lookup `region_find` returns, `vm_fault` returns `EFAULT` when no region was
found and the address is outside the guard band, and `EINVAL` otherwise, the
state changing in `run_number` only; and on a null-terminated list with
enough fuel the lookup returns and `vm_fault` returns that code. -/
theorem C11_unrecognised_type_after_lookup (fuel : Nat) (k : Kernel) (p : proc)
    (as : addrspace) (ft : Int) (a : Nat)
    (hcur : k.curproc = some p) (has : p.p_addrspace = some as)
    (hreg : as.regions ≠ none) (ha0 : a ≠ 0)
    (hft : ft ≠ VM_FAULT_READ ∧ ft ≠ VM_FAULT_WRITE ∧ ft ≠ VM_FAULT_READONLY) :
    (∀ found, region_find fuel k as a = .ret found →
      vm_fault fuel k ft a =
        .ret (if found = none ∧ ¬ (a < USERSTACK ∧ USERSTACK - 16 * PAGE_SIZE < a)
              then EFAULT else EINVAL,
          { k with run_number := u32 (k.run_number + 1) })) ∧
    (∀ ps, is_list k.nodes as.regions ps = true → ps.length < fuel →
      ∃ found, region_find fuel k as a = .ret found ∧
        (found = none ∨ ∃ q ∈ ps, found = some q) ∧
        vm_fault fuel k ft a =
          .ret (if found = none ∧ ¬ (a < USERSTACK ∧ USERSTACK - 16 * PAGE_SIZE < a)
                then EFAULT else EINVAL,
            { k with run_number := u32 (k.run_number + 1) })) := by
  have hpart : ∀ found, region_find fuel k as a = .ret found →
      vm_fault fuel k ft a =
        .ret (if found = none ∧ ¬ (a < USERSTACK ∧ USERSTACK - 16 * PAGE_SIZE < a)
              then EFAULT else EINVAL,
          { k with run_number := u32 (k.run_number + 1) }) := by
    intro found hfind
    rw [vm_fault_after_lookup fuel k p as ft a found hcur has hreg ha0 hfind]
    have h1 : ¬ (ft = VM_FAULT_READ ∨ ft = VM_FAULT_WRITE) := by
      intro h; rcases h with h | h
      · exact hft.1 h
      · exact hft.2.1 h
    simp only [h1, hft.2.2, if_false]
    split_ifs <;> rfl
  refine ⟨hpart, ?_⟩
  intro ps hl hf
  obtain ⟨v, e, hv⟩ := region_find_loop_returns k.nodes a ps fuel as.regions hl hf
  exact ⟨v, e, hv, hpart v e⟩

/-- C11 on the two-region sample: fault type `99` at `0x3800`, inside the second
region, returns `EINVAL`. -/
theorem C11_unrecognised_type_after_lookup_witness :
    vm_fault 3 sample 99 0x3800
      = .ret (EINVAL, { sample with run_number := u32 (sample.run_number + 1) }) := by
  obtain ⟨found, hfind, _, hv⟩ :=
    (C11_unrecognised_type_after_lookup 3 sample ⟨some sample_as⟩ sample_as 99 0x3800
      rfl rfl (by decide) (by decide) (by decide)).2 [0, 1] (by decide) (by decide)
  have h1 : region_find 3 sample sample_as 0x3800 = .ret (some 1) := rfl
  rw [h1] at hfind
  simp only [Outcome.ret.injEq] at hfind
  subst hfind
  simpa using hv

end VM
